import Mathlib

/-!
# graphite-clickhouse: finder cache, duration router and fan-out planner

A shallow embedding of the parts of the gateway that the specification talks
about, followed by the theorems that settle each specification claim against
the code.

Conventions of the embedding:

* Go `int`, `int64` and `time.Duration` values are `Int`; where the source
  performs `int64` arithmetic that can leave the 64-bit range the result is
  wrapped with `wrapInt64`.
* Go slices are `List`s, indexed from `0`; an out-of-range index is a run-time
  panic and is reported as such.
* Recursive source functions take a `fuel` argument; the theorems show that the
  fuel handed over by the callers is always enough.
-/

namespace GraphiteClickhouse

/-! ## config/config.go: query parameters and the duration router -/

/-- The fields of `config.QueryParam` the router reads or `Unmarshal` rewrites.
`Duration` and `DataTimeout` are `time.Duration` values in nanoseconds. -/
structure QueryParam where
  Duration : Int
  URL : String
  DataTimeout : Int
  MaxQueries : Int
  ConcurrentQueries : Int
  AdaptiveQueries : Int
deriving DecidableEq, Repr

/-- Ways in which the embedded search can stop without a value: a slice index
outside `0 ≤ i < len(a)` (a Go run-time panic) or exhausted recursion fuel. -/
inductive SearchFault where
  | indexOutOfRange
  | outOfFuel
deriving DecidableEq, Repr

/-- Slice indexing `a[i]` with Go's bounds check. -/
def sliceAt (a : List QueryParam) (i : Int) : Except SearchFault QueryParam :=
  if i < 0 then .error .indexOutOfRange
  else match a.get? i.toNat with
    | some q => .ok q
    | none => .error .indexOutOfRange

/-- Function `binarySearchQueryParamLe(a, duration, start, end)` of config.go, lines
182-206.
The result `-1` is the source's "not found". -/
def binarySearchQueryParamLe (fuel : Nat) (a : List QueryParam) (duration : Int)
    (start stop : Int) : Except SearchFault Int :=
  match fuel with
  | 0 => .error .outOfFuel
  | fuel + 1 =>
    let length := stop - start
    if length ≤ 0 then .ok (-1)
    else if length = 1 then
      match sliceAt a start with
      | .error e => .error e
      | .ok q => if q.Duration > duration then .ok (-1) else .ok start
    else
      let mid := start + length / 2
      match sliceAt a mid with
      | .error e => .error e
      | .ok q =>
        if q.Duration > duration then
          binarySearchQueryParamLe fuel a duration start mid
        else
          match binarySearchQueryParamLe fuel a duration (mid + 1) stop with
          | .error e => .error e
          | .ok result => if result = -1 then .ok mid else .ok result

/-- Function `GetQueryParam(a, duration)` of config.go, lines 1046-1053. The recursion
is handed `len(a) + 1` units of fuel. -/
def GetQueryParam (a : List QueryParam) (duration : Int) : Except SearchFault Int :=
  match binarySearchQueryParamLe (a.length + 1) a duration 0 a.length with
  | .error e => .error e
  | .ok indx => if indx = -1 then .ok 0 else .ok indx

/-- A tier list is sorted ascending by `Duration`. -/
def SortedByDuration (a : List QueryParam) : Prop :=
  List.Pairwise (fun x y => x.Duration ≤ y.Duration) a

instance (a : List QueryParam) : Decidable (SortedByDuration a) := by
  unfold SortedByDuration; infer_instance

/-- A tier with only its minimal duration set. -/
def tierOf (d : Int) : QueryParam :=
  { Duration := d, URL := "", DataTimeout := 0, MaxQueries := 0,
    ConcurrentQueries := 0, AdaptiveQueries := 0 }

/-- One hour as a `time.Duration` (nanoseconds). -/
def hour : Int := 3600 * 1000000000

/-- One minute as a `time.Duration` (nanoseconds). -/
def minute : Int := 60 * 1000000000

/-- The three tiers of the router scenario: `0`, `1h`, `24h`. -/
def exampleTiers : List QueryParam := [tierOf 0, tierOf hour, tierOf (24 * hour)]

/-- The search postcondition: either nothing in `[start, stop)` is `≤ duration`
and the result is `-1`, or the result is the last index of `[start, stop)`
whose tier is `≤ duration`. -/
def SearchPost (a : List QueryParam) (duration start stop r : Int) : Prop :=
  (r = -1 ∧ ∀ j q, start ≤ j → j < stop → sliceAt a j = .ok q → duration < q.Duration) ∨
  (start ≤ r ∧ r < stop ∧ (∃ q, sliceAt a r = .ok q ∧ q.Duration ≤ duration) ∧
    ∀ j q, r < j → j < stop → sliceAt a j = .ok q → duration < q.Duration)

/-! ## Machine integers -/

/-- Two's-complement wrap-around of a mathematical integer into `int64`, the
result Go defines for overflowing signed arithmetic. -/
def wrapInt64 (x : Int) : Int :=
  (x + 9223372036854775808) % 18446744073709551616 - 9223372036854775808

/-- The values an `int64` can hold. -/
def IsInt64 (x : Int) : Prop :=
  -9223372036854775808 ≤ x ∧ x ≤ 9223372036854775807

instance (x : Int) : Decidable (IsInt64 x) := by
  unfold IsInt64; infer_instance

/-! ## config/config.go: cache configuration -/

/-- The `config.CacheConfig` record (config.go, lines 82-93). The timeouts are
`int32` seconds, `ShortDuration` is a `time.Duration` in nanoseconds and
`ShortUntilOffsetSec` an `int64` number of seconds. -/
structure CacheConfig where
  Type_ : String
  Size : Int
  MemcachedServers : List String
  DefaultTimeoutSec : Int
  DefaultTimeoutStr : String
  ShortTimeoutSec : Int
  ShortTimeoutStr : String
  FindTimeoutSec : Int
  ShortDuration : Int
  ShortUntilOffsetSec : Int
deriving DecidableEq, Repr

/-- The two metric sinks `GetCacheTimeout` hands back with the TTL:
`metrics.DefaultCacheMetrics` and `metrics.ShortCacheMetrics`. -/
inductive CacheMetric where
  | DefaultCacheMetrics
  | ShortCacheMetrics
deriving DecidableEq, Repr

/-! ## helper/finder/utils.go: TTL selection and cache keys -/

/-- The constant `time.Second` as a `time.Duration`. -/
def timeSecond : Int := 1000000000

/-- Function `GetCacheTimeout(now, from, until, cacheConfig)` of utils.go, lines 14-24.
`nowUnix` is `now.Unix()`, the only use the function makes of `now`. The
conversion `time.Second * time.Duration(until-from)` and the subtractions are
`int64` arithmetic and wrap. -/
def GetCacheTimeout (nowUnix from_ until_ : Int) (cacheConfig : CacheConfig) :
    Int × String × CacheMetric :=
  if cacheConfig.ShortDuration = 0 then
    (cacheConfig.DefaultTimeoutSec, cacheConfig.DefaultTimeoutStr, .DefaultCacheMetrics)
  else
    let duration := wrapInt64 (timeSecond * wrapInt64 (until_ - from_))
    if duration > cacheConfig.ShortDuration ∨
        wrapInt64 (nowUnix - until_) > cacheConfig.ShortUntilOffsetSec then
      (cacheConfig.DefaultTimeoutSec, cacheConfig.DefaultTimeoutStr, .DefaultCacheMetrics)
    else
      (cacheConfig.ShortTimeoutSec, cacheConfig.ShortTimeoutStr, .ShortCacheMetrics)

/-- The cache configuration of the short-TTL scenario: `short_duration = 3h`,
`short_until_offset = 120s`, `short_ttl = 10s`, `default_ttl = 600s`. -/
def exampleCacheConfig : CacheConfig :=
  { Type_ := "mem", Size := 0, MemcachedServers := [],
    DefaultTimeoutSec := 600, DefaultTimeoutStr := "600",
    ShortTimeoutSec := 10, ShortTimeoutStr := "10",
    FindTimeoutSec := 0, ShortDuration := 3 * hour, ShortUntilOffsetSec := 120 }

/-! ### Calendar dates of the standard library

`time.Unix(sec, 0).Format("2006-01-02")` is standard-library behaviour: the
instant is converted to the process-local zone and its proleptic Gregorian
calendar date is printed as year, month and day, each zero-padded (the year to
four digits, a negative year with a leading minus sign). The zone is a function
from the instant to its offset east of UTC in seconds. The library's own
overflow at the far ends of `int64` is not part of the embedding. -/

/-- A time zone: the offset east of UTC, in seconds, in force at an instant. -/
abbrev Location := Int → Int

/-- The zone `UTC`. -/
def UTC : Location := fun _ => 0

/-- Proleptic Gregorian `(year, month, day)` of a day number counted from
1970-01-01. -/
def civilFromDays (z : Int) : Int × Int × Int :=
  let z := z + 719468
  let era := z / 146097
  let doe := z - era * 146097
  let yoe := (doe - doe / 1460 + doe / 36524 - doe / 146096) / 365
  let doy := doe - (365 * yoe + yoe / 4 - yoe / 100)
  let mp := (5 * doy + 2) / 153
  let d := doy - (153 * mp + 2) / 5 + 1
  let m := if mp < 10 then mp + 3 else mp - 9
  let y := yoe + era * 400
  (if m ≤ 2 then y + 1 else y, m, d)

/-- Day number, counted from 1970-01-01, of a proleptic Gregorian date. -/
def daysFromCivil (y m d : Int) : Int :=
  let y := if m ≤ 2 then y - 1 else y
  let era := y / 400
  let yoe := y - era * 400
  let doy := (153 * (if m > 2 then m - 3 else m + 9) + 2) / 5 + d - 1
  let doe := yoe * 365 + yoe / 4 - yoe / 100 + doy
  era * 146097 + doe - 719468

/-- Leap years of the Gregorian calendar. -/
def isLeapYear (y : Int) : Bool :=
  y % 4 = 0 ∧ (y % 100 ≠ 0 ∨ y % 400 = 0)

/-- Number of days of month `m` in year `y`. -/
def daysInMonth (y m : Int) : Int :=
  if m = 2 then (if isLeapYear y then 29 else 28)
  else if m = 4 ∨ m = 6 ∨ m = 9 ∨ m = 11 then 30
  else 31

/-- The local day number of an epoch second: whole days since 1970-01-01 on the
local clock. Two instants fall on the same calendar day when their local day
numbers agree. -/
def localDay (loc : Location) (sec : Int) : Int :=
  (sec + loc sec) / 86400

/-- The decimal digit character of `n % 10`. -/
def digitChar (n : Nat) : Char :=
  Char.ofNat (48 + n % 10)

/-- Decimal digits of `n`, most significant first, pushed in front of `acc`. -/
def utoaAux : Nat → Nat → List Char → List Char
  | 0, _, acc => acc
  | fuel + 1, n, acc =>
    if n / 10 = 0 then digitChar n :: acc
    else utoaAux fuel (n / 10) (digitChar n :: acc)

/-- Decimal digits of `n`, most significant first. -/
def utoa (n : Nat) : List Char :=
  utoaAux (n + 1) n []

/-- The zero-padded digits `appendInt` writes after the optional sign. -/
def paddedDigits (n width : Nat) : List Char :=
  List.replicate (width - (utoa n).length) '0' ++ utoa n

/-- The library's `appendInt(x, width)`: the decimal digits of `|x|`, padded on
the left with zeros to at least `width` digits, after a minus sign when
`x < 0`. -/
def appendInt (x : Int) (width : Nat) : List Char :=
  if x < 0 then '-' :: paddedDigits x.natAbs width else paddedDigits x.natAbs width

/-- The number a list of decimal digit characters denotes. -/
def decValue (cs : List Char) : Nat :=
  cs.foldl (fun v c => 10 * v + (c.toNat - 48)) 0

/-- The text `YYYY-MM-DD` of a calendar date. -/
def formatYMD (ymd : Int × Int × Int) : List Char :=
  appendInt ymd.1 4 ++ '-' :: (appendInt ymd.2.1 2 ++ '-' :: appendInt ymd.2.2 2)

/-- The standard-library call `time.Unix(sec, 0).Format("2006-01-02")` in the
zone `loc`. -/
def formatDate (loc : Location) (sec : Int) : String :=
  ⟨formatYMD (civilFromDays (localDay loc sec))⟩

/-- Function `TargetKey(from, until, target, ttl)` of utils.go, lines 10-12. -/
def TargetKey (loc : Location) (from_ until_ : Int) (target ttl : String) : String :=
  formatDate loc from_ ++ ";" ++ formatDate loc until_ ++ ";" ++ target ++ ";ttl=" ++ ttl

/-! ## finder/cache.go: the finder cache

The cache is embedded with its locks: a `sync.RWMutex` is a writer flag and a
reader count. A call on the cache ends in one of three ways. It returns; or it
reaches a lock it cannot take (the caller waits, `blocked`); or it performs
`Unlock` on a mutex that is not locked for writing, which the Go runtime
answers with the fatal error `sync: Unlock of unlocked RWMutex` (`fatal`). In
the last two cases the outcome carries the cache as it is at that point. -/

/-- State of a `sync.RWMutex`. -/
structure RWMutex where
  writer : Bool
  readers : Nat
deriving DecidableEq, Repr

/-- The zero value of `sync.RWMutex`: unlocked. -/
def RWMutex.free : RWMutex := { writer := false, readers := 0 }

/-- Method `rw.Lock()`: `none` when the caller has to wait (a writer or readers hold
the mutex). -/
def RWMutex.Lock (rw : RWMutex) : Option RWMutex :=
  if rw.writer ∨ 0 < rw.readers then none else some { rw with writer := true }

/-- Method `rw.RLock()`: `none` when the caller has to wait (a writer holds the
mutex). -/
def RWMutex.RLock (rw : RWMutex) : Option RWMutex :=
  if rw.writer then none else some { rw with readers := rw.readers + 1 }

/-- Method `rw.Unlock()`: `none` is the run-time error raised when the mutex is not
locked for writing. -/
def RWMutex.Unlock (rw : RWMutex) : Option RWMutex :=
  if rw.writer then some { rw with writer := false } else none

/-- A finder result (the interface `finder.Result`); `none` is the nil
interface value, otherwise the listed metric names. -/
abbrev Result := Option (List String)

/-- The `CacheEntry` record (cache.go, lines 9-15). -/
structure CacheEntry where
  expire : Int
  lock : RWMutex
  result : Result
  done : Bool
deriving DecidableEq, Repr

/-- The zero value `new(CacheEntry)`. -/
def CacheEntry.new : CacheEntry :=
  { expire := 0, lock := RWMutex.free, result := none, done := false }

/-- A Go `map[string]*CacheEntry` as an association list; the entries are held
by pointer, so a change to an entry is a change in place. -/
abbrev EntryMap := List (String × CacheEntry)

/-- Map read `m[key]`. -/
def EntryMap.get (m : EntryMap) (key : String) : Option CacheEntry :=
  match m with
  | [] => none
  | (k, e) :: rest => if k = key then some e else EntryMap.get rest key

/-- Write through the pointer stored under `key`. -/
def EntryMap.update (m : EntryMap) (key : String) (e : CacheEntry) : EntryMap :=
  m.map (fun p => if p.1 = key then (p.1, e) else p)

/-- Map write `m[key] = e` for a key that is not in the map. -/
def EntryMap.insertNew (m : EntryMap) (key : String) (e : CacheEntry) : EntryMap :=
  m ++ [(key, e)]

/-- The builtin `delete(m, key)`. -/
def EntryMap.delete (m : EntryMap) (key : String) : EntryMap :=
  m.filter (fun p => p.1 ≠ key)

/-- Each key occurs once, as in a Go map. -/
def EntryMap.WF (m : EntryMap) : Prop :=
  (m.map Prod.fst).Nodup

instance (m : EntryMap) : Decidable (EntryMap.WF m) := by
  unfold EntryMap.WF; infer_instance

/-- The `Cache` record (cache.go, lines 41-52); `hits`, `miss` and `count` are
`uint64` counters. The stop channel plays no part in the operations. -/
structure Cache where
  lock : RWMutex
  data : EntryMap
  hits : Nat
  miss : Nat
  count : Nat
deriving DecidableEq, Repr

/-- An empty cache with all counters at zero. -/
def Cache.empty : Cache :=
  { lock := RWMutex.free, data := [], hits := 0, miss := 0, count := 0 }

/-- The call `atomic.AddUint64(&x, 1)`. -/
def addUint64 (x : Nat) : Nat :=
  (x + 1) % 18446744073709551616

/-- How a call on the cache ends. -/
inductive Outcome (α : Type) where
  | returned (value : α) (cache : Cache)
  | blocked (cache : Cache)
  | fatal (cache : Cache)
deriving DecidableEq, Repr

/-- The cache at the end of a call, however it ended. -/
def Outcome.cache {α : Type} : Outcome α → Cache
  | .returned _ c => c
  | .blocked c => c
  | .fatal c => c

/-- The call came back to its caller. -/
def Outcome.isReturned {α : Type} : Outcome α → Bool
  | .returned _ _ => true
  | _ => false

/-- How `CacheEntry.Result` ends, with the entry at that point. -/
inductive EntryOutcome where
  | returned (r : Result) (done : Bool) (e : CacheEntry)
  | blocked (e : CacheEntry)
  | fatal (e : CacheEntry)
deriving DecidableEq, Repr

/-- Method `(e *CacheEntry) Result()` (cache.go, lines 17-27): `e.RLock()`, read
`done` and `result`, `e.Unlock()`. -/
def CacheEntry.Result (e : CacheEntry) : EntryOutcome :=
  match e.lock.RLock with
  | none => .blocked e
  | some l1 =>
    let e1 := { e with lock := l1 }
    let done := e1.done
    let r := if done then e1.result else none
    match e1.lock.Unlock with
    | none => .fatal e1
    | some l2 => .returned r done { e1 with lock := l2 }

/-- Method `(c *Cache) LockEntry(key)` (cache.go, lines 54-63). -/
def Cache.LockEntry (c : Cache) (key : String) : Outcome Unit :=
  match c.lock.Lock with
  | none => .blocked c
  | some l1 =>
    let c1 := { c with lock := l1 }
    let (e, c2) :=
      match c1.data.get key with
      | some e => (e, c1)
      | none => (CacheEntry.new, { c1 with data := c1.data.insertNew key CacheEntry.new })
    match e.lock.Lock with
    | none => .blocked c2
    | some el =>
      let c3 := { c2 with data := c2.data.update key { e with lock := el } }
      match c3.lock.Unlock with
      | none => .fatal c3
      | some l2 => .returned () { c3 with lock := l2 }

/-- The value `time.Now().Add(expire).Unix()` for an instant `now` and a duration
`expire`, both in nanoseconds. -/
def unixAfter (now expire : Int) : Int :=
  (now + expire) / 1000000000

/-- Method `(c *Cache) PutEntry(key, result, expire)` (cache.go, lines 77-88),
run at the instant `now` (nanoseconds since the epoch). -/
def Cache.PutEntry (c : Cache) (now : Int) (key : String) (result : Result)
    (expire : Int) : Outcome Unit :=
  match c.lock.RLock with
  | none => .blocked c
  | some l1 =>
    let c1 := { c with lock := l1 }
    match c1.data.get key with
    | some e =>
      let e1 := { e with result := result, expire := unixAfter now expire, done := true }
      let c2 := { c1 with data := c1.data.update key e1, count := addUint64 c1.count }
      match e1.lock.Unlock with
      | none => .fatal c2
      | some el =>
        let c3 := { c2 with data := c2.data.update key { e1 with lock := el } }
        match c3.lock.Unlock with
        | none => .fatal c3
        | some l2 => .returned () { c3 with lock := l2 }
    | none =>
      match c1.lock.Unlock with
      | none => .fatal c1
      | some l2 => .returned () { c1 with lock := l2 }

/-- Method `(c *Cache) GetEntry(key)` (cache.go, lines 91-109). -/
def Cache.GetEntry (c : Cache) (key : String) : Outcome (Result × Bool) :=
  match c.lock.RLock with
  | none => .blocked c
  | some l1 =>
    let c1 := { c with lock := l1 }
    match c1.data.get key with
    | some e =>
      match e.Result with
      | .blocked e1 => .blocked { c1 with data := c1.data.update key e1 }
      | .fatal e1 => .fatal { c1 with data := c1.data.update key e1 }
      | .returned result done e1 =>
        let c2 := { c1 with data := c1.data.update key e1 }
        let c3 := if done then { c2 with hits := addUint64 c2.hits }
          else { c2 with miss := addUint64 c2.miss }
        match c3.lock.Unlock with
        | none => .fatal c3
        | some l2 => .returned (result, done) { c3 with lock := l2 }
    | none =>
      let c2 := { c1 with miss := addUint64 c1.miss }
      match c2.lock.Unlock with
      | none => .fatal c2
      | some l2 => .returned (none, false) { c2 with lock := l2 }

/-- Method `(c *Cache) DeleteEntry(key)` (cache.go, lines 111-115). -/
def Cache.DeleteEntry (c : Cache) (key : String) : Outcome Unit :=
  match c.lock.Lock with
  | none => .blocked c
  | some l1 =>
    let c1 := { c with lock := l1, data := c.data.delete key }
    match c1.lock.Unlock with
    | none => .fatal c1
    | some l2 => .returned () { c1 with lock := l2 }

/-- Method `(c *Cache) ExpireEntries()` (cache.go, lines 117-127), run when
`time.Now().Unix()` is `now`. `len(c.data)` is a non-negative `int`, so its
conversion to `uint64` keeps the value. -/
def Cache.ExpireEntries (c : Cache) (now : Int) : Outcome Unit :=
  match c.lock.Lock with
  | none => .blocked c
  | some l1 =>
    let c1 := { c with lock := l1 }
    let kept := c1.data.filter (fun p => ¬ (p.2.expire < now))
    let c2 := { c1 with data := kept, count := kept.length }
    match c2.lock.Unlock with
    | none => .fatal c2
    | some l2 => .returned () { c2 with lock := l2 }

/-- The metric list used in the scenarios. -/
def exampleResult : Result := some ["a.b.x", "a.b.y"]

/-- A cache with the key `"k"` reserved: the outcome of `LockEntry("k")` on the
empty cache. -/
def reservedCache : Cache :=
  { lock := RWMutex.free,
    data := [("k", { expire := 0, lock := { writer := true, readers := 0 },
                     result := none, done := false })],
    hits := 0, miss := 0, count := 0 }

/-- A cache holding one entry published at second 100 with a TTL of 10 seconds
and one published at second 100 with a TTL of 3 seconds. -/
def publishedCache : Cache :=
  { lock := RWMutex.free,
    data := [("k", { expire := 110, lock := RWMutex.free, result := exampleResult,
                     done := true }),
             ("j", { expire := 103, lock := RWMutex.free, result := some [],
                     done := true })],
    hits := 0, miss := 0, count := 2 }

/-- The entry `PutEntry` leaves behind when it publishes `exampleResult` at
second 100 with a TTL of 10 seconds. -/
def publishedEntry : CacheEntry :=
  { expire := 110, lock := RWMutex.free, result := exampleResult, done := true }

/-- The cache after `"k"` was published at second 100 with a TTL of 10 seconds:
the published entry, `count` raised to 1. -/
def publishedOne : Cache :=
  { lock := RWMutex.free, data := [("k", publishedEntry)], hits := 0, miss := 0, count := 1 }

/-! ## helper/finder/finder.go: the fan-out planner

`Find` walks the request, starts one goroutine per target that was not served
from the cache and waits for all of them. The embedding keeps what decides the
returned error and the limiter bookkeeping: the main loop with its `Enter`
calls, the outcome of every finder call, and the order in which the goroutines
append to the shared `errors` slice. Merging into the aliased-metric map, the
cache `Set`, logging and metrics do not influence the returned values and are
left out.

The collaborators are parameters: `enabled` is `qlimiter.Enabled()`,
`enter k` is the result of the `k`-th call of `qlimiter.Enter` (`none` is a nil
error), `find a i` is the error result of `finder.Find` for target `i` of the
`a`-th time frame, and `sched` is the completion order chosen by the
scheduler. -/

/-- A Go `error` value that is not nil, by its message. -/
abbrev GoError := String

/-- One target of a time frame: `targets.List[i]` with `targets.Cache[i].Cached`. -/
structure TargetSlot where
  target : String
  cached : Bool
deriving DecidableEq, Repr

/-- One entry of `data.MultiTarget`: a time frame and its targets. The map is
given as the list of its entries in the order the `range` loop visits them. -/
structure FetchRequest where
  From : Int
  Until : Int
  slots : List TargetSlot
deriving DecidableEq, Repr

/-- What the main loop of `Find` does for a target it does not skip: the
limiter refuses it and the error is appended to `errors`, or a goroutine is
started whose finder call has the given outcome. `a` and `i` are the positions
of the time frame and of the target. -/
inductive FindEvent where
  | enterFailed (a i : Nat) (err : GoError)
  | launched (a i : Nat) (outcome : Option GoError)
deriving DecidableEq, Repr

/-- The error a call contributes to `errors`, if it failed. -/
def FindEvent.error : FindEvent → Option GoError
  | .enterFailed _ _ e => some e
  | .launched _ _ o => o

/-- The variables of `Find` its main loop updates. -/
structure LoopState where
  maxDuration : Int
  enterCalls : Nat
  entered : Nat
  events : List FindEvent
deriving DecidableEq, Repr

/-- The inner loop `for i, expr := range targets.List` of `Find` (finder.go,
lines 110-168) from target `i` on; a failed `Enter` leaves the loop (`break`). -/
def findInnerLoop (enabled : Bool) (enter : Nat → Option GoError)
    (find : Nat → Nat → Option GoError) (a : Nat) (from_ until_ : Int) :
    List TargetSlot → Nat → LoopState → LoopState
  | [], _, st => st
  | s :: rest, i, st =>
    let d := wrapInt64 (until_ - from_)
    let st1 := if st.maxDuration < d then { st with maxDuration := d } else st
    if s.cached then
      findInnerLoop enabled enter find a from_ until_ rest (i + 1) st1
    else if enabled then
      match enter st1.enterCalls with
      | some e =>
        { st1 with enterCalls := st1.enterCalls + 1,
                   events := st1.events ++ [.enterFailed a i e] }
      | none =>
        findInnerLoop enabled enter find a from_ until_ rest (i + 1)
          { st1 with enterCalls := st1.enterCalls + 1, entered := st1.entered + 1,
                     events := st1.events ++ [.launched a i (find a i)] }
    else
      findInnerLoop enabled enter find a from_ until_ rest (i + 1)
        { st1 with events := st1.events ++ [.launched a i (find a i)] }

/-- The outer loop `for tf, targets := range fetchRequests` of `Find` from the
`a`-th time frame on. -/
def findOuterLoop (enabled : Bool) (enter : Nat → Option GoError)
    (find : Nat → Nat → Option GoError) : List FetchRequest → Nat → LoopState → LoopState
  | [], _, st => st
  | r :: rest, a, st =>
    findOuterLoop enabled enter find rest (a + 1)
      (findInnerLoop enabled enter find a r.From r.Until r.slots 0 st)

/-- The `errors` slice once the main loop has run the remaining `events` and
the goroutines still running (`pending`, by outcome) have finished in the order
they were started. -/
def drainErrors (events : List FindEvent) (pending : List (Option GoError))
    (errs : List GoError) : List GoError :=
  errs ++ (events.filterMap fun ev =>
      match ev with
      | .enterFailed _ _ e => some e
      | .launched _ _ _ => none) ++
    (pending ++ events.filterMap fun ev =>
      match ev with
      | .enterFailed _ _ _ => none
      | .launched _ _ o => some o).filterMap id

/-- The `errors` slice at `wg.Wait()` under a schedule. A `0` lets the main
loop take its next step; `n + 1` lets the `n`-th goroutine still running finish
(it appends its error, if any); a choice that is not possible is skipped; when
the schedule is used up the rest runs as in `drainErrors`. -/
def joinErrors : List Nat → List FindEvent → List (Option GoError) → List GoError →
    List GoError
  | [], events, pending, errs => drainErrors events pending errs
  | 0 :: sched, [], pending, errs => joinErrors sched [] pending errs
  | 0 :: sched, .enterFailed _ _ e :: events, pending, errs =>
    joinErrors sched events pending (errs ++ [e])
  | 0 :: sched, .launched _ _ o :: events, pending, errs =>
    joinErrors sched events (pending ++ [o]) errs
  | (n + 1) :: sched, events, pending, errs =>
    match pending.get? n with
    | none => joinErrors sched events pending errs
    | some none => joinErrors sched events (pending.eraseIdx n) errs
    | some (some e) => joinErrors sched events (pending.eraseIdx n) (errs ++ [e])

/-- What `Find` hands back and what it did to the limiter. -/
structure FindResult where
  maxDuration : Int
  err : Option GoError
  errors : List GoError
  events : List FindEvent
  enterCalls : Nat
  entered : Nat
  leaveCalls : Nat
deriving DecidableEq, Repr

/-- Function `Find` (finder.go, lines 89-175): the main loop, the join, `err = errors[0]`
when `errors` is not empty, and the deferred loop that calls `Leave` once per
counted `Enter` when the limiter is enabled. -/
def Find (enabled : Bool) (enter : Nat → Option GoError)
    (find : Nat → Nat → Option GoError) (fetchRequests : List FetchRequest)
    (sched : List Nat) : FindResult :=
  let st := findOuterLoop enabled enter find fetchRequests 0
    { maxDuration := 0, enterCalls := 0, entered := 0, events := [] }
  let errors := joinErrors sched st.events [] []
  { maxDuration := st.maxDuration
    err := errors.head?
    errors := errors
    events := st.events
    enterCalls := st.enterCalls
    entered := st.entered
    leaveCalls := if enabled then st.entered else 0 }

/-- The schedule in which every finder call finishes before the main loop
moves on to the next target. -/
def inOrderSchedule : List FindEvent → List Nat
  | [] => []
  | .enterFailed _ _ _ :: events => 0 :: inOrderSchedule events
  | .launched _ _ _ :: events => 0 :: 1 :: inOrderSchedule events

/-- A request with one time frame and the two uncached targets `a.*`, `b.*`. -/
def twoTargets : List FetchRequest :=
  [{ From := 1704150000, Until := 1704153600,
     slots := [{ target := "a.*", cached := false }, { target := "b.*", cached := false }] }]

/-- A finder that fails for both targets of `twoTargets`. -/
def bothFail : Nat → Nat → Option GoError
  | 0, 0 => some "a.* failed"
  | 0, 1 => some "b.* failed"
  | _, _ => none

/-- A finder that fails for the second target of `twoTargets` only. -/
def secondFails : Nat → Nat → Option GoError
  | 0, 1 => some "b.* failed"
  | _, _ => none

/-- The event `ev` is a call `Find` makes for target `i` of time frame `a`: the
target was not served from the cache, and either a goroutine was started for
it, with the outcome of its finder call, or the enabled limiter refused it. -/
def IsCallFor (enabled : Bool) (enter : Nat → Option GoError)
    (find : Nat → Nat → Option GoError) (reqs : List FetchRequest) (a i : Nat)
    (ev : FindEvent) : Prop :=
  ∃ r s, reqs.get? a = some r ∧ r.slots.get? i = some s ∧ s.cached = false ∧
    (ev = .launched a i (find a i) ∨
      ∃ e k, enabled = true ∧ enter k = some e ∧ ev = .enterFailed a i e)

/-- The limiter lets every call through: it is disabled or no `Enter` fails. -/
def LimiterAdmitsAll (enabled : Bool) (enter : Nat → Option GoError) : Prop :=
  enabled = false ∨ ∀ k, enter k = none

/-! ## finder/cache.go: concurrent callers of `LockEntry`

Several goroutines run `LockEntry(key)` on one cache. Each goroutine is at one
of the program points of the method; a step of the system is one goroutine
executing its next statement, which is possible only when the lock it asks for
can be taken. -/

/-- Program points of `LockEntry` (cache.go, lines 54-63): before `c.Lock()`;
holding the map lock, before the map lookup; holding the map lock with the
entry `e` at hand, before `e.Lock()`; holding both locks, before `c.Unlock()`;
returned, holding the entry lock. -/
inductive LockPc where
  | start
  | holdsMap
  | hasEntry
  | holdsBoth
  | returned
deriving DecidableEq, Repr

/-- The next statement of `LockEntry(key)` at a program point, `none` when the
goroutine cannot move (it waits for a lock, or it has returned). The local
pointer `e` of a goroutine past the lookup is the entry stored under `key`: no
statement of `LockEntry` removes or replaces an entry of the map. -/
def lockEntryStep (key : String) (c : Cache) : LockPc → Option (Cache × LockPc)
  | .start =>
    match c.lock.Lock with
    | none => none
    | some l => some ({ c with lock := l }, .holdsMap)
  | .holdsMap =>
    match c.data.get key with
    | some _ => some (c, .hasEntry)
    | none => some ({ c with data := c.data.insertNew key CacheEntry.new }, .hasEntry)
  | .hasEntry =>
    match c.data.get key with
    | none => none
    | some e =>
      match e.lock.Lock with
      | none => none
      | some el => some ({ c with data := c.data.update key { e with lock := el } }, .holdsBoth)
  | .holdsBoth =>
    match c.lock.Unlock with
    | none => none
    | some l => some ({ c with lock := l }, .returned)
  | .returned => none

/-- The cache and the program point of every goroutine. -/
structure Sys where
  cache : Cache
  pcs : List LockPc
deriving DecidableEq, Repr

/-- Goroutine `t` executes its next statement, if it can. -/
def Sys.step (key : String) (s : Sys) (t : Nat) : Option Sys :=
  match s.pcs.get? t with
  | none => none
  | some pc =>
    match lockEntryStep key s.cache pc with
    | none => none
    | some (c, pc') => some { cache := c, pcs := s.pcs.set t pc' }

/-- The system after a schedule: each element names the goroutine to run next;
a goroutine that cannot move leaves the system as it is. -/
def Sys.run (key : String) : Sys → List Nat → Sys
  | s, [] => s
  | s, t :: ts =>
    match s.step key t with
    | none => Sys.run key s ts
    | some s' => Sys.run key s' ts

/-- The system of `n` goroutines about to call `LockEntry` on the cache `c`. -/
def Sys.init (c : Cache) (n : Nat) : Sys :=
  { cache := c, pcs := List.replicate n .start }

/-- No goroutine can move. -/
def Sys.Terminal (key : String) (s : Sys) : Prop :=
  ∀ t, s.step key t = none

/-- The goroutine holds the map lock. -/
def LockPc.inMap : LockPc → Bool
  | .holdsMap => true
  | .hasEntry => true
  | .holdsBoth => true
  | _ => false

/-- The goroutine holds the entry lock. -/
def LockPc.inEntry : LockPc → Bool
  | .holdsBoth => true
  | .returned => true
  | _ => false

/-- The goroutine is past the map lookup. -/
def LockPc.pastLookup : LockPc → Bool
  | .hasEntry => true
  | .holdsBoth => true
  | .returned => true
  | _ => false

/-- The goroutine has returned from `LockEntry`: it has the reservation. -/
def LockPc.isReturned : LockPc → Bool
  | .returned => true
  | _ => false

/-- Number of statements of `LockEntry` a goroutine has executed. -/
def LockPc.rank : LockPc → Nat
  | .start => 0
  | .holdsMap => 1
  | .hasEntry => 2
  | .holdsBoth => 3
  | .returned => 4

/-- Number of statements executed by all goroutines together. -/
def Sys.progress (s : Sys) : Nat :=
  (s.pcs.map LockPc.rank).sum

/-- The locks agree with the program points: the map lock is write-locked
exactly when one goroutine is between `c.Lock()` and `c.Unlock()`, the entry
lock exactly when one goroutine is past `e.Lock()`, and nobody holds a read
lock. -/
def Sys.Inv (key : String) (s : Sys) : Prop :=
  s.cache.lock.readers = 0 ∧
  s.pcs.countP LockPc.inMap = (if s.cache.lock.writer then 1 else 0) ∧
  match s.cache.data.get key with
  | none => s.pcs.countP LockPc.pastLookup = 0
  | some e => e.lock.readers = 0 ∧
      s.pcs.countP LockPc.inEntry = (if e.lock.writer then 1 else 0)

/-- The key is not reserved: it is not in the map, or its entry is unlocked. -/
def Cache.Unreserved (c : Cache) (key : String) : Prop :=
  match c.data.get key with
  | none => True
  | some e => e.lock = RWMutex.free

instance (c : Cache) (key : String) : Decidable (c.Unreserved key) := by
  unfold Cache.Unreserved
  cases c.data.get key <;> infer_instance

/-- A round-robin schedule for three goroutines, long enough for all of them to
run as far as they can. -/
def roundRobin3 : List Nat :=
  [0, 1, 2, 0, 1, 2, 0, 1, 2, 0, 1, 2, 0, 1, 2]

/-! ## Limiter bookkeeping of `Find` -/

/-- Number of `Enter` calls that returned a nil error among the first `calls`
calls of `qlimiter.Enter`. -/
def successfulEnters (enter : Nat → Option GoError) (calls : Nat) : Nat :=
  ((List.range calls).filter (fun k => (enter k).isNone)).length

/-- The limiter bookkeeping of the main loop of `Find`: `entered` counts the
`Enter` calls that succeeded, and a disabled limiter is never entered. -/
def LoopState.Balanced (enabled : Bool) (enter : Nat → Option GoError)
    (st : LoopState) : Prop :=
  st.entered = successfulEnters enter st.enterCalls ∧
    (enabled = false → st.enterCalls = 0)

/-- A limiter that refuses its second caller. -/
def refuseSecond : Nat → Option GoError
  | 1 => some "limiter: timeout"
  | _ => none

/-- The tier at the index `GetQueryParam` returns. -/
def routeTier (a : List QueryParam) (duration : Int) : Except SearchFault QueryParam :=
  match GetQueryParam a duration with
  | .error e => .error e
  | .ok i => sliceAt a i

/-! ## config/config.go: `CreateCache` -/

/-- The decimal text of an integer as `strconv.Itoa` writes it: the digits of
`|x|`, after a minus sign when `x < 0`. -/
def Itoa (x : Int) : String :=
  ⟨if x < 0 then '-' :: utoa x.natAbs else utoa x.natAbs⟩

/-- The cache object `CreateCache` hands back: no cache (`nil`), a memcached
client or an in-memory expiring cache of the given size in bytes. -/
inductive CreatedCache where
  | nilCache
  | memcached (name : String) (servers : List String)
  | expireCache (sizeBytes : Int)
deriving DecidableEq, Repr

/-- The errors `CreateCache` returns. -/
inductive CreateCacheError where
  | noMemcachedServers (cacheName : String)
  | unknownType (cacheName type_ : String)
deriving DecidableEq, Repr

/-- The answer of `CreateCache` for the cache type, once the timeouts are
normalised (config.go, lines 940-956); `uint64(Size * 1024 * 1024)` is computed
in `int` and converted. -/
def createCacheByType (cacheName : String) (c : CacheConfig) :
    Except CreateCacheError CreatedCache :=
  if c.Type_ = "memcache" then
    if c.MemcachedServers.length = 0 then .error (.noMemcachedServers cacheName)
    else .ok (.memcached ("gch-" ++ cacheName) c.MemcachedServers)
  else if c.Type_ = "mem" then
    .ok (.expireCache (wrapInt64 (c.Size * 1024 * 1024) % 18446744073709551616))
  else if c.Type_ = "null" then .ok .nilCache
  else .error (.unknownType cacheName c.Type_)

/-- Function `CreateCache(cacheName, cacheConfig)` of config.go, lines 909-957.
The configuration is passed by pointer and rewritten in place; the first
component of the result is the configuration after the call. -/
def CreateCache (cacheName : String) (cacheConfig : CacheConfig) :
    CacheConfig × Except CreateCacheError CreatedCache :=
  if cacheConfig.DefaultTimeoutSec ≤ 0 ∧ cacheConfig.ShortTimeoutSec ≤ 0 ∧
      cacheConfig.FindTimeoutSec ≤ 0 then
    (cacheConfig, .ok .nilCache)
  else
    let c1 :=
      if cacheConfig.DefaultTimeoutSec < cacheConfig.ShortTimeoutSec then
        { cacheConfig with DefaultTimeoutSec := cacheConfig.ShortTimeoutSec }
      else cacheConfig
    let c2 :=
      if c1.ShortTimeoutSec < 0 ∨ c1.DefaultTimeoutSec = c1.ShortTimeoutSec then
        { c1 with ShortTimeoutSec := 0 }
      else c1
    let c3 :=
      if c2.DefaultTimeoutSec < c2.ShortTimeoutSec then
        { c2 with DefaultTimeoutSec := c2.ShortTimeoutSec }
      else c2
    let c4 := if c3.ShortDuration = 0 then { c3 with ShortDuration := 3 * hour } else c3
    let c5 := if c4.ShortUntilOffsetSec = 0 then { c4 with ShortUntilOffsetSec := 120 } else c4
    let c6 := { c5 with DefaultTimeoutStr := Itoa c5.DefaultTimeoutSec,
                        ShortTimeoutStr := Itoa c5.ShortTimeoutSec }
    (c6, createCacheByType cacheName c6)

/-- A cache configuration whose default TTL (60 s) is below its short TTL
(300 s). -/
def swappedTtlConfig : CacheConfig :=
  { Type_ := "mem", Size := 8, MemcachedServers := [],
    DefaultTimeoutSec := 60, DefaultTimeoutStr := "",
    ShortTimeoutSec := 300, ShortTimeoutStr := "",
    FindTimeoutSec := 0, ShortDuration := 0, ShortUntilOffsetSec := 0 }

/-! ## finder/cache.go: counters and abandoned reservations -/

/-- The largest `uint64`. -/
def maxUint64 : Nat := 18446744073709551615

/-- No counter of the cache is at the largest `uint64`, where the next
`atomic.AddUint64` wraps to zero. -/
def Cache.BelowMax (c : Cache) : Prop :=
  c.hits < maxUint64 ∧ c.miss < maxUint64 ∧ c.count < maxUint64

instance (c : Cache) : Decidable c.BelowMax := by
  unfold Cache.BelowMax; infer_instance

/-- The counters of `c'` are at least those of `c`. -/
def Cache.CountersLe (c c' : Cache) : Prop :=
  c.hits ≤ c'.hits ∧ c.miss ≤ c'.miss ∧ c.count ≤ c'.count

instance (c c' : Cache) : Decidable (c.CountersLe c') := by
  unfold Cache.CountersLe; infer_instance

/-- The cache after the reservation of `"k"` was abandoned with
`DeleteEntry("k")`: the map is empty again. -/
def abandonedCache : Cache :=
  { lock := RWMutex.free, data := [], hits := 0, miss := 0, count := 0 }

/-! ## config/config.go: `Unmarshal`, limiter and tier normalisation

The configuration handed to the embedding is the decoded TOML document. Of
`Unmarshal` the embedding keeps the rewriting of the limiter settings and of
the query-params tiers, the creation of the find cache, and every place where
the function gives up with an error. The checks that look at the URL syntax,
the TLS material, the logging and debug settings, the index rules, the data
tables and the like are parameters. -/

/-- The `UserLimits` record (config.go, lines 162-168). -/
structure UserLimits where
  MaxQueries : Int
  ConcurrentQueries : Int
  AdaptiveQueries : Int
deriving DecidableEq, Repr

/-- The fields of the `ClickHouse` record (config.go, lines 209-266) that take
part in the normalisation; `UserLimits` is the map from user name to limits. -/
structure ClickHouse where
  URL : String
  DataTimeout : Int
  QueryParams : List QueryParam
  RenderMaxQueries : Int
  RenderConcurrentQueries : Int
  RenderAdaptiveQueries : Int
  FindMaxQueries : Int
  FindConcurrentQueries : Int
  FindAdaptiveQueries : Int
  TagsMaxQueries : Int
  TagsConcurrentQueries : Int
  TagsAdaptiveQueries : Int
  UserLimits : List (String × UserLimits)
  IndexTimeout : Int
deriving DecidableEq, Repr

/-- The fields of the `Common` record (config.go, lines 96-120) used here. -/
structure Common where
  SD : String
  FindCacheConfig : CacheConfig
deriving DecidableEq, Repr

/-- The `Config` record, reduced to the two sections above. -/
structure Config where
  common : Common
  clickHouse : ClickHouse
deriving DecidableEq, Repr

/-- Outcome of the checks of `Unmarshal` that do not depend on the limiter and
tier settings: the TLS material; the logging configuration, debug directory
and index rules; the target blacklist, data tables, Prometheus URL and date
format. -/
structure EnvChecks where
  tlsOk : Bool
  midOk : Bool
  lateOk : Bool
deriving DecidableEq, Repr

/-- The errors of `Unmarshal`. -/
inductive ConfigError where
  | url (chURL : String)
  | durationNotSet (q : QueryParam)
  | environment
  | cache (e : CreateCacheError)
deriving DecidableEq, Repr

/-- The rewriting of one `[[clickhouse.query-params]]` entry in the loop of
`Unmarshal` (config.go, lines 602-623). -/
def normalizeQueryParam (urlValid : String → Bool) (chURL : String) (chDataTimeout : Int)
    (q : QueryParam) : Except ConfigError QueryParam :=
  let q1 := if q.ConcurrentQueries > q.MaxQueries ∧ q.MaxQueries > 0 then
      { q with ConcurrentQueries := 0 } else q
  if q1.Duration = 0 then .error (.durationNotSet q1)
  else
    let q2 := if q1.DataTimeout = 0 then { q1 with DataTimeout := chDataTimeout } else q1
    let q3 := if q2.URL = "" then { q2 with URL := chURL } else q2
    if urlValid q3.URL then .ok q3 else .error (.url q3.URL)

/-- The loop `for i := range cfg.ClickHouse.QueryParams` of `Unmarshal`; the
first entry that fails ends the function. -/
def normalizeQueryParams (urlValid : String → Bool) (chURL : String) (chDataTimeout : Int) :
    List QueryParam → Except ConfigError (List QueryParam)
  | [] => .ok []
  | q :: rest =>
    match normalizeQueryParam urlValid chURL chDataTimeout q with
    | .error e => .error e
    | .ok q' =>
      match normalizeQueryParams urlValid chURL chDataTimeout rest with
      | .error e => .error e
      | .ok rest' => .ok (q' :: rest')

/-- The order `sort.SliceStable` sorts the tiers by. -/
def durationLe (x y : QueryParam) : Prop :=
  x.Duration ≤ y.Duration

instance : DecidableRel durationLe := fun x y => by
  unfold durationLe; infer_instance

instance : IsTotal QueryParam durationLe :=
  ⟨fun x y => Int.le_total x.Duration y.Duration⟩

instance : IsTrans QueryParam durationLe :=
  ⟨fun _ _ _ h1 h2 => Int.le_trans h1 h2⟩

/-- The implicit root tier `Unmarshal` puts in front of the configured tiers
(config.go, lines 625-632): `Duration` is the zero value. -/
def rootTier (ch : ClickHouse) : QueryParam :=
  { Duration := 0, URL := ch.URL, DataTimeout := ch.DataTimeout,
    MaxQueries := ch.RenderMaxQueries, ConcurrentQueries := ch.RenderConcurrentQueries,
    AdaptiveQueries := ch.RenderAdaptiveQueries }

/-- The rewriting of the render limits at config.go, lines 578-580. -/
def coerceRender (ch : ClickHouse) : ClickHouse :=
  if ch.RenderConcurrentQueries > ch.RenderMaxQueries ∧ ch.RenderMaxQueries > 0 then
    { ch with RenderConcurrentQueries := 0 }
  else ch

/-- The rewriting of the find limits at config.go, lines 739-741. -/
def coerceFind (ch : ClickHouse) : ClickHouse :=
  if ch.FindConcurrentQueries > ch.FindMaxQueries ∧ ch.FindMaxQueries > 0 then
    { ch with FindConcurrentQueries := 0 }
  else ch

/-- The rewriting of the tags limits at config.go, lines 743-745. -/
def coerceTags (ch : ClickHouse) : ClickHouse :=
  if ch.TagsConcurrentQueries > ch.TagsMaxQueries ∧ ch.TagsMaxQueries > 0 then
    { ch with TagsConcurrentQueries := 0 }
  else ch

/-- Function `Unmarshal` (config.go, lines 549-775) from the decoded
configuration on. The stable sort by `Duration` is an insertion sort that puts
an element in front of the first one that is not smaller, which keeps equal
elements in their order. The limiter objects built at the end are not part of
the embedding; the per-user limits are handed to them as they are. -/
def Unmarshal (urlValid : String → Bool) (env : EnvChecks) (cfg : Config) :
    Except ConfigError Config :=
  let ch1 := coerceRender cfg.clickHouse
  if ¬ urlValid ch1.URL then .error (.url ch1.URL)
  else if ¬ env.tlsOk then .error .environment
  else
    match normalizeQueryParams urlValid ch1.URL ch1.DataTimeout ch1.QueryParams with
    | .error e => .error e
    | .ok tiers =>
      let ch2 := { ch1 with QueryParams := List.insertionSort durationLe (rootTier ch1 :: tiers) }
      if ¬ env.midOk then .error .environment
      else
        match CreateCache "index" cfg.common.FindCacheConfig with
        | (_, .error e) => .error (.cache e)
        | (cacheConfig, .ok _) =>
          if ¬ env.lateOk then .error .environment
          else
            .ok { common := { cfg.common with FindCacheConfig := cacheConfig },
                  clickHouse := coerceTags (coerceFind ch2) }

/-- All environment checks pass. -/
def envAllOk : EnvChecks := { tlsOk := true, midOk := true, lateOk := true }

/-- A URL check that accepts the `http` and `https` URLs used in the
scenarios. -/
def exampleUrlValid (u : String) : Bool :=
  u = "http://localhost:8123" ∨ u = "https://ch.example:8443"

/-- A cache section that switches the find cache off. -/
def noCacheConfig : CacheConfig :=
  { Type_ := "null", Size := 0, MemcachedServers := [],
    DefaultTimeoutSec := 0, DefaultTimeoutStr := "",
    ShortTimeoutSec := 0, ShortTimeoutStr := "",
    FindTimeoutSec := 0, ShortDuration := 0, ShortUntilOffsetSec := 0 }

/-- A configuration with the given render limits and query-params tiers and
nothing else set. -/
def exampleConfig (renderMax renderConcurrent : Int) (tiers : List QueryParam) : Config :=
  { common := { SD := "", FindCacheConfig := noCacheConfig },
    clickHouse :=
      { URL := "http://localhost:8123", DataTimeout := 60 * timeSecond, QueryParams := tiers,
        RenderMaxQueries := renderMax, RenderConcurrentQueries := renderConcurrent,
        RenderAdaptiveQueries := 0,
        FindMaxQueries := 0, FindConcurrentQueries := 0, FindAdaptiveQueries := 0,
        TagsMaxQueries := 0, TagsConcurrentQueries := 0, TagsAdaptiveQueries := 0,
        UserLimits := [], IndexTimeout := 60 * timeSecond } }

/-! ## helper/clickhouse/clickhouse.go: error classification -/

/-- Function `strings.HasPrefix`. -/
def HasPrefix (s p : String) : Bool := p.data.isPrefixOf s.data

/-- Function `strings.HasSuffix`. -/
def HasSuffix (s p : String) : Bool := p.data.isSuffixOf s.data

/-- The position of the first occurrence of `pat` in `s`, counted from the
start of `s`, or `-1`. -/
def indexFrom (pat : List Char) : List Char → Int
  | [] => if pat.isEmpty then 0 else -1
  | c :: cs =>
    if pat.isPrefixOf (c :: cs) then 0
    else
      let r := indexFrom pat cs
      if r = -1 then -1 else r + 1

/-- Function `strings.Index`. Positions count characters where Go counts bytes;
every slice below is cut at a position `strings.Index` returned, moved by the
length of an ASCII text that is part of the match, so both cut at the same
place. -/
def Index (s substr : String) : Int := indexFrom substr.data s.data

/-- The Go slice expression `e[i:]`. -/
def sliceFrom (e : String) (i : Int) : String := ⟨e.data.drop i.toNat⟩

/-- The Go slice expression `e[0:j]`. -/
def sliceTo (e : String) (j : Int) : String := ⟨e.data.take j.toNat⟩

/-- The replacement `html.EscapeString` makes for one character. -/
def escapeChar (c : Char) : List Char :=
  if c = '&' then "&amp;".data
  else if c = Char.ofNat 39 then "&#39;".data
  else if c = '<' then "&lt;".data
  else if c = '>' then "&gt;".data
  else if c = Char.ofNat 34 then "&#34;".data
  else [c]

/-- Function `html.EscapeString`. -/
def EscapeString (s : String) : String := ⟨(s.data.map escapeChar).flatten⟩

/-- Function `extractClickhouseError` (clickhouse.go, lines 65-92): the status
and the message for the text of a back-end error. -/
def extractClickhouseError (e : String) : Int × String :=
  let limit : Option (Int × String) :=
    if HasPrefix e "clickhouse response status 500: Code:" ∨
        HasPrefix e "Malformed response from clickhouse" then
      let start := Index e ": Limit for "
      if start ≠ -1 then
        let e1 := sliceFrom e (start + 8)
        let end_ := Index e1 " (version "
        let e2 := if end_ ≠ -1 then sliceTo e1 end_ else e1
        some (403, "Storage read limit " ++ e2)
      else if Index e ": Memory limit " ≠ -1 then
        some (403, "Storage read limit for memory")
      else if HasPrefix e "clickhouse response status 500: Code: 170," then
        some (503, "Storage configuration error")
      else none
    else none
  match limit with
  | some r => r
  | none =>
    if HasPrefix e "clickhouse response status 404: Code: 60. DB::Exception: Table default." then
      (503, "Storage default tables damaged")
    else if HasPrefix e "clickhouse response status 500: Code: 427" ∨
        HasPrefix e "clickhouse response status 400: Code: 427." then
      (400, "Incorrect regex syntax")
    else
      (503, "Storage unavailable")

/-- The error values `HandleError` tells apart, by identity and dynamic type:
the sentinels `ErrInvalidTimeRange`, `limiter.ErrTimeout`, `limiter.ErrOverflow`
(the limiter package is outside this source tree; the value carries its text)
and `context.Canceled`; `*ErrWithDescr`; `errs.ErrorWithCode`; a value that
implements `net.Error`, with its text and the answer of `Timeout()`, either
without a cause (`*net.DNSError`) or wrapping one that `Unwrap` returns
(`*url.Error`, which `http.Client.Do` returns, and `*net.OpError`); an error
made by `fmt.Errorf` with `%w`; and any other error such as `errors.New`. -/
inductive Err where
  | ErrInvalidTimeRange
  | ErrTimeout (text : String)
  | ErrOverflow (text : String)
  | ErrWithDescr (err data : String)
  | ErrorWithCode (err : String) (Code : Int)
  | Canceled
  | netError (text : String) (Timeout : Bool)
  | netErrorWrapping (text : String) (Timeout : Bool) (cause : Err)
  | wrapped (text : String) (cause : Err)
  | errorString (text : String)
deriving DecidableEq, Repr

/-- Method `Error()` of each error value. -/
def Err.Error : Err → String
  | .ErrInvalidTimeRange => "Invalid or empty time range"
  | .ErrTimeout text => text
  | .ErrOverflow text => text
  | .ErrWithDescr err data => err ++ ": " ++ data
  | .ErrorWithCode err _ => err
  | .Canceled => "context canceled"
  | .netError text _ => text
  | .netErrorWrapping text _ _ => text
  | .wrapped text _ => text
  | .errorString text => text

/-- The test `errors.Is(err, context.Canceled)`: the value itself or one reached
by unwrapping is `context.Canceled`. -/
def Err.IsCanceled : Err → Bool
  | .Canceled => true
  | .netErrorWrapping _ _ cause => cause.IsCanceled
  | .wrapped _ cause => cause.IsCanceled
  | _ => false

/-- The type assertion `err.(net.Error)` with the answer of `Timeout()`. -/
def Err.asNetError : Err → Option Bool
  | .netError _ t => some t
  | .netErrorWrapping _ t _ => some t
  | _ => none

/-- What `HandleError` returns and what it hands to `http.Error`. -/
structure Handled where
  status : Int
  queueFail : Bool
  body : String
deriving DecidableEq, Repr

/-- Function `HandleError(w, err)` (clickhouse.go, lines 94-165). -/
def HandleError (err : Err) : Handled :=
  let errStr := err.Error
  match err with
  | .ErrInvalidTimeRange => { status := 400, queueFail := false, body := errStr }
  | .ErrTimeout _ => { status := 503, queueFail := true, body := err.Error }
  | .ErrOverflow _ => { status := 503, queueFail := true, body := err.Error }
  | .ErrWithDescr _ _ =>
    { status := (extractClickhouseError errStr).1, queueFail := false,
      body := (extractClickhouseError errStr).2 }
  | _ =>
    match err.asNetError with
    | some timeout =>
      if timeout then
        { status := 504, queueFail := false, body := "Storage read timeout" }
      else if HasSuffix errStr "connect: no route to host" ∨
          HasPrefix errStr "dial tcp: lookup " then
        { status := 503, queueFail := false, body := "Storage route error" }
      else if HasSuffix errStr "connect: connection refused" ∨
          HasSuffix errStr ": connection reset by peer" then
        { status := 503, queueFail := false, body := "Storage connect error" }
      else
        { status := 503, queueFail := false, body := "Storage network error" }
    | none =>
      match err with
      | .ErrorWithCode _ code =>
        if (code > 500 ∧ code < 512) ∨ code = 400 ∨ code = 403 then
          { status := code, queueFail := false, body := EscapeString errStr }
        else
          { status := 500, queueFail := false, body := EscapeString errStr }
      | _ =>
        if err.IsCanceled then
          { status := 504, queueFail := false, body := "Storage read context canceled" }
        else
          { status := 500, queueFail := false, body := EscapeString errStr }

/-- The error `http.Client.Do` returns when the context of the request is
cancelled while the query runs: a `*url.Error` whose `Err` is
`context.Canceled`; its `Timeout()` is false. -/
def canceledRequest : Err :=
  .netErrorWrapping "Post \"http://localhost:8123/?query_id=1\": context canceled" false .Canceled

/-! ## helper/utils/utils.go and helper/finder/finder.go: the cached finder -/

/-- Seconds from the zero `time.Time` (January 1, year 1) to the Unix epoch,
the constant `unixToInternal` of package `time`. -/
def unixToInternal : Int := 62135596800

/-- Function `TimestampTruncate(ts, duration)` of utils.go, lines 23-27:
`time.Unix(ts, 0).UTC().Truncate(duration).UTC().Unix()`. `Truncate` rounds
the instant down to a multiple of `duration` counted from the zero time and
leaves it unchanged when `duration <= 0`; the seconds of a `Time` are an
`int64` counted from the zero time. -/
def TimestampTruncate (ts duration : Int) : Int :=
  if duration ≤ 0 then ts
  else
    let sec := wrapInt64 (ts + unixToInternal)
    let r := (sec * 1000000000) % duration
    wrapInt64 ((sec * 1000000000 - r) / 1000000000 - unixToInternal)

/-- One element of `targets.Cache` (type `data.CachedItem`): the fields
finder.go reads and writes. `M` is unset until `FinderCached` assigns it. -/
structure CachedItem where
  Cached : Bool
  Key : String
  TS : Int
  TimeoutStr : String
  Timeout : Int
  M : Option CacheMetric
deriving DecidableEq, Repr

/-- The element of `targets.Cache` a parsed request starts with. -/
def CachedItem.zero : CachedItem :=
  { Cached := false, Key := "", TS := 0, TimeoutStr := "", Timeout := 0, M := none }

/-- A target `targets.List[n]` together with its `targets.Cache[n]`. -/
structure CachedSlot where
  target : String
  item : CachedItem
deriving DecidableEq, Repr

/-- One entry of `data.MultiTarget` with the cache state of its targets: the
time frame, the targets and the flag `targets.Cached`. The map is given as the
list of its entries in the order the `range` loops visit them. -/
structure CachedTargets where
  From : Int
  Until : Int
  slots : List CachedSlot
  Cached : Bool
deriving DecidableEq, Repr

/-- A call `FindCache.Get(key)` or `FindCache.Set(key, body, timeout)` made for
target `i` of time frame `a`. -/
structure CacheCall where
  a : Nat
  i : Nat
  key : String
deriving DecidableEq, Repr

/-- The variables the goroutines of `FinderCached` share, with the log of the
`Get` calls made. -/
structure CachedState where
  maxCacheTimeout : Int
  maxCacheTimeoutStr : String
  metricsLen : Int
  gets : List CacheCall
deriving DecidableEq, Repr

/-- The goroutine `FinderCached` starts for target `n` of time frame `a`
(finder.go, lines 27-63). `cacheGet key` is the body `FindCache.Get` returns,
`none` when it returns an error; `amLen a n` is `targets.AM.Len()` after the
cached body is merged. -/
def finderCachedGoroutine (cacheConfig : CacheConfig) (loc : Location) (ts : Int)
    (cacheGet : String → Option String) (amLen : Nat → Nat → Int)
    (a : Nat) (from_ until_ : Int) (target : String) (n : Nat)
    (item : CachedItem) (st : CachedState) : CachedItem × CachedState :=
  let r := GetCacheTimeout ts from_ until_ cacheConfig
  let item1 : CachedItem := { item with Timeout := r.1, TimeoutStr := r.2.1, M := some r.2.2 }
  if item1.Timeout > 0 then
    let st1 : CachedState :=
      if st.maxCacheTimeout < item1.Timeout then
        { st with maxCacheTimeout := item1.Timeout, maxCacheTimeoutStr := item1.TimeoutStr }
      else st
    let item2 : CachedItem := { item1 with TS := TimestampTruncate ts (item1.Timeout * timeSecond) }
    let item3 : CachedItem := { item2 with Key := TargetKey loc from_ until_ target item2.TimeoutStr }
    let st2 : CachedState := { st1 with gets := st1.gets ++ [{ a := a, i := n, key := item3.Key }] }
    match cacheGet item3.Key with
    | some body =>
      if body.length > 0 then
        ({ item3 with Cached := true }, { st2 with metricsLen := st2.metricsLen + amLen a n })
      else (item3, st2)
    | none => (item3, st2)
  else (item1, st)

/-- The inner loop `for i, expr := range targets.List` of `FinderCached` from
target `i` on; the goroutines are taken one after the other in the order they
are started. -/
def finderCachedInner (cacheConfig : CacheConfig) (loc : Location) (ts : Int)
    (cacheGet : String → Option String) (amLen : Nat → Nat → Int)
    (a : Nat) (from_ until_ : Int) :
    List CachedSlot → Nat → CachedState → List CachedSlot × CachedState
  | [], _, st => ([], st)
  | s :: rest, i, st =>
    let r := finderCachedGoroutine cacheConfig loc ts cacheGet amLen a from_ until_
      s.target i s.item st
    let rs := finderCachedInner cacheConfig loc ts cacheGet amLen a from_ until_ rest (i + 1) r.2
    ({ s with item := r.1 } :: rs.1, rs.2)

/-- The outer loop `for tf, targets := range fetchRequests` of `FinderCached`
from the `a`-th time frame on. -/
def finderCachedOuter (cacheConfig : CacheConfig) (loc : Location) (ts : Int)
    (cacheGet : String → Option String) (amLen : Nat → Nat → Int) :
    List CachedTargets → Nat → CachedState → List CachedTargets × CachedState
  | [], _, st => ([], st)
  | t :: rest, a, st =>
    let r := finderCachedInner cacheConfig loc ts cacheGet amLen a t.From t.Until t.slots 0 st
    let rs := finderCachedOuter cacheConfig loc ts cacheGet amLen rest (a + 1) r.2
    ({ t with slots := r.1 } :: rs.1, rs.2)

/-- The number of elements of `targets.Cache` with `Cached` set. -/
def cachedCount (t : CachedTargets) : Nat := (t.slots.filter fun s => s.item.Cached).length

/-- The closing loop of `FinderCached` (finder.go, lines 72-84): it counts the
cached targets and sets `targets.Cached` where all targets are cached. -/
def finderCachedCount : List CachedTargets → Nat → List CachedTargets × Nat
  | [], cachedFind => ([], cachedFind)
  | t :: rest, cachedFind =>
    let cached := cachedCount t
    let t1 := if cached = t.slots.length then { t with Cached := true } else t
    let rs := finderCachedCount rest (cachedFind + cached)
    (t1 :: rs.1, rs.2)

/-- What `FinderCached` returns and leaves behind: its three results, the
request with the cache state filled in, `*metricsLen` and the `Get` calls. -/
structure FinderCachedResult where
  cachedFind : Nat
  maxCacheTimeoutStr : String
  err : Option Err
  fetchRequests : List CachedTargets
  metricsLen : Int
  gets : List CacheCall
deriving DecidableEq, Repr

/-- Function `FinderCached` (finder.go, lines 19-86). Nothing is ever appended
to its `errors` slice, so `err` is nil. -/
def FinderCached (cacheConfig : CacheConfig) (loc : Location) (ts : Int)
    (cacheGet : String → Option String) (amLen : Nat → Nat → Int)
    (fetchRequests : List CachedTargets) (metricsLen : Int) : FinderCachedResult :=
  let r := finderCachedOuter cacheConfig loc ts cacheGet amLen fetchRequests 0
    { maxCacheTimeout := 0, maxCacheTimeoutStr := "", metricsLen := metricsLen, gets := [] }
  let counted := finderCachedCount r.1 0
  { cachedFind := counted.2
    maxCacheTimeoutStr := r.2.maxCacheTimeoutStr
    err := none
    fetchRequests := counted.1
    metricsLen := r.2.metricsLen
    gets := r.2.gets }

/-- The view of a request the main loop of `Find` uses: the time frame, the
targets and `targets.Cache[i].Cached`. -/
def CachedTargets.toFetchRequest (t : CachedTargets) : FetchRequest :=
  { From := t.From, Until := t.Until,
    slots := t.slots.map fun s => { target := s.target, cached := s.item.Cached } }

/-- The element `targets.Cache[i]` of time frame `a`. -/
def cacheItemAt (fetchRequests : List CachedTargets) (a i : Nat) : Option CachedItem :=
  match fetchRequests[a]? with
  | some t => (t.slots[i]?).map CachedSlot.item
  | none => none

/-- The `FindCache.Set` call of the goroutine `Find` started by event `ev`
(finder.go, lines 150-161): made after a successful finder call when
`useCache` holds and the `Timeout` of the target is positive. -/
def findSetCall (useCache : Bool) (fetchRequests : List CachedTargets) :
    FindEvent → Option CacheCall
  | .launched a i none =>
    match cacheItemAt fetchRequests a i with
    | some item =>
      if useCache ∧ item.Timeout > 0 then some { a := a, i := i, key := item.Key } else none
    | none => none
  | _ => none

/-- The `FindCache.Set` calls of a run of `Find`. -/
def findSets (useCache : Bool) (fetchRequests : List CachedTargets)
    (events : List FindEvent) : List CacheCall :=
  events.filterMap (findSetCall useCache fetchRequests)

/-- A request for `a.*` over one hour and `b.*` over one day, nothing cached yet. -/
def hourAndDay : List CachedTargets :=
  [{ From := 1704150000, Until := 1704153600,
     slots := [{ target := "a.*", item := CachedItem.zero }], Cached := false },
   { From := 1704067200, Until := 1704153600,
     slots := [{ target := "b.*", item := CachedItem.zero }], Cached := false }]

/-- A cache configuration whose short TTL is not configured: `short_duration =
3h`, `default_ttl = 600s`, short TTL 0. -/
def noShortTtlConfig : CacheConfig :=
  { exampleCacheConfig with ShortTimeoutSec := 0, ShortTimeoutStr := "0" }

/-! ## render/handler.go: the render handler -/

/-- What `Handler.ServeHTTP` is run with: the outcome of `reply.GetFormatter`
and of `formatter.ParseRequest`, the form value `noCache`, `start.Unix()`,
whether `config.Common.FindCache` is set, the find-cache configuration and the
content of the cache, the limiter `data.GetQueryLimiter` selects (`enabled`,
`enter`), the outcome of every finder call (`find`) with the error value behind
each error text (`errValue`), what each call adds to `metricsLen` (`amLen`,
`rows`), the order in which the finder calls finish (`sched`) and the outcome
of `fetchRequests.Fetch`: the length of its reply or its error. -/
structure RenderEnv where
  formatterErr : Option Err
  parsed : Except Err (List CachedTargets)
  noCache : Bool
  start : Int
  findCache : Bool
  cacheConfig : CacheConfig
  loc : Location
  cacheGet : String → Option String
  amLen : Nat → Nat → Int
  enabled : Bool
  enter : Nat → Option GoError
  find : Nat → Nat → Option GoError
  errValue : GoError → Err
  rows : Nat → Nat → Int
  sched : List Nat
  fetch : Except Err Nat

/-- What a run of `Handler.ServeHTTP` leaves: the variables `status`,
`queueFail` and `cachedFind` it logs, the text it passed to `http.Error`, the
header `X-Cached-Find`, the length of the reply passed to `formatter.Reply`,
and the calls it caused: the `FindCache.Get` calls, the events of `Find`, the
`FindCache.Set` calls and whether `Fetch` ran. -/
structure Rendered where
  status : Int
  queueFail : Bool
  cachedFind : Bool
  httpError : Option String
  xCachedFind : Option String
  reply : Option Nat
  gets : List CacheCall
  finderEvents : List FindEvent
  sets : List CacheCall
  fetched : Bool
deriving DecidableEq, Repr

/-- The loop over the time frames at handler.go, lines 93-102, from the
variables `err` and `targetsLen`: a time frame with `From >= Until` ends the
request through `HandleError(w, ErrInvalidTimeRange)` only if `err` is not nil. -/
def checkTimeFrames (err : Option Err) : List CachedTargets → Nat → Except Handled Nat
  | [], targetsLen => .ok targetsLen
  | t :: rest, targetsLen =>
    if t.From ≥ t.Until then
      if err.isSome then .error (HandleError .ErrInvalidTimeRange)
      else checkTimeFrames err rest (targetsLen + t.slots.length)
    else checkTimeFrames err rest (targetsLen + t.slots.length)

/-- What the successful goroutines of `Find` add to `*metricsLen`. -/
def findRows (rows : Nat → Nat → Int) : List FindEvent → Int
  | [] => 0
  | .launched a i none :: events => rows a i + findRows rows events
  | _ :: events => findRows rows events

/-- The part of `Handler.ServeHTTP` from the call of `finder.Find` on
(handler.go, lines 129-165). -/
def renderFind (env : RenderEnv) (useCache : Bool) (fetchRequests : List CachedTargets)
    (metricsLen : Int) (maxCacheTimeoutStr : String) (cachedFind : Bool)
    (out : Rendered) : Rendered :=
  let r := Find env.enabled env.enter env.find
    (fetchRequests.map CachedTargets.toFetchRequest) env.sched
  let out1 : Rendered :=
    { out with cachedFind := cachedFind, finderEvents := r.events,
               sets := findSets useCache fetchRequests r.events }
  match r.err with
  | some e =>
    { out1 with status := (HandleError (env.errValue e)).status,
                queueFail := (HandleError (env.errValue e)).queueFail,
                httpError := some (HandleError (env.errValue e)).body }
  | none =>
    let metricsLen1 := metricsLen + findRows env.rows r.events
    let out2 : Rendered :=
      if cachedFind then { out1 with xCachedFind := some maxCacheTimeoutStr } else out1
    if metricsLen1 = 0 then { out2 with status := 404, reply := some 0 }
    else
      match env.fetch with
      | .error e =>
        { out2 with status := (HandleError e).status, queueFail := (HandleError e).queueFail,
                    httpError := some (HandleError e).body, fetched := true }
      | .ok n =>
        if n = 0 then { out2 with status := 404, reply := some 0, fetched := true }
        else { out2 with reply := some n, fetched := true }

/-- Method `Handler.ServeHTTP` (handler.go, lines 37-176) without its logging
and metrics. After a successful `ParseRequest` the variable `err` is nil when
the loop over the time frames runs. -/
def ServeHTTP (env : RenderEnv) : Rendered :=
  let out : Rendered :=
    { status := 200, queueFail := false, cachedFind := false, httpError := none,
      xCachedFind := none, reply := none, gets := [], finderEvents := [], sets := [],
      fetched := false }
  match env.formatterErr with
  | some err =>
    { out with status := 400, httpError := some ("Failed to parse request: " ++ err.Error) }
  | none =>
    match env.parsed with
    | .error err =>
      { out with status := 400, httpError := some ("Failed to parse request: " ++ err.Error) }
    | .ok fetchRequests =>
      match checkTimeFrames none fetchRequests 0 with
      | .error h => { out with status := h.status, httpError := some h.body }
      | .ok targetsLen =>
        let useCache := env.findCache && !env.noCache
        if useCache then
          let fc := FinderCached env.cacheConfig env.loc env.start env.cacheGet env.amLen
            fetchRequests 0
          let out1 : Rendered := { out with gets := fc.gets }
          match fc.err with
          | some e =>
            { out1 with status := (HandleError e).status, httpError := some (HandleError e).body }
          | none =>
            if fc.cachedFind > 0 then
              if fc.cachedFind = targetsLen ∧ fc.metricsLen = 0 then
                { out1 with status := 404, reply := some 0 }
              else
                renderFind env useCache fc.fetchRequests fc.metricsLen fc.maxCacheTimeoutStr
                  true out1
            else
              renderFind env useCache fc.fetchRequests fc.metricsLen fc.maxCacheTimeoutStr
                false out1
        else renderFind env useCache fetchRequests 0 "" false out

/-- A render request for `a.*` whose time frame is empty: `from = until =
1704153600`. The find cache is configured and empty, the limiter is off, the
finder and the fetch succeed. -/
def emptyRangeRequest : RenderEnv :=
  { formatterErr := none
    parsed := .ok [{ From := 1704153600, Until := 1704153600,
                     slots := [{ target := "a.*", item := CachedItem.zero }], Cached := false }]
    noCache := false
    start := 1704153650
    findCache := true
    cacheConfig := exampleCacheConfig
    loc := UTC
    cacheGet := fun _ => none
    amLen := fun _ _ => 0
    enabled := false
    enter := fun _ => none
    find := fun _ _ => none
    errValue := fun text => .errorString text
    rows := fun _ _ => 1
    sched := [0, 1]
    fetch := .ok 1 }

/-! ## config.go: CreateCache without the repeated coercion, NeedLoadAvgColect -/

/-- The variant of `CreateCache` the dead-branch claim compares with: the same
steps in the same order, with the second `DefaultTimeoutSec < ShortTimeoutSec`
coercion (config.go, lines 923-925) taken out. -/
def CreateCacheWithoutReapply (cacheName : String) (cacheConfig : CacheConfig) :
    CacheConfig × Except CreateCacheError CreatedCache :=
  if cacheConfig.DefaultTimeoutSec ≤ 0 ∧ cacheConfig.ShortTimeoutSec ≤ 0 ∧
      cacheConfig.FindTimeoutSec ≤ 0 then
    (cacheConfig, .ok .nilCache)
  else
    let c1 :=
      if cacheConfig.DefaultTimeoutSec < cacheConfig.ShortTimeoutSec then
        { cacheConfig with DefaultTimeoutSec := cacheConfig.ShortTimeoutSec }
      else cacheConfig
    let c2 :=
      if c1.ShortTimeoutSec < 0 ∨ c1.DefaultTimeoutSec = c1.ShortTimeoutSec then
        { c1 with ShortTimeoutSec := 0 }
      else c1
    let c4 := if c2.ShortDuration = 0 then { c2 with ShortDuration := 3 * hour } else c2
    let c5 := if c4.ShortUntilOffsetSec = 0 then { c4 with ShortUntilOffsetSec := 120 } else c4
    let c6 := { c5 with DefaultTimeoutStr := Itoa c5.DefaultTimeoutSec,
                        ShortTimeoutStr := Itoa c5.ShortTimeoutSec }
    (c6, createCacheByType cacheName c6)

/-- A cache configuration with both TTLs set to the broken value -1 and a find
TTL of 10 seconds. -/
def negativeTtlConfig : CacheConfig :=
  { Type_ := "mem", Size := 8, MemcachedServers := [],
    DefaultTimeoutSec := -1, DefaultTimeoutStr := "",
    ShortTimeoutSec := -1, ShortTimeoutStr := "",
    FindTimeoutSec := 10, ShortDuration := 0, ShortUntilOffsetSec := 0 }

/-- A cache configuration whose short and default TTL are both 60 seconds. -/
def equalTtlConfig : CacheConfig :=
  { Type_ := "mem", Size := 8, MemcachedServers := [],
    DefaultTimeoutSec := 60, DefaultTimeoutStr := "",
    ShortTimeoutSec := 60, ShortTimeoutStr := "",
    FindTimeoutSec := 0, ShortDuration := 0, ShortUntilOffsetSec := 0 }

/-- Method `Config.NeedLoadAvgColect` (config.go, lines 778-822): its result.
When `Common.SD` is set the method also fills in defaults of the
service-discovery settings before it returns true; they play no part in the
result and are left out. -/
def NeedLoadAvgColect (c : Config) : Bool :=
  if c.common.SD ≠ "" then true
  else if c.clickHouse.RenderAdaptiveQueries > 0 then true
  else if c.clickHouse.FindAdaptiveQueries > 0 then true
  else if c.clickHouse.TagsAdaptiveQueries > 0 then true
  else c.clickHouse.UserLimits.any fun u => decide (u.2.AdaptiveQueries > 0)

/-- A configuration whose only adaptive limiter is the one of the query-params
tier for requests of one hour and more (`adaptive-queries = 4`). -/
def adaptiveTierConfig : Config :=
  exampleConfig 0 0 [{ tierOf hour with AdaptiveQueries := 4 }]

/-! ## finder/cache.go: further scenarios -/

/-- The cache with `"k"` reserved while a second caller of `LockEntry("k")`
waits for the entry lock: the map lock is held for writing. -/
def waitingCache : Cache :=
  { reservedCache with lock := { writer := true, readers := 0 } }

/-- The cache after a sweep removed its only entry. -/
def sweptCache : Cache :=
  { lock := RWMutex.free, data := [], hits := 0, miss := 0, count := 0 }

/-! ## helper/clickhouse/clickhouse.go: ReadUvarint -/

/-- The two errors of `ReadUvarint`: `ErrUvarintRead` and `ErrUvarintOverflow`
(clickhouse.go, lines 61-62). -/
inductive UvarintError where
  | ErrUvarintRead
  | ErrUvarintOverflow
deriving DecidableEq, Repr

/-- A `uint64` shifted left by `s` bits: the bits pushed past bit 63 are lost. -/
def shlUint64 (v s : Nat) : Nat := (v <<< s) % 18446744073709551616

/-- The loop of `ReadUvarint` (clickhouse.go, lines 519-535) at index `i` with
the bytes from `array[i]` on still to read, the value `x` read so far and the
shift `s`. A byte is a number below 256. -/
def readUvarintLoop : List Nat → Nat → Nat → Nat → Nat × Nat × Option UvarintError
  | [], i, x, _ => (x, i + 1, some .ErrUvarintRead)
  | b :: rest, i, x, s =>
    if b < 0x80 then
      if i > 9 ∨ (i = 9 ∧ b > 1) then (x, i + 1, some .ErrUvarintOverflow)
      else (x ||| shlUint64 b s, i + 1, none)
    else readUvarintLoop rest (i + 1) (x ||| shlUint64 (b &&& 0x7f) s) (s + 7)

/-- Function `ReadUvarint(array)` (clickhouse.go, lines 513-536): the value, the
number of bytes read and the error. -/
def ReadUvarint (array : List Nat) : Nat × Nat × Option UvarintError :=
  readUvarintLoop array 0 0 0

/-- The standard unsigned base-128 varint of `x`, as the claim words it: 7 bits
per byte, least-significant group first, the continuation bit `0x80` set on
every byte but the last. -/
def encUvarint (x : Nat) : List Nat :=
  if h : x < 128 then [x] else (x % 128 + 128) :: encUvarint (x / 128)
termination_by x
decreasing_by omega

/-! ## helper/finder/finder.go: the shared maximum of FinderCached

The goroutines of `FinderCached` read and write `maxCacheTimeout` and
`maxCacheTimeoutStr` (finder.go, lines 31-35) without holding a lock; the lock
of the function is taken only around the update of `*metricsLen`. The
statements of different goroutines can therefore interleave. -/

/-- The TTL and TTL string `GetCacheTimeout` selects for each target, in the
order in which the goroutines are started. -/
def selectedTtls (cacheConfig : CacheConfig) (ts : Int) :
    List CachedTargets → List (Int × String)
  | [] => []
  | t :: rest =>
    t.slots.map (fun _ => ((GetCacheTimeout ts t.From t.Until cacheConfig).1,
      (GetCacheTimeout ts t.From t.Until cacheConfig).2.1)) ++
    selectedTtls cacheConfig ts rest

/-- The shared variables `maxCacheTimeout` and `maxCacheTimeoutStr`. -/
structure MaxVars where
  maxCacheTimeout : Int
  maxCacheTimeoutStr : String
deriving DecidableEq, Repr

/-- How far a goroutine has come in lines 31-35: before the test
`maxCacheTimeout < Timeout`, before the assignment of `maxCacheTimeout`, before
the assignment of `maxCacheTimeoutStr`, or past them. -/
inductive MaxPc where
  | test
  | assignTimeout
  | assignStr
  | done
deriving DecidableEq, Repr

/-- The next statement of a goroutine whose target has the selected TTL `ttl`:
the test `Timeout > 0` and `maxCacheTimeout < Timeout` (lines 31-32), the
assignment `maxCacheTimeout = Timeout` (line 33) or the assignment
`maxCacheTimeoutStr = TimeoutStr` (line 34). -/
def maxStep (ttl : Int × String) (pc : MaxPc) (v : MaxVars) : MaxPc × MaxVars :=
  match pc with
  | .test => if ttl.1 > 0 ∧ v.maxCacheTimeout < ttl.1 then (.assignTimeout, v) else (.done, v)
  | .assignTimeout => (.assignStr, { v with maxCacheTimeout := ttl.1 })
  | .assignStr => (.done, { v with maxCacheTimeoutStr := ttl.2 })
  | .done => (.done, v)

/-- The goroutines, each at one of its statements, and the shared variables. -/
structure MaxRun where
  pcs : List MaxPc
  vars : MaxVars
deriving DecidableEq, Repr

/-- Goroutine `g` runs its next statement. -/
def MaxRun.step (ttls : List (Int × String)) (r : MaxRun) (g : Nat) : MaxRun :=
  match ttls[g]?, r.pcs[g]? with
  | some ttl, some pc =>
    { pcs := r.pcs.set g (maxStep ttl pc r.vars).1, vars := (maxStep ttl pc r.vars).2 }
  | _, _ => r

/-- The run in which the scheduler picks the goroutines in the order `sched`,
from the start of `FinderCached`. -/
def maxRace (ttls : List (Int × String)) (sched : List Nat) : MaxRun :=
  sched.foldl (MaxRun.step ttls)
    { pcs := ttls.map fun _ => .test,
      vars := { maxCacheTimeout := 0, maxCacheTimeoutStr := "" } }

/-- The schedule in which every goroutine runs its three statements before the
next one starts. -/
def oneByOne (n : Nat) : List Nat :=
  (List.range n).flatMap fun g => [g, g, g]

/-- The request `hourAndDay` with both targets in the find cache; the limiter
is off and the fetch succeeds. -/
def cachedHourAndDay : RenderEnv :=
  { formatterErr := none
    parsed := .ok hourAndDay
    noCache := false
    start := 1704153650
    findCache := true
    cacheConfig := exampleCacheConfig
    loc := UTC
    cacheGet := fun _ => some "a.b.x"
    amLen := fun _ _ => 1
    enabled := false
    enter := fun _ => none
    find := fun _ _ => none
    errValue := fun text => .errorString text
    rows := fun _ _ => 1
    sched := []
    fetch := .ok 2 }

/-- The value `m` with the string `str` is the largest of the TTLs `seen`, or
zero with the empty string when none of them is positive. -/
def MaxInv (seen : List (Int × String)) (m : Int) (str : String) : Prop :=
  (∀ p ∈ seen, p.1 ≤ m) ∧ ((m = 0 ∧ str = "") ∨ (0 < m ∧ (m, str) ∈ seen))

/-! # Theorems -/

/-! ## Theorems: the duration router -/

theorem sliceAt_ok_of_lt (a : List QueryParam) (i : Int) (h0 : 0 ≤ i)
    (h1 : i < a.length) : ∃ q, sliceAt a i = .ok q ∧ a.get? i.toNat = some q := by
  have hlt : i.toNat < a.length := by omega
  refine ⟨a.get ⟨i.toNat, hlt⟩, ?_, List.get?_eq_get hlt⟩
  unfold sliceAt
  rw [if_neg (by omega), List.get?_eq_get hlt]

theorem sliceAt_ok_iff (a : List QueryParam) (i : Int) (q : QueryParam) :
    sliceAt a i = .ok q ↔ 0 ≤ i ∧ a.get? i.toNat = some q := by
  unfold sliceAt
  by_cases h : i < 0
  · simp [h]
  · cases hg : a.get? i.toNat with
    | none => simp [h]
    | some p =>
      simp only [h, if_false, Except.ok.injEq, Option.some.injEq]
      constructor
      · intro e; exact ⟨by omega, e⟩
      · intro e; exact e.2

theorem sliceAt_mem (a : List QueryParam) (i : Int) (q : QueryParam)
    (h : sliceAt a i = .ok q) : q ∈ a :=
  List.get?_mem ((sliceAt_ok_iff a i q).1 h).2

theorem sliceAt_sorted (a : List QueryParam) (hs : SortedByDuration a) (i j : Int)
    (p q : QueryParam) (hi : sliceAt a i = .ok p) (hj : sliceAt a j = .ok q)
    (hij : i ≤ j) : p.Duration ≤ q.Duration := by
  obtain ⟨hi0, hip⟩ := (sliceAt_ok_iff a i p).1 hi
  obtain ⟨hj0, hjq⟩ := (sliceAt_ok_iff a j q).1 hj
  rcases Nat.lt_or_ge i.toNat j.toNat with hlt | hge
  · have hjl : j.toNat < a.length := (List.get?_eq_some.1 hjq).1
    have hil : i.toNat < a.length := by omega
    have hp : a.get ⟨i.toNat, hil⟩ = p := by
      have := List.get?_eq_get hil; rw [hip] at this; exact (Option.some.inj this).symm
    have hq : a.get ⟨j.toNat, hjl⟩ = q := by
      have := List.get?_eq_get hjl; rw [hjq] at this; exact (Option.some.inj this).symm
    have := List.pairwise_iff_get.1 hs ⟨i.toNat, hil⟩ ⟨j.toNat, hjl⟩ hlt
    rw [hp, hq] at this
    exact this
  · have : i.toNat = j.toNat := by omega
    rw [this, hjq] at hip
    rw [Option.some.inj hip]

theorem binarySearchQueryParamLe_spec (a : List QueryParam) (duration : Int)
    (hs : SortedByDuration a) :
    ∀ (fuel : Nat) (start stop : Int), 0 ≤ start → stop ≤ a.length →
      0 < fuel → stop - start < fuel →
      ∃ r, binarySearchQueryParamLe fuel a duration start stop = .ok r ∧
        SearchPost a duration start stop r := by
  intro fuel
  induction fuel with
  | zero => intro start stop h0 h1 hpos hf; omega
  | succ n ih =>
    intro start stop h0 h1 hpos hf
    unfold binarySearchQueryParamLe
    simp only
    by_cases hlen : stop - start ≤ 0
    · rw [if_pos hlen]
      exact ⟨-1, rfl, Or.inl ⟨rfl, fun j q hj1 hj2 _ => by omega⟩⟩
    · rw [if_neg hlen]
      by_cases hone : stop - start = 1
      · rw [if_pos hone]
        obtain ⟨q, hq, _⟩ := sliceAt_ok_of_lt a start h0 (by omega)
        rw [hq]
        by_cases hgt : q.Duration > duration
        · simp only [hgt, if_true]
          refine ⟨-1, rfl, Or.inl ⟨rfl, fun j p hj1 hj2 hp => ?_⟩⟩
          have : j = start := by omega
          subst this
          rw [hq] at hp
          cases hp
          exact hgt
        · simp only [hgt, if_false]
          refine ⟨start, rfl, Or.inr ⟨le_refl _, by omega, ⟨q, hq, by omega⟩, ?_⟩⟩
          intro j p hj1 hj2 _
          omega
      · rw [if_neg hone]
        have hmid0 : 0 ≤ start + (stop - start) / 2 := by omega
        have hmid1 : start + (stop - start) / 2 < stop := by omega
        obtain ⟨q, hq, _⟩ := sliceAt_ok_of_lt a _ hmid0 (by omega)
        rw [hq]
        by_cases hgt : q.Duration > duration
        · simp only [hgt, if_true]
          obtain ⟨r, hr, hpost⟩ := ih start (start + (stop - start) / 2) h0 (by omega) (by omega) (by omega)
          refine ⟨r, hr, ?_⟩
          have hright : ∀ j p, start + (stop - start) / 2 ≤ j → j < stop →
              sliceAt a j = .ok p → duration < p.Duration := by
            intro j p hj1 hj2 hp
            have := sliceAt_sorted a hs _ j q p hq hp hj1
            omega
          rcases hpost with ⟨hr1, hall⟩ | ⟨hr1, hr2, hex, hall⟩
          · refine Or.inl ⟨hr1, fun j p hj1 hj2 hp => ?_⟩
            by_cases hjm : j < start + (stop - start) / 2
            · exact hall j p hj1 hjm hp
            · exact hright j p (by omega) hj2 hp
          · refine Or.inr ⟨hr1, by omega, hex, fun j p hj1 hj2 hp => ?_⟩
            by_cases hjm : j < start + (stop - start) / 2
            · exact hall j p hj1 hjm hp
            · exact hright j p (by omega) hj2 hp
        · simp only [hgt, if_false]
          obtain ⟨r, hr, hpost⟩ :=
            ih (start + (stop - start) / 2 + 1) stop (by omega) h1 (by omega) (by omega)
          rw [hr]
          rcases hpost with ⟨hr1, hall⟩ | ⟨hr1, hr2, hex, hall⟩
          · simp only [hr1, if_true]
            refine ⟨_, rfl, Or.inr ⟨by omega, hmid1, ⟨q, hq, by omega⟩, ?_⟩⟩
            intro j p hj1 hj2 hp
            exact hall j p (by omega) hj2 hp
          · have hne : r ≠ -1 := by omega
            simp only [hne, if_false]
            exact ⟨r, rfl, Or.inr ⟨by omega, hr2, hex, hall⟩⟩

theorem GetQueryParam_spec (a : List QueryParam) (duration : Int)
    (hs : SortedByDuration a) (hne : a ≠ [])
    (h0 : ∀ q, a.head? = some q → q.Duration ≤ duration) :
    ∃ i q, GetQueryParam a duration = .ok i ∧ sliceAt a i = .ok q ∧
      q.Duration ≤ duration ∧
      ∀ j p, i < j → sliceAt a j = .ok p → duration < p.Duration := by
  have hlen : 0 < a.length := List.length_pos.2 hne
  obtain ⟨r, hr, hpost⟩ := binarySearchQueryParamLe_spec a duration hs (a.length + 1) 0
    a.length (le_refl _) (le_refl _) (by omega) (by push_cast; omega)
  obtain ⟨q0, hq0, hget0⟩ := sliceAt_ok_of_lt a 0 (le_refl _) (by omega)
  have hq0d : q0.Duration ≤ duration := by
    apply h0
    cases a with
    | nil => exact absurd rfl hne
    | cons x xs => simpa using hget0
  unfold GetQueryParam
  rw [hr]
  rcases hpost with ⟨_, hall⟩ | ⟨hr1, hr2, ⟨q, hq, hqd⟩, hall⟩
  · have := hall 0 q0 (le_refl _) (by omega) hq0
    omega
  · have hne1 : r ≠ -1 := by omega
    simp only [hne1, if_false]
    refine ⟨r, q, rfl, hq, hqd, fun j p hj hp => ?_⟩
    have hj2 : j < a.length := by
      have := (sliceAt_ok_iff a j p).1 hp
      have := (List.get?_eq_some.1 this.2).1
      omega
    exact hall j p hj hj2 hp

/-- C1: for a non-empty tier list sorted ascending by `Duration` whose first
tier has `Duration = 0` and a duration `d ≥ 0`, `GetQueryParam` returns an index
`i` of the list with `list[i].Duration ≤ d` such that no tier has a `Duration`
that is `≤ d` and greater than `list[i].Duration`; with the tiers `0, 1h, 24h`
it answers index 1 (the `1h` tier) for `3h`, index 2 (the `24h` tier) for
`24h01m` and index 0 (the `0` tier) for `59m`. -/
theorem GetQueryParam_greatest_le (a : List QueryParam) (d : Int)
    (hne : a ≠ []) (hs : SortedByDuration a)
    (hfirst : a.head?.map QueryParam.Duration = some 0) (hd : 0 ≤ d) :
    (∃ i q, GetQueryParam a d = .ok i ∧ sliceAt a i = .ok q ∧ q.Duration ≤ d ∧
      ∀ t ∈ a, ¬ (t.Duration ≤ d ∧ q.Duration < t.Duration)) ∧
    (GetQueryParam exampleTiers (3 * hour) = .ok 1 ∧
      sliceAt exampleTiers 1 = .ok (tierOf hour)) ∧
    (GetQueryParam exampleTiers (24 * hour + minute) = .ok 2 ∧
      sliceAt exampleTiers 2 = .ok (tierOf (24 * hour))) ∧
    (GetQueryParam exampleTiers (59 * minute) = .ok 0 ∧
      sliceAt exampleTiers 0 = .ok (tierOf 0)) := by
  refine ⟨?_, ⟨rfl, rfl⟩, ⟨rfl, rfl⟩, ⟨rfl, rfl⟩⟩
  have h0 : ∀ q, a.head? = some q → q.Duration ≤ d := by
    intro q hq
    rw [hq] at hfirst
    have : q.Duration = 0 := by simpa using hfirst
    omega
  obtain ⟨i, q, hres, hq, hqd, hall⟩ := GetQueryParam_spec a d hs hne h0
  refine ⟨i, q, hres, hq, hqd, ?_⟩
  rintro t ht ⟨htd, hqt⟩
  obtain ⟨n, hn⟩ := List.get?_of_mem ht
  have hsl : sliceAt a (n : Int) = .ok t :=
    (sliceAt_ok_iff a n t).2 ⟨by omega, by simpa using hn⟩
  by_cases hlt : i < (n : Int)
  · have := hall n t hlt hsl
    omega
  · have := sliceAt_sorted a hs n i t q hsl hq (by omega)
    omega

/-- C1 at a concrete input: the scenario tiers and a three-hour window. -/
theorem GetQueryParam_greatest_le_witness :
    ∃ i q, GetQueryParam exampleTiers (3 * hour) = .ok i ∧
      sliceAt exampleTiers i = .ok q ∧ q.Duration ≤ 3 * hour ∧
      ∀ t ∈ exampleTiers, ¬ (t.Duration ≤ 3 * hour ∧ q.Duration < t.Duration) :=
  (GetQueryParam_greatest_le exampleTiers (3 * hour) (by decide) (by decide) (by decide)
    (by decide)).1

/-! ## Theorems: TTL selection -/

theorem wrapInt64_of_isInt64 (x : Int) (h : IsInt64 x) : wrapInt64 x = x := by
  unfold IsInt64 at h
  unfold wrapInt64
  omega

/-- Within the `int64` range of the nanosecond window width the TTL selection
follows the stated rule: the short TTL exactly for windows no wider than
`ShortDuration` that end no more than `ShortUntilOffsetSec` before `now`. -/
theorem GetCacheTimeout_in_range (cfg : CacheConfig) (nowUnix from_ until_ : Int)
    (hlt : from_ < until_)
    (hwidth : timeSecond * (until_ - from_) ≤ 9223372036854775807)
    (hnow : IsInt64 (nowUnix - until_)) :
    GetCacheTimeout nowUnix from_ until_ cfg =
      if timeSecond * (until_ - from_) ≤ cfg.ShortDuration ∧
          nowUnix - until_ ≤ cfg.ShortUntilOffsetSec then
        (cfg.ShortTimeoutSec, cfg.ShortTimeoutStr, .ShortCacheMetrics)
      else
        (cfg.DefaultTimeoutSec, cfg.DefaultTimeoutStr, .DefaultCacheMetrics) := by
  have hts : timeSecond = 1000000000 := rfl
  rw [hts] at hwidth ⊢
  have h1 : wrapInt64 (until_ - from_) = until_ - from_ :=
    wrapInt64_of_isInt64 _ ⟨by omega, by omega⟩
  have h2 : wrapInt64 (1000000000 * (until_ - from_)) = 1000000000 * (until_ - from_) :=
    wrapInt64_of_isInt64 _ ⟨by omega, by omega⟩
  have h3 : wrapInt64 (nowUnix - until_) = nowUnix - until_ := wrapInt64_of_isInt64 _ hnow
  unfold GetCacheTimeout
  rw [hts]
  simp only [h1, h2, h3]
  by_cases hz : cfg.ShortDuration = 0
  · rw [if_pos hz, if_neg]
    rintro ⟨hle, _⟩
    omega
  · rw [if_neg hz]
    by_cases hc : 1000000000 * (until_ - from_) ≤ cfg.ShortDuration ∧
        nowUnix - until_ ≤ cfg.ShortUntilOffsetSec
    · rw [if_pos hc, if_neg]
      rintro (h | h) <;> omega
    · rw [if_neg hc, if_pos]
      by_cases h : 1000000000 * (until_ - from_) ≤ cfg.ShortDuration
      · right
        have : ¬ (nowUnix - until_ ≤ cfg.ShortUntilOffsetSec) := fun h' => hc ⟨h, h'⟩
        omega
      · left
        omega

/-- The scenario of the specification: a one-hour window ending now gets the
short TTL `"10"`, a window ending well before now gets the default `"600"`. -/
theorem GetCacheTimeout_scenario :
    GetCacheTimeout 1704153600 1704150000 1704153600 exampleCacheConfig =
        (10, "10", .ShortCacheMetrics) ∧
      GetCacheTimeout 1704153600 1704145400 1704149000 exampleCacheConfig =
        (600, "600", .DefaultCacheMetrics) := by
  decide

/-- C2 (the code departs from the stated rule): for the window `from = 0`,
`until = 9999999999` at `now = 1704153600`, with `short_duration = 3h` and
`short_until_offset = 120s`, the window is wider than `ShortDuration` and yet
`GetCacheTimeout` answers the short TTL `"10"`: the width in nanoseconds leaves
the `int64` range and wraps to a negative duration. -/
theorem GetCacheTimeout_wide_window_short :
    0 < (9999999999 : Int) ∧
      ¬ (timeSecond * (9999999999 - 0) ≤ exampleCacheConfig.ShortDuration) ∧
      wrapInt64 (timeSecond * wrapInt64 (9999999999 - 0)) = -8446744074709551616 ∧
      GetCacheTimeout 1704153600 0 9999999999 exampleCacheConfig =
        (exampleCacheConfig.ShortTimeoutSec, exampleCacheConfig.ShortTimeoutStr,
          .ShortCacheMetrics) ∧
      GetCacheTimeout 1704153600 0 9999999999 exampleCacheConfig ≠
        (exampleCacheConfig.DefaultTimeoutSec, exampleCacheConfig.DefaultTimeoutStr,
          .DefaultCacheMetrics) := by
  decide

/-! ## Theorems: calendar dates -/

theorem doy_bounds (doe yoe : Int) (h0 : 0 ≤ doe) (h1 : doe < 146097)
    (hy : yoe = (doe - doe / 1460 + doe / 36524 - doe / 146096) / 365) :
    0 ≤ yoe ∧ yoe ≤ 399 ∧
    0 ≤ doe - (365 * yoe + yoe / 4 - yoe / 100) ∧
    doe - (365 * yoe + yoe / 4 - yoe / 100) ≤ 365 := by
  have hd : doe / 36524 = 0 ∨ doe / 36524 = 1 ∨ doe / 36524 = 2 ∨ doe / 36524 = 3 ∨
      doe / 36524 = 4 := by omega
  have hg : yoe / 100 = 0 ∨ yoe / 100 = 1 ∨ yoe / 100 = 2 ∨ yoe / 100 = 3 := by omega
  rcases hd with hd | hd | hd | hd | hd <;> rcases hg with hg | hg | hg | hg <;> omega

theorem doy_leap (doe yoe : Int) (h0 : 0 ≤ doe) (h1 : doe < 146097)
    (hy : yoe = (doe - doe / 1460 + doe / 36524 - doe / 146096) / 365)
    (h365 : doe - (365 * yoe + yoe / 4 - yoe / 100) = 365) :
    (yoe + 1) % 4 = 0 ∧ ((yoe + 1) % 100 ≠ 0 ∨ (yoe + 1) % 400 = 0) := by
  have hd : doe / 36524 = 0 ∨ doe / 36524 = 1 ∨ doe / 36524 = 2 ∨ doe / 36524 = 3 ∨
      doe / 36524 = 4 := by omega
  have hg : yoe / 100 = 0 ∨ yoe / 100 = 1 ∨ yoe / 100 = 2 ∨ yoe / 100 = 3 := by omega
  have hr : yoe % 4 = 0 ∨ yoe % 4 = 1 ∨ yoe % 4 = 2 ∨ yoe % 4 = 3 := by omega
  have hc : doe / 1460 = yoe / 4 ∨ doe / 1460 = yoe / 4 + 1 := by
    rcases hd with hd | hd | hd | hd | hd <;> rcases hg with hg | hg | hg | hg <;> omega
  rcases hd with hd | hd | hd | hd | hd <;> rcases hg with hg | hg | hg | hg <;>
    rcases hr with hr | hr | hr | hr <;> rcases hc with hc | hc <;> omega

theorem month_day_bounds (doy mp : Int) (h0 : 0 ≤ doy) (h1 : doy ≤ 365)
    (hmp : mp = (5 * doy + 2) / 153) :
    0 ≤ mp ∧ mp ≤ 11 ∧ 1 ≤ doy - (153 * mp + 2) / 5 + 1 ∧
    (mp = 0 ∨ mp = 2 ∨ mp = 4 ∨ mp = 5 ∨ mp = 7 ∨ mp = 9 ∨ mp = 10 →
      doy - (153 * mp + 2) / 5 + 1 ≤ 31) ∧
    (mp = 1 ∨ mp = 3 ∨ mp = 6 ∨ mp = 8 → doy - (153 * mp + 2) / 5 + 1 ≤ 30) ∧
    (mp = 11 → doy - (153 * mp + 2) / 5 + 1 ≤ 29 ∧
      (doy ≠ 365 → doy - (153 * mp + 2) / 5 + 1 ≤ 28)) := by
  have hm : mp = 0 ∨ mp = 1 ∨ mp = 2 ∨ mp = 3 ∨ mp = 4 ∨ mp = 5 ∨ mp = 6 ∨ mp = 7 ∨
      mp = 8 ∨ mp = 9 ∨ mp = 10 ∨ mp = 11 := by omega
  rcases hm with h | h | h | h | h | h | h | h | h | h | h | h <;> omega

theorem civilFromDays_decomp (z : Int) :
    ∃ era yoe doy mp : Int, 0 ≤ yoe ∧ yoe ≤ 399 ∧ 0 ≤ doy ∧ doy ≤ 365 ∧
      (doy = 365 → (yoe + 1) % 4 = 0 ∧ ((yoe + 1) % 100 ≠ 0 ∨ (yoe + 1) % 400 = 0)) ∧
      mp = (5 * doy + 2) / 153 ∧
      z = era * 146097 + (yoe * 365 + yoe / 4 - yoe / 100 + doy) - 719468 ∧
      civilFromDays z =
        (if mp < 10 then yoe + era * 400 else yoe + era * 400 + 1,
          if mp < 10 then mp + 3 else mp - 9, doy - (153 * mp + 2) / 5 + 1) := by
  have hdoe0 : 0 ≤ z + 719468 - (z + 719468) / 146097 * 146097 := by omega
  have hdoe1 : z + 719468 - (z + 719468) / 146097 * 146097 < 146097 := by omega
  obtain ⟨hy0, hy1, hdoy0, hdoy1⟩ := doy_bounds _ _ hdoe0 hdoe1 rfl
  have hleap := doy_leap _ _ hdoe0 hdoe1 rfl
  refine ⟨(z + 719468) / 146097, _, _, _, hy0, hy1, hdoy0, hdoy1, hleap, rfl, by omega, ?_⟩
  obtain ⟨hm0, hm1, -⟩ := month_day_bounds _ _ hdoy0 hdoy1 rfl
  unfold civilFromDays
  simp only
  split_ifs <;> first | rfl | omega

theorem daysFromCivil_march (era yoe mp d : Int) (hy0 : 0 ≤ yoe) (hy1 : yoe ≤ 399)
    (hm0 : 0 ≤ mp) (hm1 : mp < 10) :
    daysFromCivil (yoe + era * 400) (mp + 3) d =
      era * 146097 + (yoe * 365 + yoe / 4 - yoe / 100 + ((153 * mp + 2) / 5 + d - 1)) -
        719468 := by
  unfold daysFromCivil
  have h1 : ¬ (mp + 3 ≤ 2) := by omega
  have h2 : mp + 3 > 2 := by omega
  simp only [h1, h2, if_true, if_false]
  have : (yoe + era * 400) / 400 = era := by omega
  rw [this]
  have : mp + 3 - 3 = mp := by omega
  rw [this]
  omega

theorem daysFromCivil_janfeb (era yoe mp d : Int) (hy0 : 0 ≤ yoe) (hy1 : yoe ≤ 399)
    (hm0 : 10 ≤ mp) (hm1 : mp ≤ 11) :
    daysFromCivil (yoe + era * 400 + 1) (mp - 9) d =
      era * 146097 + (yoe * 365 + yoe / 4 - yoe / 100 + ((153 * mp + 2) / 5 + d - 1)) -
        719468 := by
  unfold daysFromCivil
  have h1 : mp - 9 ≤ 2 := by omega
  have h2 : ¬ (mp - 9 > 2) := by omega
  simp only [h1, h2, if_true, if_false]
  have : (yoe + era * 400 + 1 - 1) / 400 = era := by omega
  rw [this]
  have : yoe + era * 400 + 1 - 1 - era * 400 = yoe := by omega
  rw [this]
  have : mp - 9 + 9 = mp := by omega
  rw [this]

theorem isLeapYear_iff (y : Int) :
    isLeapYear y = true ↔ y % 4 = 0 ∧ (y % 100 ≠ 0 ∨ y % 400 = 0) := by
  unfold isLeapYear
  simp

theorem civilFromDays_valid (z : Int) :
    1 ≤ (civilFromDays z).2.1 ∧ (civilFromDays z).2.1 ≤ 12 ∧
    1 ≤ (civilFromDays z).2.2 ∧
    (civilFromDays z).2.2 ≤ daysInMonth (civilFromDays z).1 (civilFromDays z).2.1 ∧
    daysFromCivil (civilFromDays z).1 (civilFromDays z).2.1 (civilFromDays z).2.2 = z := by
  obtain ⟨era, yoe, doy, mp, hy0, hy1, hdoy0, hdoy1, hleap, hmp, hz, hciv⟩ :=
    civilFromDays_decomp z
  obtain ⟨hm0, hm1, hd1, h31, h30, hfeb⟩ := month_day_bounds doy mp hdoy0 hdoy1 hmp
  rw [hciv]
  by_cases hlt : mp < 10
  · simp only [hlt, if_true]
    refine ⟨by omega, by omega, hd1, ?_, ?_⟩
    · unfold daysInMonth
      have h2 : ¬ (mp + 3 = 2) := by omega
      rw [if_neg h2]
      split_ifs with h <;> omega
    · rw [daysFromCivil_march era yoe mp _ hy0 hy1 hm0 hlt, hz]
      omega
  · simp only [hlt, if_false]
    refine ⟨by omega, by omega, hd1, ?_, ?_⟩
    · unfold daysInMonth
      by_cases h11 : mp = 11
      · have h2 : mp - 9 = 2 := by omega
        rw [if_pos h2]
        by_cases hleapy : isLeapYear (yoe + era * 400 + 1) = true
        · rw [if_pos hleapy]; exact (hfeb h11).1
        · rw [if_neg hleapy]
          apply (hfeb h11).2
          intro h365
          apply hleapy
          rw [isLeapYear_iff]
          have := hleap h365
          omega
      · have h2 : ¬ (mp - 9 = 2) := by omega
        rw [if_neg h2]
        split_ifs with h <;> omega
    · rw [daysFromCivil_janfeb era yoe mp _ hy0 hy1 (by omega) hm1, hz]
      omega

/-! ## Theorems: decimal text and cache keys -/

theorem digitChar_toNat (k : Nat) : (digitChar k).toNat = 48 + k % 10 := by
  have h : k % 10 < 10 := Nat.mod_lt _ (by decide)
  unfold digitChar
  generalize k % 10 = r at *
  interval_cases r <;> rfl

theorem utoaAux_fuel (fuel1 : Nat) : ∀ (fuel2 n : Nat) (acc : List Char),
    n < fuel1 → n < fuel2 → utoaAux fuel1 n acc = utoaAux fuel2 n acc := by
  induction fuel1 with
  | zero => intro fuel2 n acc h; omega
  | succ f ih =>
    intro fuel2 n acc h1 h2
    cases fuel2 with
    | zero => omega
    | succ g =>
      unfold utoaAux
      by_cases hz : n / 10 = 0
      · simp [hz]
      · simp only [hz, if_false]
        exact ih g (n / 10) _ (by omega) (by omega)

theorem utoaAux_append (fuel : Nat) : ∀ (n : Nat) (acc : List Char),
    utoaAux fuel n acc = utoaAux fuel n [] ++ acc := by
  induction fuel with
  | zero => intro n acc; simp [utoaAux]
  | succ f ih =>
    intro n acc
    unfold utoaAux
    by_cases hz : n / 10 = 0
    · simp [hz]
    · simp only [hz, if_false]
      rw [ih (n / 10) (digitChar n :: acc), ih (n / 10) [digitChar n]]
      simp

theorem utoa_small (n : Nat) (h : n < 10) : utoa n = [digitChar n] := by
  unfold utoa utoaAux
  have : n / 10 = 0 := by omega
  simp [this]

theorem utoa_step (n : Nat) (h : 10 ≤ n) : utoa n = utoa (n / 10) ++ [digitChar n] := by
  unfold utoa
  have hz : ¬ (n / 10 = 0) := by omega
  conv_lhs => unfold utoaAux
  simp only [hz, if_false]
  rw [utoaAux_append, utoaAux_fuel n (n / 10 + 1) (n / 10) [] (by omega) (by omega)]

theorem decValue_snoc (cs : List Char) (c : Char) :
    decValue (cs ++ [c]) = 10 * decValue cs + (c.toNat - 48) := by
  unfold decValue
  rw [List.foldl_append]
  rfl

theorem decValue_utoa (n : Nat) : decValue (utoa n) = n := by
  induction n using Nat.strong_induction_on with
  | _ n ih =>
    by_cases h : n < 10
    · rw [utoa_small n h]
      unfold decValue
      simp only [List.foldl_cons, List.foldl_nil, digitChar_toNat]
      omega
    · rw [utoa_step n (by omega), decValue_snoc, ih (n / 10) (by omega), digitChar_toNat]
      omega

theorem decValue_replicate_zero (k : Nat) (l : List Char) :
    decValue (List.replicate k '0' ++ l) = decValue l := by
  induction k with
  | zero => simp
  | succ k ih =>
    have : decValue (List.replicate (k + 1) '0' ++ l) = decValue (List.replicate k '0' ++ l) := by
      unfold decValue
      rw [List.replicate_succ, List.cons_append, List.foldl_cons]
      rfl
    rw [this, ih]

theorem digitChar_ne_of_toNat (k : Nat) (c : Char) (h : c.toNat < 48 ∨ 57 < c.toNat) :
    digitChar k ≠ c := by
  intro e
  have := digitChar_toNat k
  rw [e] at this
  omega

theorem utoa_digits (n : Nat) : ∀ c ∈ utoa n, ∃ k, c = digitChar k := by
  induction n using Nat.strong_induction_on with
  | _ n ih =>
    intro c hc
    by_cases h : n < 10
    · rw [utoa_small n h] at hc
      exact ⟨n, by simpa using hc⟩
    · rw [utoa_step n (by omega), List.mem_append] at hc
      rcases hc with hc | hc
      · exact ih (n / 10) (by omega) c hc
      · exact ⟨n, by simpa using hc⟩

theorem utoa_ne_nil (n : Nat) : utoa n ≠ [] := by
  by_cases h : n < 10
  · rw [utoa_small n h]; simp
  · rw [utoa_step n (by omega)]; simp

theorem utoa_length_le (k : Nat) : ∀ n, n < 10 ^ (k + 1) → (utoa n).length ≤ k + 1 := by
  induction k with
  | zero => intro n h; rw [utoa_small n (by simpa using h)]; simp
  | succ k ih =>
    intro n h
    by_cases h10 : n < 10
    · rw [utoa_small n h10]; simp
    · rw [utoa_step n (by omega), List.length_append]
      have : n / 10 < 10 ^ (k + 1) := by
        rw [Nat.div_lt_iff_lt_mul (by decide)]
        rw [pow_succ] at h
        exact h
      have := ih (n / 10) this
      simp only [List.length_singleton]
      omega

theorem appendInt_eq (x : Int) (width : Nat) :
    appendInt x width =
      if x < 0 then '-' :: paddedDigits x.natAbs width else paddedDigits x.natAbs width := rfl

theorem paddedDigits_digits (n width : Nat) : ∀ c ∈ paddedDigits n width, ∃ k, c = digitChar k := by
  intro c hc
  unfold paddedDigits at hc
  rw [List.mem_append] at hc
  rcases hc with hc | hc
  · exact ⟨0, (List.eq_of_mem_replicate hc).trans rfl⟩
  · exact utoa_digits n c hc

theorem paddedDigits_ne_nil (n width : Nat) : paddedDigits n width ≠ [] := by
  unfold paddedDigits
  simp [utoa_ne_nil]

theorem decValue_paddedDigits (n width : Nat) : decValue (paddedDigits n width) = n := by
  unfold paddedDigits
  rw [decValue_replicate_zero, decValue_utoa]

theorem paddedDigits_length (n k : Nat) (h : n < 10 ^ (k + 1)) :
    (paddedDigits n (k + 1)).length = k + 1 := by
  unfold paddedDigits
  have := utoa_length_le k n h
  simp only [List.length_append, List.length_replicate]
  omega

theorem appendInt_injective (x y : Int) (width : Nat)
    (h : appendInt x width = appendInt y width) : x = y := by
  rw [appendInt_eq, appendInt_eq] at h
  have headDigit : ∀ n, '-' :: paddedDigits x.natAbs width ≠ paddedDigits n width := by
    intro n e
    have hm : '-' ∈ paddedDigits n width := by rw [← e]; simp
    obtain ⟨k, hk⟩ := paddedDigits_digits n width _ hm
    exact digitChar_ne_of_toNat k '-' (Or.inl (by decide)) hk.symm
  have headDigit' : ∀ n, '-' :: paddedDigits y.natAbs width ≠ paddedDigits n width := by
    intro n e
    have hm : '-' ∈ paddedDigits n width := by rw [← e]; simp
    obtain ⟨k, hk⟩ := paddedDigits_digits n width _ hm
    exact digitChar_ne_of_toNat k '-' (Or.inl (by decide)) hk.symm
  by_cases hx : x < 0 <;> by_cases hy : y < 0
  · simp only [hx, hy, if_true] at h
    have := congrArg decValue (List.cons.inj h).2
    rw [decValue_paddedDigits, decValue_paddedDigits] at this
    omega
  · simp only [hx, hy, if_true, if_false] at h
    exact absurd h (headDigit _)
  · simp only [hx, hy, if_true, if_false] at h
    exact absurd h.symm (headDigit' _)
  · simp only [hx, hy, if_false] at h
    have := congrArg decValue h
    rw [decValue_paddedDigits, decValue_paddedDigits] at this
    omega

theorem appendInt_chars (x : Int) (width : Nat) :
    ∀ c ∈ appendInt x width, c = '-' ∨ ∃ k, c = digitChar k := by
  intro c hc
  rw [appendInt_eq] at hc
  split_ifs at hc
  · rcases List.mem_cons.1 hc with h | h
    · exact Or.inl h
    · exact Or.inr (paddedDigits_digits _ _ c h)
  · exact Or.inr (paddedDigits_digits _ _ c hc)

theorem appendInt_length (x : Int) (k : Nat) (h0 : 0 ≤ x) (h1 : x < 10 ^ (k + 1)) :
    (appendInt x (k + 1)).length = k + 1 := by
  rw [appendInt_eq, if_neg (by omega)]
  apply paddedDigits_length
  have : (x.natAbs : Int) = x := Int.natAbs_of_nonneg h0
  have h2 : (x.natAbs : Int) < ((10 ^ (k + 1) : Nat) : Int) := by rw [this]; exact_mod_cast h1
  exact_mod_cast h2

theorem formatYMD_chars (ymd : Int × Int × Int) :
    ∀ c ∈ formatYMD ymd, c = '-' ∨ ∃ k, c = digitChar k := by
  intro c hc
  unfold formatYMD at hc
  simp only [List.mem_append, List.mem_cons] at hc
  rcases hc with h | h | h | h | h
  · exact appendInt_chars _ _ c h
  · exact Or.inl h
  · exact appendInt_chars _ _ c h
  · exact Or.inl h
  · exact appendInt_chars _ _ c h

theorem semicolon_not_mem_formatYMD (ymd : Int × Int × Int) : ';' ∉ formatYMD ymd := by
  intro h
  rcases formatYMD_chars ymd _ h with h | ⟨k, h⟩
  · exact absurd h (by decide)
  · exact digitChar_ne_of_toNat k ';' (Or.inr (by decide)) h.symm

theorem formatYMD_injective (y m d y' m' d' : Int)
    (hm : 0 ≤ m ∧ m < 100) (hd : 0 ≤ d ∧ d < 100)
    (hm' : 0 ≤ m' ∧ m' < 100) (hd' : 0 ≤ d' ∧ d' < 100)
    (h : formatYMD (y, m, d) = formatYMD (y', m', d')) : y = y' ∧ m = m' ∧ d = d' := by
  unfold formatYMD at h
  simp only at h
  have lm := appendInt_length m 1 hm.1 (by simpa using hm.2)
  have ld := appendInt_length d 1 hd.1 (by simpa using hd.2)
  have lm' := appendInt_length m' 1 hm'.1 (by simpa using hm'.2)
  have ld' := appendInt_length d' 1 hd'.1 (by simpa using hd'.2)
  obtain ⟨hy, hrest⟩ := List.append_inj' h (by simp [lm, ld, lm', ld'])
  have hrest2 := (List.cons.inj hrest).2
  obtain ⟨hmm, hrest3⟩ := List.append_inj hrest2 (by rw [lm, lm'])
  have hdd := (List.cons.inj hrest3).2
  exact ⟨appendInt_injective _ _ _ hy, appendInt_injective _ _ _ hmm,
    appendInt_injective _ _ _ hdd⟩

theorem daysInMonth_le (y m : Int) : daysInMonth y m ≤ 31 := by
  unfold daysInMonth
  split_ifs <;> omega

theorem formatYMD_valid_injective (p q : Int × Int × Int)
    (hp : 1 ≤ p.2.1 ∧ p.2.1 ≤ 12 ∧ 1 ≤ p.2.2 ∧ p.2.2 ≤ daysInMonth p.1 p.2.1)
    (hq : 1 ≤ q.2.1 ∧ q.2.1 ≤ 12 ∧ 1 ≤ q.2.2 ∧ q.2.2 ≤ daysInMonth q.1 q.2.1)
    (h : formatYMD p = formatYMD q) : p = q := by
  obtain ⟨y, m, d⟩ := p
  obtain ⟨y', m', d'⟩ := q
  simp only at hp hq
  have a6 := daysInMonth_le y m
  have b6 := daysInMonth_le y' m'
  obtain ⟨e1, e2, e3⟩ := formatYMD_injective y m d y' m' d' ⟨by omega, by omega⟩
    ⟨by omega, by omega⟩ ⟨by omega, by omega⟩ ⟨by omega, by omega⟩ h
  rw [e1, e2, e3]

theorem civilFromDays_injective (z w : Int) (h : civilFromDays z = civilFromDays w) :
    z = w := by
  have a := (civilFromDays_valid z).2.2.2.2
  have b := (civilFromDays_valid w).2.2.2.2
  rw [h] at a
  exact a.symm.trans b

theorem formatDate_eq_iff (loc : Location) (s t : Int) :
    formatDate loc s = formatDate loc t ↔ localDay loc s = localDay loc t := by
  constructor
  · intro h
    have h' : formatYMD (civilFromDays (localDay loc s)) =
        formatYMD (civilFromDays (localDay loc t)) := congrArg String.data h
    obtain ⟨a1, a2, a3, a4, _⟩ := civilFromDays_valid (localDay loc s)
    obtain ⟨b1, b2, b3, b4, _⟩ := civilFromDays_valid (localDay loc t)
    exact civilFromDays_injective _ _
      (formatYMD_valid_injective _ _ ⟨a1, a2, a3, a4⟩ ⟨b1, b2, b3, b4⟩ h')
  · intro h
    unfold formatDate
    rw [h]

theorem split_at_first {α : Type} (c : α) : ∀ (l1 l2 r1 r2 : List α), c ∉ l1 → c ∉ l2 →
    l1 ++ c :: r1 = l2 ++ c :: r2 → l1 = l2 ∧ r1 = r2 := by
  intro l1
  induction l1 with
  | nil =>
    intro l2 r1 r2 _ h2 h
    cases l2 with
    | nil => exact ⟨rfl, (List.cons.inj h).2⟩
    | cons x xs =>
      have : c = x := (List.cons.inj h).1
      exact absurd (by simp [this]) h2
  | cons a as ih =>
    intro l2 r1 r2 h1 h2 h
    cases l2 with
    | nil =>
      have : a = c := (List.cons.inj h).1
      exact absurd (by simp [this]) h1
    | cons x xs =>
      obtain ⟨hax, hrest⟩ := List.cons.inj h
      obtain ⟨e1, e2⟩ := ih xs r1 r2 (fun hm => h1 (List.mem_cons_of_mem _ hm))
        (fun hm => h2 (List.mem_cons_of_mem _ hm)) hrest
      exact ⟨by rw [hax, e1], e2⟩

theorem split_at_last {α : Type} (c : α) (l1 l2 r1 r2 : List α) (h1 : c ∉ r1) (h2 : c ∉ r2)
    (h : l1 ++ c :: r1 = l2 ++ c :: r2) : l1 = l2 ∧ r1 = r2 := by
  have h' := congrArg List.reverse h
  simp only [List.reverse_append, List.reverse_cons, List.append_assoc, List.singleton_append] at h'
  obtain ⟨e1, e2⟩ := split_at_first c r1.reverse r2.reverse l1.reverse l2.reverse
    (by simpa using h1) (by simpa using h2) h'
  exact ⟨List.reverse_injective e2, List.reverse_injective e1⟩

theorem TargetKey_data (loc : Location) (from_ until_ : Int) (target ttl : String) :
    (TargetKey loc from_ until_ target ttl).data =
      (formatDate loc from_).data ++ ';' :: ((formatDate loc until_).data ++ ';' ::
        (target.data ++ ';' :: ("ttl=".data ++ ttl.data))) := by
  unfold TargetKey
  simp only [String.data_append, List.append_assoc]
  rfl

/-- C3: `TargetKey(from, until, target, ttl)` is
`date(from) ++ ";" ++ date(until) ++ ";" ++ target ++ ";ttl=" ++ ttl`, where
`date(s)` writes the calendar day of epoch second `s` (a valid Gregorian date
`y-m-d` whose day number is the local day of `s`) as zero-padded year (four
digits for years 0 to 9999), two-digit month and two-digit day; in the zone UTC,
`TargetKey(1704067200, 1704153600, "a.b.*", "60")` is
`"2024-01-01;2024-01-02;a.b.*;ttl=60"`. -/
theorem TargetKey_layout (loc : Location) (from_ until_ : Int) (target ttl : String) :
    TargetKey loc from_ until_ target ttl =
        formatDate loc from_ ++ ";" ++ formatDate loc until_ ++ ";" ++ target ++
          ";ttl=" ++ ttl ∧
      (∀ sec : Int, ∃ y m d : Int,
        1 ≤ m ∧ m ≤ 12 ∧ 1 ≤ d ∧ d ≤ daysInMonth y m ∧
        daysFromCivil y m d = localDay loc sec ∧
        (formatDate loc sec).data =
          appendInt y 4 ++ '-' :: (appendInt m 2 ++ '-' :: appendInt d 2) ∧
        (appendInt m 2).length = 2 ∧ (appendInt d 2).length = 2 ∧
        (0 ≤ y → y ≤ 9999 → (appendInt y 4).length = 4)) ∧
      TargetKey UTC 1704067200 1704153600 "a.b.*" "60" =
        "2024-01-01;2024-01-02;a.b.*;ttl=60" := by
  refine ⟨rfl, ?_, by decide⟩
  intro sec
  obtain ⟨h1, h2, h3, h4, h5⟩ := civilFromDays_valid (localDay loc sec)
  have h6 := daysInMonth_le (civilFromDays (localDay loc sec)).1
    (civilFromDays (localDay loc sec)).2.1
  refine ⟨(civilFromDays (localDay loc sec)).1, (civilFromDays (localDay loc sec)).2.1,
    (civilFromDays (localDay loc sec)).2.2, h1, h2, h3, h4, h5, rfl, ?_, ?_, ?_⟩
  · exact appendInt_length _ 1 (by omega) (by norm_num; omega)
  · exact appendInt_length _ 1 (by omega) (by norm_num; omega)
  · intro hy0 hy1
    exact appendInt_length _ 3 hy0 (by norm_num; omega)

/-- C4 as stated fails: a target that itself contains `;ttl=` collides with a
shorter target under a TTL text that contains `;ttl=`. The two keys below are
equal although the targets and the TTL texts differ. -/
theorem TargetKey_collision :
    ¬ (TargetKey UTC 0 0 "a;ttl=b" "c" = TargetKey UTC 0 0 "a" "b;ttl=c" ↔
      localDay UTC 0 = localDay UTC 0 ∧ localDay UTC 0 = localDay UTC 0 ∧
        ("a;ttl=b" : String) = "a" ∧ ("c" : String) = "b;ttl=c") := by
  decide

/-- C4 (amended): for TTL texts without a `;` (such as the decimal TTLs the
configuration produces) two cache keys are equal exactly when `from` and
`from'` fall on the same calendar day, `until` and `until'` fall on the same
calendar day, the targets are equal and the TTL texts are equal; and for
arbitrary TTL texts, changing only the TTL changes the key. -/
theorem TargetKey_eq_iff (loc : Location) (from_ until_ from' until' : Int)
    (target ttl target' ttl' : String)
    (httl : ';' ∉ ttl.data) (httl' : ';' ∉ ttl'.data) :
    (TargetKey loc from_ until_ target ttl = TargetKey loc from' until' target' ttl' ↔
      localDay loc from_ = localDay loc from' ∧ localDay loc until_ = localDay loc until' ∧
        target = target' ∧ ttl = ttl') ∧
    (∀ t1 t2 : String, TargetKey loc from_ until_ target t1 =
      TargetKey loc from_ until_ target t2 → t1 = t2) := by
  constructor
  · constructor
    · intro h
      have hd := congrArg String.data h
      rw [TargetKey_data, TargetKey_data] at hd
      obtain ⟨e1, r1⟩ := split_at_first ';' _ _ _ _ (semicolon_not_mem_formatYMD _)
        (semicolon_not_mem_formatYMD _) hd
      obtain ⟨e2, r2⟩ := split_at_first ';' _ _ _ _ (semicolon_not_mem_formatYMD _)
        (semicolon_not_mem_formatYMD _) r1
      have n1 : ';' ∉ "ttl=".data ++ ttl.data := by
        intro hm
        rcases List.mem_append.1 hm with hm | hm
        · exact absurd hm (by decide)
        · exact httl hm
      have n2 : ';' ∉ "ttl=".data ++ ttl'.data := by
        intro hm
        rcases List.mem_append.1 hm with hm | hm
        · exact absurd hm (by decide)
        · exact httl' hm
      obtain ⟨e3, r3⟩ := split_at_last ';' _ _ _ _ n1 n2 r2
      refine ⟨(formatDate_eq_iff loc _ _).1 (String.ext e1),
        (formatDate_eq_iff loc _ _).1 (String.ext e2), String.ext e3,
        String.ext (List.append_cancel_left r3)⟩
    · rintro ⟨h1, h2, h3, h4⟩
      unfold TargetKey
      rw [(formatDate_eq_iff loc _ _).2 h1, (formatDate_eq_iff loc _ _).2 h2, h3, h4]
  · intro t1 t2 h
    have hd := congrArg String.data h
    rw [TargetKey_data, TargetKey_data] at hd
    have := List.append_cancel_left hd
    have := List.append_cancel_left (List.cons.inj this).2
    have := List.append_cancel_left (List.cons.inj this).2
    exact String.ext (List.append_cancel_left (List.cons.inj this).2)

/-- C4 (amended) at a concrete input: the first and the last second of
1970-01-01 give the same key for the same target and TTL. -/
theorem TargetKey_eq_iff_witness :
    TargetKey UTC 0 90000 "a.b.*" "60" = TargetKey UTC 86399 172799 "a.b.*" "60" :=
  (TargetKey_eq_iff UTC 0 90000 86399 172799 "a.b.*" "60" "a.b.*" "60" (by decide)
    (by decide)).1.2 ⟨by decide, by decide, rfl, rfl⟩

/-! ## Theorems: the finder cache -/

theorem EntryMap.get_eq_none_of_not_mem (m : EntryMap) (key : String)
    (h : key ∉ m.map Prod.fst) : m.get key = none := by
  induction m with
  | nil => rfl
  | cons p rest ih =>
    obtain ⟨k, e⟩ := p
    simp only [List.map_cons, List.mem_cons, not_or] at h
    unfold EntryMap.get
    rw [if_neg (fun hk => h.1 hk.symm)]
    exact ih h.2

theorem EntryMap.mem_keys_of_get (m : EntryMap) (key : String) (e : CacheEntry)
    (h : m.get key = some e) : (key, e) ∈ m := by
  induction m with
  | nil => exact absurd h (by simp [EntryMap.get])
  | cons p rest ih =>
    obtain ⟨k, e0⟩ := p
    unfold EntryMap.get at h
    by_cases hk : k = key
    · rw [if_pos hk] at h
      cases h
      rw [hk]
      exact List.mem_cons_self _ _
    · rw [if_neg hk] at h
      exact List.mem_cons_of_mem _ (ih h)

theorem EntryMap.get_update (m : EntryMap) (key key' : String) (e : CacheEntry) :
    (m.update key e).get key' =
      if key' = key then (m.get key).map (fun _ => e) else m.get key' := by
  induction m with
  | nil => simp [EntryMap.update, EntryMap.get]
  | cons p rest ih =>
    obtain ⟨k, e0⟩ := p
    have hstep : EntryMap.update ((k, e0) :: rest) key e =
        (if k = key then (k, e) else (k, e0)) :: EntryMap.update rest key e := rfl
    rw [hstep]
    by_cases hk : k = key
    · rw [if_pos hk]
      by_cases hk' : key' = key
      · rw [if_pos hk']
        unfold EntryMap.get
        rw [if_pos (hk.trans hk'.symm), if_pos hk]
        rfl
      · rw [if_neg hk']
        unfold EntryMap.get
        rw [if_neg (fun h => hk' (h.symm.trans hk)), if_neg (fun h => hk' (h.symm.trans hk)),
          ih, if_neg hk']
    · rw [if_neg hk]
      unfold EntryMap.get
      by_cases hkk : k = key'
      · rw [if_pos hkk, if_pos hkk, if_neg (fun h => hk (hkk.trans h))]
      · rw [if_neg hkk, if_neg hkk, ih]
        by_cases hk' : key' = key
        · rw [if_pos hk', if_pos hk', if_neg hk]
        · rw [if_neg hk', if_neg hk']

theorem EntryMap.get_filter (m : EntryMap) (hwf : m.WF) (p : String × CacheEntry → Bool)
    (key : String) :
    EntryMap.get (m.filter p) key = (m.get key).filter (fun e => p (key, e)) := by
  induction m with
  | nil => rfl
  | cons q rest ih =>
    obtain ⟨k, e0⟩ := q
    have hnd : k ∉ rest.map Prod.fst ∧ EntryMap.WF rest := by
      unfold EntryMap.WF at hwf ⊢
      simpa using hwf
    by_cases hk : k = key
    · subst hk
      have hrest : EntryMap.get (rest.filter p) k = none := by
        apply EntryMap.get_eq_none_of_not_mem
        intro hm
        apply hnd.1
        obtain ⟨x, hx, hxk⟩ := List.mem_map.1 hm
        exact List.mem_map.2 ⟨x, List.mem_of_mem_filter hx, hxk⟩
      by_cases hp : p (k, e0) = true
      · rw [List.filter_cons_of_pos hp]
        unfold EntryMap.get
        simp [hp, Option.filter]
      · rw [List.filter_cons_of_neg hp, hrest]
        unfold EntryMap.get
        simp [hp, Option.filter]
    · have hget : EntryMap.get ((k, e0) :: rest) key = EntryMap.get rest key := by
        conv_lhs => unfold EntryMap.get
        rw [if_neg hk]
      rw [hget, ← ih hnd.2]
      by_cases hp : p (k, e0) = true
      · rw [List.filter_cons_of_pos hp]
        conv_lhs => unfold EntryMap.get
        rw [if_neg hk]
      · rw [List.filter_cons_of_neg hp]

theorem EntryMap.WF_filter (m : EntryMap) (hwf : m.WF) (p : String × CacheEntry → Bool) :
    EntryMap.WF (m.filter p) := by
  unfold EntryMap.WF at hwf ⊢
  exact hwf.sublist ((List.filter_sublist m).map Prod.fst)

theorem RWMutex.Lock_free : RWMutex.free.Lock = some { writer := true, readers := 0 } := rfl

/-- What `ExpireEntries` does on a cache whose map lock is free. -/
theorem ExpireEntries_returns (c : Cache) (now : Int) (hfree : c.lock = RWMutex.free) :
    c.ExpireEntries now = .returned ()
      { c with data := c.data.filter (fun p => ¬ (p.2.expire < now)),
               count := (c.data.filter (fun p => ¬ (p.2.expire < now))).length } := by
  unfold Cache.ExpireEntries
  rw [hfree]
  rfl

/-- The effect of a sweep, entry by entry. -/
theorem ExpireEntries_effect (c : Cache) (now : Int) (hwf : c.data.WF)
    (hfree : c.lock = RWMutex.free) :
    ∃ c', c.ExpireEntries now = .returned () c' ∧
      (∀ key e, c.data.get key = some e →
        c'.data.get key = if e.expire < now then none else some e) ∧
      (∀ key, c.data.get key = none → c'.data.get key = none) ∧
      c'.count = c'.data.length ∧ EntryMap.WF c'.data ∧ c'.lock = RWMutex.free ∧
      c'.hits = c.hits ∧ c'.miss = c.miss := by
  refine ⟨_, ExpireEntries_returns c now hfree, ?_, ?_, rfl, ?_, hfree, rfl, rfl⟩
  · intro key e hget
    show EntryMap.get (c.data.filter _) key = _
    rw [EntryMap.get_filter c.data hwf, hget]
    by_cases h : e.expire < now <;> simp [Option.filter, h]
  · intro key hget
    show EntryMap.get (c.data.filter _) key = _
    rw [EntryMap.get_filter c.data hwf, hget]
    rfl
  · exact EntryMap.WF_filter c.data hwf _

/-- C6: on every cache (map keys distinct, map lock free when the call takes
it) and for every time `now`, `ExpireEntries` returns, removes exactly the
entries whose `expire < now`, leaves every other entry as it was, and sets
`count` to the number of entries left in the map; `hits` and `miss` stay. -/
theorem ExpireEntries_removes_expired (c : Cache) (now : Int) (hwf : c.data.WF)
    (hfree : c.lock = RWMutex.free) :
    ∃ c', c.ExpireEntries now = .returned () c' ∧
      (∀ key e, c.data.get key = some e →
        c'.data.get key = if e.expire < now then none else some e) ∧
      (∀ key, c.data.get key = none → c'.data.get key = none) ∧
      c'.count = c'.data.length ∧ EntryMap.WF c'.data ∧ c'.lock = RWMutex.free ∧
      c'.hits = c.hits ∧ c'.miss = c.miss :=
  ExpireEntries_effect c now hwf hfree

/-- C6 at a concrete input: a sweep at second 105 over a cache with one entry
expiring at 110 and one expiring at 103. -/
theorem ExpireEntries_removes_expired_witness :
    ∃ c', publishedCache.ExpireEntries 105 = .returned () c' ∧
      (∀ key e, publishedCache.data.get key = some e →
        c'.data.get key = if e.expire < 105 then none else some e) ∧
      (∀ key, publishedCache.data.get key = none → c'.data.get key = none) ∧
      c'.count = c'.data.length ∧ EntryMap.WF c'.data ∧ c'.lock = RWMutex.free ∧
      c'.hits = publishedCache.hits ∧ c'.miss = publishedCache.miss :=
  ExpireEntries_removes_expired publishedCache 105 (by decide) (by decide)

theorem RWMutex.RLock_writer_false (rw l : RWMutex) (h : rw.RLock = some l) :
    l.writer = false := by
  unfold RWMutex.RLock at h
  by_cases hw : rw.writer = true
  · rw [if_pos hw] at h
    exact absurd h (by simp)
  · rw [if_neg hw] at h
    cases h
    simpa using hw

theorem RWMutex.Unlock_of_not_writer (l : RWMutex) (h : l.writer = false) :
    l.Unlock = none := by
  unfold RWMutex.Unlock
  simp [h]

/-- Method `PutEntry` takes the map lock with `RLock` and gives it back with `Unlock`:
it never comes back to its caller. -/
theorem PutEntry_never_returns (c : Cache) (now : Int) (key : String) (r : Result)
    (expire : Int) : (c.PutEntry now key r expire).isReturned = false := by
  unfold Cache.PutEntry
  cases hl : c.lock.RLock with
  | none => rfl
  | some l1 =>
    have hu := RWMutex.Unlock_of_not_writer l1 (RWMutex.RLock_writer_false _ _ hl)
    simp only
    cases hg : EntryMap.get c.data key with
    | none => simp only [hu]; rfl
    | some e =>
      simp only
      cases he : e.lock.Unlock with
      | none => rfl
      | some el => simp only [hu]; rfl

/-- Method `CacheEntry.Result` takes the entry lock with `RLock` and gives it back with
`Unlock`: it either waits or ends in the fatal error. -/
theorem Result_never_returns (e : CacheEntry) :
    e.Result = .blocked e ∨ ∃ e1, e.Result = .fatal e1 := by
  unfold CacheEntry.Result
  cases hl : e.lock.RLock with
  | none => exact Or.inl rfl
  | some l1 =>
    have hu := RWMutex.Unlock_of_not_writer l1 (RWMutex.RLock_writer_false _ _ hl)
    simp only [hu]
    exact Or.inr ⟨_, rfl⟩

/-- Method `GetEntry` never comes back to its caller. -/
theorem GetEntry_never_returns (c : Cache) (key : String) :
    (c.GetEntry key).isReturned = false := by
  unfold Cache.GetEntry
  cases hl : c.lock.RLock with
  | none => rfl
  | some l1 =>
    have hu := RWMutex.Unlock_of_not_writer l1 (RWMutex.RLock_writer_false _ _ hl)
    simp only
    cases hg : EntryMap.get c.data key with
    | none => simp only [hu]; rfl
    | some e =>
      simp only
      rcases Result_never_returns e with h | ⟨e1, h⟩ <;> rw [h] <;> rfl

/-- On a cache whose map lock is free and in which `key` is reserved (its entry
is locked for writing), `PutEntry` stores the result, sets `done`, sets
`expire` to the Unix second of `now + ttl`, adds one to `count` and releases
the entry lock; the `Unlock` of the read-locked map lock that follows is the
fatal error. -/
theorem PutEntry_reserved (c : Cache) (now : Int) (key : String) (r : Result)
    (expire : Int) (e : CacheEntry) (hfree : c.lock = RWMutex.free)
    (hget : c.data.get key = some e) (hlocked : e.lock = { writer := true, readers := 0 }) :
    c.PutEntry now key r expire = .fatal
      { c with lock := { writer := false, readers := 1 },
               data := (c.data.update key
                  { e with result := r, expire := unixAfter now expire, done := true }).update
                  key { expire := unixAfter now expire, lock := RWMutex.free, result := r,
                        done := true },
               count := addUint64 c.count } := by
  unfold Cache.PutEntry
  rw [hfree]
  simp only [RWMutex.RLock, RWMutex.free, Bool.false_eq_true, if_false]
  rw [hget]
  simp only [hlocked, RWMutex.Unlock, if_true, Bool.false_eq_true, if_false]

/-- C5 (the code departs from the claim): `LockEntry("k")` on the empty cache
reserves the key; `PutEntry("k", r, 10s)` run at second 100 then stores `r`,
sets `done`, sets `expire` to `110`, raises `count` from 0 to 1 and frees the
entry lock, but ends in the fatal error on the map lock instead of returning,
and the `GetEntry("k")` that should answer `(r, true)` ends in the same error
inside `CacheEntry.Result`. No `PutEntry` and no `GetEntry` ever returns. -/
theorem PutEntry_then_GetEntry_fatal :
    Cache.empty.LockEntry "k" = .returned () reservedCache ∧
    reservedCache.PutEntry 100000000000 "k" exampleResult 10000000000 = .fatal
      { lock := { writer := false, readers := 1 },
        data := [("k", { expire := 110, lock := RWMutex.free, result := exampleResult,
                         done := true })],
        hits := 0, miss := 0, count := 1 } ∧
    Cache.GetEntry
      { lock := RWMutex.free,
        data := [("k", { expire := 110, lock := RWMutex.free, result := exampleResult,
                         done := true })],
        hits := 0, miss := 0, count := 1 } "k" = .fatal
      { lock := { writer := false, readers := 1 },
        data := [("k", { expire := 110, lock := { writer := false, readers := 1 },
                         result := exampleResult, done := true })],
        hits := 0, miss := 0, count := 1 } ∧
    (∀ (c : Cache) (now : Int) (key : String) (r : Result) (expire : Int),
      (c.PutEntry now key r expire).isReturned = false) ∧
    (∀ (c : Cache) (key : String), (c.GetEntry key).isReturned = false) :=
  ⟨by decide, by decide, by decide, PutEntry_never_returns, GetEntry_never_returns⟩

theorem unixAfter_whole_seconds (now tau : Int) :
    unixAfter now (tau * 1000000000) = now / 1000000000 + tau := by
  unfold unixAfter
  omega

/-- The entry `PutEntry` leaves under a key that is in the map, whatever way the
call ends: result stored, `done` set, `expire` the Unix second of `now + ttl`. -/
theorem PutEntry_stores (c : Cache) (now : Int) (key : String) (r : Result)
    (expire : Int) (e0 : CacheEntry) (hw : c.lock.writer = false)
    (hget : c.data.get key = some e0) :
    ∃ e1, (c.PutEntry now key r expire).cache.data.get key = some e1 ∧
      e1.expire = unixAfter now expire ∧ e1.done = true ∧ e1.result = r := by
  unfold Cache.PutEntry
  have hl : c.lock.RLock = some { c.lock with readers := c.lock.readers + 1 } := by
    unfold RWMutex.RLock
    simp [hw]
  rw [hl]
  simp only [hget]
  cases he : e0.lock.Unlock with
  | none =>
    refine ⟨{ e0 with result := r, expire := unixAfter now expire, done := true },
      ?_, rfl, rfl, rfl⟩
    show EntryMap.get (EntryMap.update c.data key _) key = _
    rw [EntryMap.get_update, if_pos rfl, hget]
    rfl
  | some el =>
    have hu : RWMutex.Unlock { c.lock with readers := c.lock.readers + 1 } = none :=
      RWMutex.Unlock_of_not_writer _ hw
    simp only [hu]
    refine ⟨{ expire := unixAfter now expire, lock := el, result := r, done := true },
      ?_, rfl, rfl, rfl⟩
    show EntryMap.get (EntryMap.update (EntryMap.update c.data key _) key _) key = _
    rw [EntryMap.get_update, if_pos rfl, EntryMap.get_update, if_pos rfl, hget]
    rfl

/-- C7 as stated fails at `now = t0 + tau`: the entry published at second 100
with a TTL of 10 seconds has `expire = 110`, and the sweep at second 110 keeps
it, so the key is still in the map with `done` set and a lookup records no
miss. -/
theorem ExpireEntries_keeps_entry_at_deadline :
    (100 : Int) + 10 ≤ 110 ∧
    (reservedCache.PutEntry 100000000000 "k" exampleResult 10000000000).cache.data =
      publishedOne.data ∧
    publishedOne.ExpireEntries 110 = .returned () publishedOne ∧
    publishedOne.data.get "k" = some publishedEntry ∧ publishedEntry.done = true ∧
    (publishedOne.GetEntry "k").cache.miss = publishedOne.miss ∧
    publishedOne.GetEntry "k" ≠ .returned (none, false)
      { publishedOne with miss := publishedOne.miss + 1 } := by
  decide

/-- C7 (amended): `PutEntry` run at Unix second `t0` with a TTL of `tau` whole
seconds stores `expire = t0 + tau` with the result and `done`; and an entry with
`expire = t0 + tau` is still in the map, unchanged, after an `ExpireEntries` run
at every `now ≤ t0 + tau` (so at every `t0 ≤ now < t0 + tau`), and is gone from
the map after an `ExpireEntries` run at every `now > t0 + tau`. -/
theorem ExpireEntries_ttl_window (c : Cache) (key : String) (e : CacheEntry)
    (t0 tau now : Int) (hwf : c.data.WF) (hfree : c.lock = RWMutex.free)
    (hget : c.data.get key = some e) (hexp : e.expire = t0 + tau) :
    (∀ (c0 : Cache) (nowNs : Int) (r : Result) (e0 : CacheEntry),
      c0.lock.writer = false → c0.data.get key = some e0 → nowNs / 1000000000 = t0 →
      ∃ e1, (c0.PutEntry nowNs key r (tau * 1000000000)).cache.data.get key = some e1 ∧
        e1.expire = t0 + tau ∧ e1.done = true ∧ e1.result = r) ∧
    (now ≤ t0 + tau →
      ∃ c', c.ExpireEntries now = .returned () c' ∧ c'.data.get key = some e) ∧
    (t0 + tau < now →
      ∃ c', c.ExpireEntries now = .returned () c' ∧ c'.data.get key = none) := by
  obtain ⟨c', hrun, hkeep, -⟩ := ExpireEntries_effect c now hwf hfree
  refine ⟨?_, ?_, ?_⟩
  · intro c0 nowNs r e0 hw hg ht
    obtain ⟨e1, h1, h2, h3, h4⟩ := PutEntry_stores c0 nowNs key r (tau * 1000000000) e0 hw hg
    refine ⟨e1, h1, ?_, h3, h4⟩
    rw [h2, unixAfter_whole_seconds, ht]
  · intro hle
    refine ⟨c', hrun, ?_⟩
    rw [hkeep key e hget, if_neg (by omega)]
  · intro hlt
    refine ⟨c', hrun, ?_⟩
    rw [hkeep key e hget, if_pos (by omega)]

/-- C7 (amended) at a concrete input: the entry published at second 100 with a
TTL of 10 seconds survives the sweep at second 109 and is gone after the sweep
at second 111. -/
theorem ExpireEntries_ttl_window_witness :
    (∃ c', publishedOne.ExpireEntries 109 = .returned () c' ∧
      c'.data.get "k" = some publishedEntry) ∧
    (∃ c', publishedOne.ExpireEntries 111 = .returned () c' ∧ c'.data.get "k" = none) :=
  ⟨(ExpireEntries_ttl_window publishedOne "k" publishedEntry 100 10 109 (by decide)
      (by decide) (by decide) (by decide)).2.1 (by decide),
   (ExpireEntries_ttl_window publishedOne "k" publishedEntry 100 10 111 (by decide)
      (by decide) (by decide) (by decide)).2.2 (by decide)⟩

/-! ## Theorems: the fan-out planner -/

theorem mem_iff_eraseIdx_or_get {α : Type} (l : List α) (n : Nat) (x y : α)
    (h : l.get? n = some y) : x ∈ l ↔ x ∈ l.eraseIdx n ∨ x = y := by
  constructor
  · intro hx
    obtain ⟨j, hj⟩ := List.get?_of_mem hx
    by_cases hjn : j = n
    · right
      rw [hjn, h] at hj
      exact (Option.some.inj hj).symm
    · left
      exact List.mem_eraseIdx_iff_getElem?.2 ⟨j, hjn, by rw [← hj]; simp⟩
  · rintro (hx | hx)
    · exact List.mem_of_mem_eraseIdx hx
    · rw [hx]
      exact List.get?_mem h

theorem mem_drainErrors (events : List FindEvent) (pending : List (Option GoError))
    (errs : List GoError) (e : GoError) :
    e ∈ drainErrors events pending errs ↔
      e ∈ errs ∨ some e ∈ pending ∨ ∃ ev ∈ events, ev.error = some e := by
  unfold drainErrors
  simp only [List.mem_append, List.mem_filterMap, id]
  constructor
  · rintro ((h | ⟨ev, hev, h⟩) | ⟨o, (ho | ⟨ev, hev, h⟩), h⟩)
    · exact Or.inl h
    · cases ev with
      | enterFailed a i e' => exact Or.inr (Or.inr ⟨_, hev, by simpa [FindEvent.error] using h⟩)
      | launched a i o => simp at h
    · exact Or.inr (Or.inl (h ▸ ho))
    · cases ev with
      | enterFailed a i e' => simp at h
      | launched a i o' =>
        simp only [Option.some.injEq] at h
        exact Or.inr (Or.inr ⟨_, hev, by rw [FindEvent.error, h]; assumption⟩)
  · rintro (h | h | ⟨ev, hev, h⟩)
    · exact Or.inl (Or.inl h)
    · exact Or.inr ⟨some e, Or.inl h, rfl⟩
    · cases ev with
      | enterFailed a i e' =>
        exact Or.inl (Or.inr ⟨_, hev, by simpa [FindEvent.error] using h⟩)
      | launched a i o =>
        exact Or.inr ⟨some e, Or.inr ⟨_, hev, by simpa [FindEvent.error] using h⟩, rfl⟩

/-- Every error of a failing call is in `errors` at the join and nothing else
is, whatever the schedule. -/
theorem mem_joinErrors (sched : List Nat) : ∀ (events : List FindEvent)
    (pending : List (Option GoError)) (errs : List GoError) (e : GoError),
    e ∈ joinErrors sched events pending errs ↔
      e ∈ errs ∨ some e ∈ pending ∨ ∃ ev ∈ events, ev.error = some e := by
  induction sched with
  | nil => intro events pending errs e; exact mem_drainErrors events pending errs e
  | cons n sched ih =>
    intro events pending errs e
    cases n with
    | zero =>
      cases events with
      | nil => rw [joinErrors, ih]
      | cons ev events =>
        cases ev with
        | enterFailed a i e' =>
          rw [joinErrors, ih]
          simp only [List.mem_append, List.mem_cons, List.not_mem_nil, or_false,
            exists_eq_or_imp, FindEvent.error, Option.some.injEq]
          have hc : e' = e ↔ e = e' := eq_comm
          rw [hc]
          tauto
        | launched a i o =>
          rw [joinErrors, ih]
          simp only [List.mem_append, List.mem_cons, List.not_mem_nil, or_false,
            exists_eq_or_imp, FindEvent.error]
          have hc : o = some e ↔ some e = o := eq_comm
          rw [hc]
          tauto
    | succ n =>
      rw [joinErrors]
      cases hp : pending.get? n with
      | none => simp only; rw [ih]
      | some o =>
        have hmem := mem_iff_eraseIdx_or_get pending n (some e) o hp
        cases o with
        | none =>
          simp only
          rw [ih, hmem]
          simp
        | some e' =>
          simp only
          rw [ih, hmem]
          simp only [List.mem_append, List.mem_cons, List.not_mem_nil, or_false,
            Option.some.injEq]
          tauto

theorem head?_ne_none_iff {α : Type} (l : List α) : l.head? ≠ none ↔ ∃ x, x ∈ l := by
  cases l with
  | nil => simp
  | cons x xs => simp

/-- Function `Find` returns an error exactly when one of the calls it made failed. -/
theorem Find_err_iff_event (enabled : Bool) (enter : Nat → Option GoError)
    (find : Nat → Nat → Option GoError) (reqs : List FetchRequest) (sched : List Nat) :
    (Find enabled enter find reqs sched).err ≠ none ↔
      ∃ ev ∈ (Find enabled enter find reqs sched).events, ev.error ≠ none := by
  unfold Find
  simp only
  rw [head?_ne_none_iff]
  constructor
  · rintro ⟨e, he⟩
    rw [mem_joinErrors] at he
    rcases he with h | h | ⟨ev, hev, h⟩
    · simp at h
    · simp at h
    · exact ⟨ev, hev, by rw [h]; simp⟩
  · rintro ⟨ev, hev, h⟩
    obtain ⟨e, he⟩ := Option.ne_none_iff_exists'.1 h
    exact ⟨e, (mem_joinErrors _ _ _ _ _).2 (Or.inr (Or.inr ⟨ev, hev, he⟩))⟩

theorem findInnerLoop_sound (enabled : Bool) (enter : Nat → Option GoError)
    (find : Nat → Nat → Option GoError) (a : Nat) (from_ until_ : Int)
    (slots : List TargetSlot) : ∀ (i : Nat) (st : LoopState) (ev : FindEvent),
    ev ∈ (findInnerLoop enabled enter find a from_ until_ slots i st).events →
    ev ∈ st.events ∨ ∃ j s, slots.get? j = some s ∧ s.cached = false ∧
      (ev = .launched a (i + j) (find a (i + j)) ∨
        ∃ e k, enabled = true ∧ enter k = some e ∧ ev = .enterFailed a (i + j) e) := by
  induction slots with
  | nil => intro i st ev h; exact Or.inl h
  | cons s rest ih =>
    intro i st ev h
    rw [findInnerLoop] at h
    generalize hst1 : (if st.maxDuration < wrapInt64 (until_ - from_) then
      { st with maxDuration := wrapInt64 (until_ - from_) } else st) = st1 at h
    have hev1 : st1.events = st.events := by
      rw [← hst1]; split_ifs <;> rfl
    have shift : ∀ j, i + 1 + j = i + (j + 1) := fun j => by omega
    have lift : (∃ j s', rest.get? j = some s' ∧ s'.cached = false ∧
        (ev = .launched a (i + 1 + j) (find a (i + 1 + j)) ∨
          ∃ e k, enabled = true ∧ enter k = some e ∧ ev = .enterFailed a (i + 1 + j) e)) →
        ∃ j s', (s :: rest).get? j = some s' ∧ s'.cached = false ∧
        (ev = .launched a (i + j) (find a (i + j)) ∨
          ∃ e k, enabled = true ∧ enter k = some e ∧ ev = .enterFailed a (i + j) e) := by
      rintro ⟨j, s', hj, hs', hcase⟩
      rw [shift j] at hcase
      exact ⟨j + 1, s', by simpa using hj, hs', hcase⟩
    by_cases hc : s.cached = true
    · rw [if_pos hc] at h
      rcases ih (i + 1) st1 ev h with h1 | h1
      · exact Or.inl (hev1 ▸ h1)
      · exact Or.inr (lift h1)
    · rw [if_neg hc] at h
      have hcf : s.cached = false := by simpa using hc
      by_cases hen : enabled = true
      · rw [if_pos hen] at h
        cases hent : enter st1.enterCalls with
        | some e =>
          rw [hent] at h
          simp only [List.mem_append, List.mem_singleton] at h
          rcases h with h | h
          · exact Or.inl (hev1 ▸ h)
          · exact Or.inr ⟨0, s, rfl, hcf, Or.inr ⟨e, _, hen, hent, h⟩⟩
        | none =>
          rw [hent] at h
          rcases ih (i + 1) _ ev h with h1 | h1
          · simp only [List.mem_append, List.mem_singleton] at h1
            rcases h1 with h1 | h1
            · exact Or.inl (hev1 ▸ h1)
            · exact Or.inr ⟨0, s, rfl, hcf, Or.inl h1⟩
          · exact Or.inr (lift h1)
      · rw [if_neg hen] at h
        rcases ih (i + 1) _ ev h with h1 | h1
        · simp only [List.mem_append, List.mem_singleton] at h1
          rcases h1 with h1 | h1
          · exact Or.inl (hev1 ▸ h1)
          · exact Or.inr ⟨0, s, rfl, hcf, Or.inl h1⟩
        · exact Or.inr (lift h1)

theorem findInnerLoop_mono (enabled : Bool) (enter : Nat → Option GoError)
    (find : Nat → Nat → Option GoError) (a : Nat) (from_ until_ : Int)
    (slots : List TargetSlot) : ∀ (i : Nat) (st : LoopState) (ev : FindEvent),
    ev ∈ st.events →
    ev ∈ (findInnerLoop enabled enter find a from_ until_ slots i st).events := by
  induction slots with
  | nil => intro i st ev h; exact h
  | cons s rest ih =>
    intro i st ev h
    rw [findInnerLoop]
    generalize hst1 : (if st.maxDuration < wrapInt64 (until_ - from_) then
      { st with maxDuration := wrapInt64 (until_ - from_) } else st) = st1
    have hev1 : st1.events = st.events := by
      rw [← hst1]; split_ifs <;> rfl
    have h1 : ev ∈ st1.events := hev1 ▸ h
    split_ifs
    · exact ih _ _ _ h1
    · cases hent : enter st1.enterCalls with
      | some e => simp only [List.mem_append]; exact Or.inl h1
      | none => exact ih _ _ _ (List.mem_append_left _ h1)
    · exact ih _ _ _ (List.mem_append_left _ h1)

theorem findInnerLoop_complete (enabled : Bool) (enter : Nat → Option GoError)
    (find : Nat → Nat → Option GoError) (hadm : LimiterAdmitsAll enabled enter)
    (a : Nat) (from_ until_ : Int) (slots : List TargetSlot) :
    ∀ (i : Nat) (st : LoopState) (j : Nat) (s : TargetSlot),
    slots.get? j = some s → s.cached = false →
    FindEvent.launched a (i + j) (find a (i + j)) ∈
      (findInnerLoop enabled enter find a from_ until_ slots i st).events := by
  induction slots with
  | nil => intro i st j s h; simp at h
  | cons s0 rest ih =>
    intro i st j s hj hs
    rw [findInnerLoop]
    generalize (if st.maxDuration < wrapInt64 (until_ - from_) then
      { st with maxDuration := wrapInt64 (until_ - from_) } else st) = st1
    have shift : ∀ j, i + 1 + j = i + (j + 1) := fun j => by omega
    cases j with
    | zero =>
      simp only [List.get?_cons_zero, Option.some.injEq] at hj
      subst hj
      rw [if_neg (by simp [hs])]
      by_cases hen : enabled = true
      · rw [if_pos hen]
        have hnone : enter st1.enterCalls = none := by
          rcases hadm with h | h
          · rw [h] at hen; exact absurd hen (by simp)
          · exact h _
        rw [hnone]
        exact findInnerLoop_mono _ _ _ _ _ _ _ _ _ _ (by simp)
      · rw [if_neg hen]
        exact findInnerLoop_mono _ _ _ _ _ _ _ _ _ _ (by simp)
    | succ j =>
      have hj' : rest.get? j = some s := by simpa using hj
      rw [← shift j]
      by_cases hc : s0.cached = true
      · rw [if_pos hc]
        exact ih _ _ _ _ hj' hs
      · rw [if_neg hc]
        by_cases hen : enabled = true
        · rw [if_pos hen]
          have hnone : enter st1.enterCalls = none := by
            rcases hadm with h | h
            · rw [h] at hen; exact absurd hen (by simp)
            · exact h _
          rw [hnone]
          exact ih _ _ _ _ hj' hs
        · rw [if_neg hen]
          exact ih _ _ _ _ hj' hs

theorem findOuterLoop_sound (enabled : Bool) (enter : Nat → Option GoError)
    (find : Nat → Nat → Option GoError) (reqs : List FetchRequest) :
    ∀ (a : Nat) (st : LoopState) (ev : FindEvent),
    ev ∈ (findOuterLoop enabled enter find reqs a st).events →
    ev ∈ st.events ∨ ∃ b r j s, reqs.get? b = some r ∧ r.slots.get? j = some s ∧
      s.cached = false ∧
      (ev = .launched (a + b) j (find (a + b) j) ∨
        ∃ e k, enabled = true ∧ enter k = some e ∧ ev = .enterFailed (a + b) j e) := by
  induction reqs with
  | nil => intro a st ev h; exact Or.inl h
  | cons r rest ih =>
    intro a st ev h
    rw [findOuterLoop] at h
    have shift : ∀ b, a + 1 + b = a + (b + 1) := fun b => by omega
    rcases ih (a + 1) _ ev h with h1 | ⟨b, r', j, s, hb, hj, hs, hcase⟩
    · rcases findInnerLoop_sound enabled enter find a r.From r.Until r.slots 0 st ev h1 with
        h2 | ⟨j, s, hj, hs, hcase⟩
      · exact Or.inl h2
      · rw [Nat.zero_add] at hcase
        exact Or.inr ⟨0, r, j, s, rfl, hj, hs, hcase⟩
    · rw [shift b] at hcase
      exact Or.inr ⟨b + 1, r', j, s, by simpa using hb, hj, hs, hcase⟩

theorem findOuterLoop_mono (enabled : Bool) (enter : Nat → Option GoError)
    (find : Nat → Nat → Option GoError) (reqs : List FetchRequest) :
    ∀ (a : Nat) (st : LoopState) (ev : FindEvent), ev ∈ st.events →
    ev ∈ (findOuterLoop enabled enter find reqs a st).events := by
  induction reqs with
  | nil => intro a st ev h; exact h
  | cons r rest ih =>
    intro a st ev h
    rw [findOuterLoop]
    exact ih _ _ _ (findInnerLoop_mono _ _ _ _ _ _ _ _ _ _ h)

theorem findOuterLoop_complete (enabled : Bool) (enter : Nat → Option GoError)
    (find : Nat → Nat → Option GoError) (hadm : LimiterAdmitsAll enabled enter)
    (reqs : List FetchRequest) :
    ∀ (a : Nat) (st : LoopState) (b : Nat) (r : FetchRequest) (j : Nat) (s : TargetSlot),
    reqs.get? b = some r → r.slots.get? j = some s → s.cached = false →
    FindEvent.launched (a + b) j (find (a + b) j) ∈
      (findOuterLoop enabled enter find reqs a st).events := by
  induction reqs with
  | nil => intro a st b r j s h; simp at h
  | cons r0 rest ih =>
    intro a st b r j s hb hj hs
    rw [findOuterLoop]
    cases b with
    | zero =>
      simp only [List.get?_cons_zero, Option.some.injEq] at hb
      subst hb
      apply findOuterLoop_mono
      have := findInnerLoop_complete enabled enter find hadm a r0.From r0.Until r0.slots 0 st
        j s hj hs
      rw [Nat.zero_add] at this
      exact this
    | succ b =>
      have hb' : rest.get? b = some r := by simpa using hb
      have shift : a + 1 + b = a + (b + 1) := by omega
      rw [← shift]
      exact ih _ _ _ _ _ _ hb' hj hs

/-- Every event of `Find` is a call for a target that was not served from the
cache. -/
theorem Find_events_sound (enabled : Bool) (enter : Nat → Option GoError)
    (find : Nat → Nat → Option GoError) (reqs : List FetchRequest) (sched : List Nat)
    (ev : FindEvent) (h : ev ∈ (Find enabled enter find reqs sched).events) :
    ∃ a i, IsCallFor enabled enter find reqs a i ev := by
  unfold Find at h
  simp only at h
  rcases findOuterLoop_sound enabled enter find reqs 0 _ ev h with
    h1 | ⟨b, r, j, s, hb, hj, hs, hcase⟩
  · simp at h1
  · rw [Nat.zero_add] at hcase
    exact ⟨b, j, r, s, hb, hj, hs, hcase⟩

/-- When the limiter refuses nothing, `Find` starts the finder call of every
target that was not served from the cache. -/
theorem Find_events_complete (enabled : Bool) (enter : Nat → Option GoError)
    (find : Nat → Nat → Option GoError) (reqs : List FetchRequest) (sched : List Nat)
    (hadm : LimiterAdmitsAll enabled enter) (a i : Nat) (r : FetchRequest) (s : TargetSlot)
    (ha : reqs.get? a = some r) (hi : r.slots.get? i = some s) (hs : s.cached = false) :
    FindEvent.launched a i (find a i) ∈ (Find enabled enter find reqs sched).events := by
  unfold Find
  simp only
  have := findOuterLoop_complete enabled enter find hadm reqs 0
    { maxDuration := 0, enterCalls := 0, entered := 0, events := [] } a r i s ha hi hs
  rw [Nat.zero_add] at this
  exact this

/-- C9: `Find` returns a non-nil error if and only if one of the calls it made
for a target that was not served from the cache failed, a limiter `Enter` or a
finder call; every call it makes is for such a target; and when the limiter
refuses nothing, one failing finder call for any such target makes `Find` fail
whatever the other targets do and whatever the completion order. -/
theorem Find_fails_iff_call_failed (enabled : Bool) (enter : Nat → Option GoError)
    (find : Nat → Nat → Option GoError) (reqs : List FetchRequest) (sched : List Nat) :
    ((Find enabled enter find reqs sched).err ≠ none ↔
      ∃ ev ∈ (Find enabled enter find reqs sched).events, ev.error ≠ none) ∧
    (∀ ev ∈ (Find enabled enter find reqs sched).events,
      ∃ a i, IsCallFor enabled enter find reqs a i ev) ∧
    (LimiterAdmitsAll enabled enter →
      ∀ (a i : Nat) (r : FetchRequest) (s : TargetSlot),
        reqs.get? a = some r → r.slots.get? i = some s → s.cached = false →
        find a i ≠ none → (Find enabled enter find reqs sched).err ≠ none) := by
  refine ⟨Find_err_iff_event enabled enter find reqs sched,
    fun ev h => Find_events_sound enabled enter find reqs sched ev h, ?_⟩
  intro hadm a i r s ha hi hs hf
  rw [Find_err_iff_event]
  exact ⟨_, Find_events_complete enabled enter find reqs sched hadm a i r s ha hi hs, hf⟩

/-- C9 at a concrete input: of two targets only the second fails, its goroutine
finishes last, and `Find` fails. -/
theorem Find_fails_iff_call_failed_witness :
    (Find true (fun _ => none) secondFails twoTargets [0, 0, 1, 1]).err ≠ none :=
  (Find_fails_iff_call_failed true (fun _ => none) secondFails twoTargets [0, 0, 1, 1]).2.2
    (Or.inr fun _ => rfl) 0 1 _ _ rfl rfl rfl (by decide)

theorem joinErrors_inOrder (events : List FindEvent) : ∀ (errs : List GoError),
    joinErrors (inOrderSchedule events) events [] errs =
      errs ++ events.filterMap FindEvent.error := by
  induction events with
  | nil => intro errs; simp [inOrderSchedule, joinErrors, drainErrors]
  | cons ev events ih =>
    intro errs
    cases ev with
    | enterFailed a i e =>
      rw [inOrderSchedule, joinErrors, ih]
      simp [FindEvent.error]
    | launched a i o =>
      rw [inOrderSchedule, joinErrors, joinErrors]
      cases o with
      | none =>
        simp only [List.nil_append, List.get?_cons_zero, List.eraseIdx_cons_zero]
        rw [ih]
        simp [FindEvent.error]
      | some e =>
        simp only [List.nil_append, List.get?_cons_zero, List.eraseIdx_cons_zero]
        rw [ih]
        simp [FindEvent.error]

/-- C10 as stated fails: both targets of one request fail, the goroutine of the
second target finishes first, and `Find` returns the error of the second
target, not that of the lowest-index failing target; with the other completion
order it returns the error of the first target. -/
theorem Find_error_follows_completion_order :
    bothFail 0 0 = some "a.* failed" ∧
    (Find false (fun _ => none) bothFail twoTargets [0, 0, 2, 1]).err = some "b.* failed" ∧
    (Find false (fun _ => none) bothFail twoTargets [0, 0, 1, 1]).err = some "a.* failed" ∧
    (Find false (fun _ => none) bothFail twoTargets [0, 0, 2, 1]).err ≠
      (Find false (fun _ => none) bothFail twoTargets [0, 0, 1, 1]).err := by
  decide

/-- C10 (amended): the error `Find` returns is the first one recorded in
`errors`: for every completion order it is the error of one of the failing
calls, and when every finder call finishes before the next target is taken up
it is the error of the first failing call in iteration order (the lowest-index
failing target). -/
theorem Find_error_first_recorded (enabled : Bool) (enter : Nat → Option GoError)
    (find : Nat → Nat → Option GoError) (reqs : List FetchRequest) (sched : List Nat) :
    (∀ e, (Find enabled enter find reqs sched).err = some e →
      ∃ ev ∈ (Find enabled enter find reqs sched).events, ev.error = some e) ∧
    (Find enabled enter find reqs sched).events = (Find enabled enter find reqs []).events ∧
    (Find enabled enter find reqs
        (inOrderSchedule (Find enabled enter find reqs []).events)).err =
      ((Find enabled enter find reqs []).events.filterMap FindEvent.error).head? := by
  refine ⟨?_, rfl, ?_⟩
  · intro e he
    unfold Find at he ⊢
    simp only at he ⊢
    have hmem : e ∈ joinErrors sched (findOuterLoop enabled enter find reqs 0
        { maxDuration := 0, enterCalls := 0, entered := 0, events := [] }).events [] [] :=
      List.mem_of_mem_head? he
    rw [mem_joinErrors] at hmem
    rcases hmem with h | h | h
    · simp at h
    · simp at h
    · exact h
  · unfold Find
    simp only
    rw [joinErrors_inOrder]
    simp

/-! ## Theorems: concurrent callers of `LockEntry` -/

theorem countP_set_get {α : Type} (p : α → Bool) (l : List α) : ∀ (t : Nat) (x y : α),
    l.get? t = some y →
    (l.set t x).countP p + (if p y then 1 else 0) =
      l.countP p + (if p x then 1 else 0) := by
  induction l with
  | nil => intro t x y h; simp at h
  | cons a rest ih =>
    intro t x y h
    cases t with
    | zero =>
      simp only [List.get?_cons_zero, Option.some.injEq] at h
      subst h
      simp only [List.set_cons_zero, List.countP_cons]
      omega
    | succ t =>
      have h' : rest.get? t = some y := by simpa using h
      have := ih t x y h'
      simp only [List.set_cons_succ, List.countP_cons]
      omega

theorem rank_sum_set (l : List LockPc) : ∀ (t : Nat) (x y : LockPc),
    l.get? t = some y →
    ((l.set t x).map LockPc.rank).sum + y.rank = (l.map LockPc.rank).sum + x.rank := by
  induction l with
  | nil => intro t x y h; simp at h
  | cons a rest ih =>
    intro t x y h
    cases t with
    | zero =>
      simp only [List.get?_cons_zero, Option.some.injEq] at h
      subst h
      simp only [List.set_cons_zero, List.map_cons, List.sum_cons]
      omega
    | succ t =>
      have h' : rest.get? t = some y := by simpa using h
      have := ih t x y h'
      simp only [List.set_cons_succ, List.map_cons, List.sum_cons]
      omega

theorem rank_sum_le (l : List LockPc) : (l.map LockPc.rank).sum ≤ 4 * l.length := by
  induction l with
  | nil => simp
  | cons a rest ih =>
    have : a.rank ≤ 4 := by cases a <;> decide
    simp only [List.map_cons, List.sum_cons, List.length_cons]
    omega

theorem countP_pos_of_get {α : Type} (p : α → Bool) (l : List α) (t : Nat) (y : α)
    (h : l.get? t = some y) (hp : p y = true) : 0 < l.countP p :=
  List.countP_pos_iff.2 ⟨y, List.get?_mem h, hp⟩

theorem countP_le_of_imp {α : Type} (p q : α → Bool) (l : List α)
    (h : ∀ x, p x = true → q x = true) : l.countP p ≤ l.countP q :=
  List.countP_mono_left (fun x _ hx => h x hx)

theorem Sys.step_cases (key : String) (s s' : Sys) (t : Nat) (h : s.step key t = some s') :
    ∃ pc pc' c', s.pcs.get? t = some pc ∧ lockEntryStep key s.cache pc = some (c', pc') ∧
      s' = { cache := c', pcs := s.pcs.set t pc' } := by
  unfold Sys.step at h
  cases hpc : s.pcs.get? t with
  | none => rw [hpc] at h; simp at h
  | some pc =>
    rw [hpc] at h
    simp only at h
    cases hst : lockEntryStep key s.cache pc with
    | none => rw [hst] at h; simp at h
    | some r =>
      obtain ⟨c', pc'⟩ := r
      rw [hst] at h
      simp only [Option.some.injEq] at h
      exact ⟨pc, pc', c', rfl, hst, h.symm⟩

theorem RWMutex.Lock_some (rw l : RWMutex) (h : rw.Lock = some l) :
    rw.writer = false ∧ rw.readers = 0 ∧ l = { writer := true, readers := 0 } := by
  unfold RWMutex.Lock at h
  by_cases hc : rw.writer = true ∨ 0 < rw.readers
  · rw [if_pos hc] at h; simp at h
  · rw [if_neg hc] at h
    have hw : rw.writer = false := by
      cases hb : rw.writer with
      | false => rfl
      | true => exact absurd (Or.inl hb) hc
    have hr : rw.readers = 0 := by
      have : ¬ 0 < rw.readers := fun h' => hc (Or.inr h')
      omega
    refine ⟨hw, hr, ?_⟩
    simp only [Option.some.injEq] at h
    rw [← h, hr]

theorem RWMutex.Lock_none (rw : RWMutex) (h : rw.Lock = none) (hr : rw.readers = 0) :
    rw.writer = true := by
  unfold RWMutex.Lock at h
  by_cases hc : rw.writer = true ∨ 0 < rw.readers
  · rcases hc with hc | hc
    · exact hc
    · omega
  · rw [if_neg hc] at h; simp at h

theorem RWMutex.Unlock_some (rw l : RWMutex) (h : rw.Unlock = some l) :
    rw.writer = true ∧ l = { writer := false, readers := rw.readers } := by
  unfold RWMutex.Unlock at h
  by_cases hc : rw.writer = true
  · rw [if_pos hc] at h
    simp only [Option.some.injEq] at h
    exact ⟨hc, h.symm⟩
  · rw [if_neg hc] at h; simp at h

theorem EntryMap.get_insertNew (m : EntryMap) (key : String) (e : CacheEntry)
    (h : m.get key = none) : EntryMap.get (m.insertNew key e) key = some e := by
  induction m with
  | nil => simp [EntryMap.insertNew, EntryMap.get]
  | cons p rest ih =>
    obtain ⟨k, e0⟩ := p
    unfold EntryMap.get at h
    by_cases hk : k = key
    · rw [if_pos hk] at h; simp at h
    · rw [if_neg hk] at h
      show EntryMap.get ((k, e0) :: (rest ++ [(key, e)])) key = some e
      unfold EntryMap.get
      rw [if_neg hk]
      exact ih h

theorem Sys.Inv_init (key : String) (c : Cache) (n : Nat) (hfree : c.lock = RWMutex.free)
    (hun : c.Unreserved key) : (Sys.init c n).Inv key := by
  have hz : ∀ p : LockPc → Bool, p .start = false →
      (List.replicate n LockPc.start).countP p = 0 := by
    intro p hp
    rw [List.countP_eq_zero]
    intro x hx
    rw [List.eq_of_mem_replicate hx, hp]
    simp
  unfold Sys.Inv Sys.init
  simp only
  refine ⟨by rw [hfree]; rfl, by rw [hfree, hz _ rfl]; rfl, ?_⟩
  unfold Cache.Unreserved at hun
  cases hg : c.data.get key with
  | none => exact hz _ rfl
  | some e =>
    rw [hg] at hun
    simp only at hun ⊢
    rw [hun, hz _ rfl]
    exact ⟨rfl, rfl⟩

theorem Sys.Inv_step (key : String) (s s' : Sys) (t : Nat) (hinv : s.Inv key)
    (h : s.step key t = some s') : s'.Inv key := by
  obtain ⟨pc, pc', c', hget, hstep, rfl⟩ := Sys.step_cases key s s' t h
  obtain ⟨ha, hb, hc⟩ := hinv
  have hM := countP_set_get LockPc.inMap s.pcs t pc' pc hget
  have hE := countP_set_get LockPc.inEntry s.pcs t pc' pc hget
  have hP := countP_set_get LockPc.pastLookup s.pcs t pc' pc hget
  unfold Sys.Inv
  simp only
  cases pc with
  | start =>
    unfold lockEntryStep at hstep
    cases hl : s.cache.lock.Lock with
    | none => rw [hl] at hstep; simp at hstep
    | some l =>
      rw [hl] at hstep
      simp only [Option.some.injEq, Prod.mk.injEq] at hstep
      obtain ⟨rfl, rfl⟩ := hstep
      obtain ⟨hw, hr, rfl⟩ := RWMutex.Lock_some _ _ hl
      simp only [LockPc.inMap, LockPc.inEntry, LockPc.pastLookup] at hM hE hP
      rw [hw] at hb
      simp only [Bool.false_eq_true, if_false, if_true, Nat.add_zero] at hM hE hP hb ⊢
      refine ⟨trivial, by omega, ?_⟩
      cases hg : s.cache.data.get key with
      | none => rw [hg] at hc; simp only at hc ⊢; omega
      | some e => rw [hg] at hc; simp only at hc ⊢; exact ⟨hc.1, by omega⟩
  | holdsMap =>
    unfold lockEntryStep at hstep
    cases hg : s.cache.data.get key with
    | some e =>
      rw [hg] at hstep hc
      simp only [Option.some.injEq, Prod.mk.injEq] at hstep
      obtain ⟨rfl, rfl⟩ := hstep
      simp only [LockPc.inMap, LockPc.inEntry, LockPc.pastLookup] at hM hE hP
      simp only [Bool.false_eq_true, if_false, if_true, Nat.add_zero] at hM hE hP ⊢
      refine ⟨ha, by omega, ?_⟩
      rw [hg]
      simp only at hc ⊢
      exact ⟨hc.1, by omega⟩
    | none =>
      rw [hg] at hstep hc
      simp only [Option.some.injEq, Prod.mk.injEq] at hstep
      obtain ⟨rfl, rfl⟩ := hstep
      simp only [LockPc.inMap, LockPc.inEntry, LockPc.pastLookup] at hM hE hP
      simp only [Bool.false_eq_true, if_false, if_true, Nat.add_zero] at hM hE hP hc ⊢
      refine ⟨ha, by omega, ?_⟩
      rw [EntryMap.get_insertNew _ _ _ hg]
      have hle := countP_le_of_imp LockPc.inEntry LockPc.pastLookup s.pcs
        (fun x hx => by cases x <;> simp_all [LockPc.inEntry, LockPc.pastLookup])
      refine ⟨rfl, ?_⟩
      have : (CacheEntry.new).lock.writer = false := rfl
      rw [this]
      simp only [Bool.false_eq_true, if_false]
      omega
  | hasEntry =>
    unfold lockEntryStep at hstep
    cases hg : s.cache.data.get key with
    | none => rw [hg] at hstep; simp at hstep
    | some e =>
      rw [hg] at hstep hc
      simp only at hstep hc
      cases hl : e.lock.Lock with
      | none => rw [hl] at hstep; simp at hstep
      | some el =>
        rw [hl] at hstep
        simp only [Option.some.injEq, Prod.mk.injEq] at hstep
        obtain ⟨rfl, rfl⟩ := hstep
        obtain ⟨hw, hr, rfl⟩ := RWMutex.Lock_some _ _ hl
        simp only [LockPc.inMap, LockPc.inEntry, LockPc.pastLookup] at hM hE hP
        rw [hw] at hc
        simp only [Bool.false_eq_true, if_false, if_true, Nat.add_zero] at hM hE hP hc ⊢
        refine ⟨ha, by omega, ?_⟩
        rw [EntryMap.get_update, if_pos rfl, hg]
        simp only [Option.map_some']
        refine ⟨trivial, ?_⟩
        show _ = 1
        omega
  | holdsBoth =>
    unfold lockEntryStep at hstep
    cases hl : s.cache.lock.Unlock with
    | none => rw [hl] at hstep; simp at hstep
    | some l =>
      rw [hl] at hstep
      simp only [Option.some.injEq, Prod.mk.injEq] at hstep
      obtain ⟨rfl, rfl⟩ := hstep
      obtain ⟨hw, rfl⟩ := RWMutex.Unlock_some _ _ hl
      simp only [LockPc.inMap, LockPc.inEntry, LockPc.pastLookup] at hM hE hP
      rw [hw] at hb
      simp only [Bool.false_eq_true, if_false, if_true, Nat.add_zero] at hM hE hP hb ⊢
      refine ⟨ha, by omega, ?_⟩
      cases hg : s.cache.data.get key with
      | none => rw [hg] at hc; simp only at hc ⊢; omega
      | some e => rw [hg] at hc; simp only at hc ⊢; exact ⟨hc.1, by omega⟩
  | returned =>
    unfold lockEntryStep at hstep
    simp at hstep

theorem Sys.step_length (key : String) (s s' : Sys) (t : Nat) (h : s.step key t = some s') :
    s'.pcs.length = s.pcs.length := by
  obtain ⟨pc, pc', c', -, -, rfl⟩ := Sys.step_cases key s s' t h
  simp

theorem lockEntryStep_rank (key : String) (c c' : Cache) (pc pc' : LockPc)
    (h : lockEntryStep key c pc = some (c', pc')) : pc'.rank = pc.rank + 1 := by
  cases pc with
  | start =>
    unfold lockEntryStep at h
    cases hl : c.lock.Lock with
    | none => rw [hl] at h; simp at h
    | some l =>
      rw [hl] at h
      simp only [Option.some.injEq, Prod.mk.injEq] at h
      rw [← h.2]; rfl
  | holdsMap =>
    unfold lockEntryStep at h
    cases hg : c.data.get key with
    | none =>
      rw [hg] at h
      simp only [Option.some.injEq, Prod.mk.injEq] at h
      rw [← h.2]; rfl
    | some e =>
      rw [hg] at h
      simp only [Option.some.injEq, Prod.mk.injEq] at h
      rw [← h.2]; rfl
  | hasEntry =>
    unfold lockEntryStep at h
    cases hg : c.data.get key with
    | none => rw [hg] at h; simp at h
    | some e =>
      rw [hg] at h
      simp only at h
      cases hl : e.lock.Lock with
      | none => rw [hl] at h; simp at h
      | some el =>
        rw [hl] at h
        simp only [Option.some.injEq, Prod.mk.injEq] at h
        rw [← h.2]; rfl
  | holdsBoth =>
    unfold lockEntryStep at h
    cases hl : c.lock.Unlock with
    | none => rw [hl] at h; simp at h
    | some l =>
      rw [hl] at h
      simp only [Option.some.injEq, Prod.mk.injEq] at h
      rw [← h.2]; rfl
  | returned =>
    unfold lockEntryStep at h
    simp at h

/-- Every step is one more statement executed. -/
theorem Sys.step_progress (key : String) (s s' : Sys) (t : Nat)
    (h : s.step key t = some s') : s'.progress = s.progress + 1 := by
  obtain ⟨pc, pc', c', hget, hstep, rfl⟩ := Sys.step_cases key s s' t h
  have := rank_sum_set s.pcs t pc' pc hget
  have hr := lockEntryStep_rank key _ _ _ _ hstep
  unfold Sys.progress
  simp only
  omega

theorem Sys.run_inv (key : String) (sched : List Nat) : ∀ s : Sys, s.Inv key →
    (Sys.run key s sched).Inv key := by
  induction sched with
  | nil => intro s h; exact h
  | cons t ts ih =>
    intro s h
    rw [Sys.run]
    cases hs : s.step key t with
    | none => exact ih s h
    | some s' => exact ih s' (Sys.Inv_step key s s' t h hs)

theorem Sys.run_length (key : String) (sched : List Nat) : ∀ s : Sys,
    (Sys.run key s sched).pcs.length = s.pcs.length := by
  induction sched with
  | nil => intro s; rfl
  | cons t ts ih =>
    intro s
    rw [Sys.run]
    cases hs : s.step key t with
    | none => exact ih s
    | some s' => simp only; rw [ih s', Sys.step_length key s s' t hs]

/-- At most one goroutine holds the reservation. -/
theorem Sys.Inv_returned_le_one (key : String) (s : Sys) (hinv : s.Inv key) :
    s.pcs.countP LockPc.isReturned ≤ 1 := by
  obtain ⟨-, -, hc⟩ := hinv
  have h1 := countP_le_of_imp LockPc.isReturned LockPc.inEntry s.pcs
    (fun x hx => by cases x <;> simp_all [LockPc.isReturned, LockPc.inEntry])
  have h2 := countP_le_of_imp LockPc.inEntry LockPc.pastLookup s.pcs
    (fun x hx => by cases x <;> simp_all [LockPc.inEntry, LockPc.pastLookup])
  cases hg : s.cache.data.get key with
  | none => rw [hg] at hc; simp only at hc; omega
  | some e =>
    rw [hg] at hc
    simp only at hc
    have := hc.2
    split_ifs at this <;> omega

theorem Sys.step_none_iff (key : String) (s : Sys) (t : Nat) (pc : LockPc)
    (hget : s.pcs.get? t = some pc) :
    s.step key t = none ↔ lockEntryStep key s.cache pc = none := by
  unfold Sys.step
  rw [hget]
  simp only
  cases lockEntryStep key s.cache pc with
  | none => simp
  | some r => simp

/-- When no goroutine can move, one of them holds the reservation. -/
theorem Sys.Terminal_exists_returned (key : String) (s : Sys) (hinv : s.Inv key)
    (hterm : s.Terminal key) (hpos : 0 < s.pcs.length) :
    ∃ t, s.pcs.get? t = some LockPc.returned := by
  obtain ⟨ha, hb, hc⟩ := hinv
  have blocked : ∀ t pc, s.pcs.get? t = some pc → lockEntryStep key s.cache pc = none :=
    fun t pc h => (Sys.step_none_iff key s t pc h).1 (hterm t)
  have noHoldsMap : ∀ t, s.pcs.get? t ≠ some LockPc.holdsMap := by
    intro t h
    have := blocked t _ h
    unfold lockEntryStep at this
    cases hg : s.cache.data.get key <;> rw [hg] at this <;> simp at this
  have noHoldsBoth : ∀ t, s.pcs.get? t ≠ some LockPc.holdsBoth := by
    intro t h
    have hpos := countP_pos_of_get LockPc.inMap s.pcs t _ h rfl
    have hw : s.cache.lock.writer = true := by
      by_contra hw
      rw [if_neg hw] at hb
      omega
    have := blocked t _ h
    unfold lockEntryStep RWMutex.Unlock at this
    rw [if_pos hw] at this
    simp at this
  have fromHasEntry : ∀ t, s.pcs.get? t = some LockPc.hasEntry →
      ∃ t', s.pcs.get? t' = some LockPc.returned := by
    intro t h
    have hpast := countP_pos_of_get LockPc.pastLookup s.pcs t _ h rfl
    have := blocked t _ h
    unfold lockEntryStep at this
    cases hg : s.cache.data.get key with
    | none => rw [hg] at hc; simp only at hc; omega
    | some e =>
      rw [hg] at this hc
      simp only at this hc
      have hl : e.lock.Lock = none := by
        cases hl : e.lock.Lock with
        | none => rfl
        | some el => rw [hl] at this; simp at this
      have hw := RWMutex.Lock_none _ hl hc.1
      have hcount := hc.2
      rw [if_pos hw] at hcount
      obtain ⟨x, hx, hpx⟩ := List.countP_pos_iff.1 (by omega : 0 < s.pcs.countP LockPc.inEntry)
      obtain ⟨t', ht'⟩ := List.get?_of_mem hx
      cases x with
      | holdsBoth => exact absurd ht' (noHoldsBoth t')
      | returned => exact ⟨t', ht'⟩
      | start => simp [LockPc.inEntry] at hpx
      | holdsMap => simp [LockPc.inEntry] at hpx
      | hasEntry => simp [LockPc.inEntry] at hpx
  have fromStart : ∀ t, s.pcs.get? t = some LockPc.start →
      ∃ t', s.pcs.get? t' = some LockPc.returned := by
    intro t h
    have := blocked t _ h
    unfold lockEntryStep at this
    have hl : s.cache.lock.Lock = none := by
      cases hl : s.cache.lock.Lock with
      | none => rfl
      | some l => rw [hl] at this; simp at this
    have hw := RWMutex.Lock_none _ hl ha
    rw [if_pos hw] at hb
    obtain ⟨x, hx, hpx⟩ := List.countP_pos_iff.1 (by omega : 0 < s.pcs.countP LockPc.inMap)
    obtain ⟨t', ht'⟩ := List.get?_of_mem hx
    cases x with
    | holdsMap => exact absurd ht' (noHoldsMap t')
    | hasEntry => exact fromHasEntry t' ht'
    | holdsBoth => exact absurd ht' (noHoldsBoth t')
    | start => simp [LockPc.inMap] at hpx
    | returned => simp [LockPc.inMap] at hpx
  have h0 : s.pcs.get? 0 = some (s.pcs.get ⟨0, hpos⟩) := List.get?_eq_get hpos
  generalize s.pcs.get ⟨0, hpos⟩ = pc0 at h0
  cases pc0 with
  | start => exact fromStart 0 h0
  | holdsMap => exact absurd h0 (noHoldsMap 0)
  | hasEntry => exact fromHasEntry 0 h0
  | holdsBoth => exact absurd h0 (noHoldsBoth 0)
  | returned => exact ⟨0, h0⟩

/-- When no goroutine can move, every goroutine has returned or waits for the
map lock (before `c.Lock()`) or for the entry lock (before `e.Lock()`). -/
theorem Sys.Terminal_others_wait (key : String) (s : Sys) (hinv : s.Inv key)
    (hterm : s.Terminal key) (t : Nat) (pc : LockPc) (hget : s.pcs.get? t = some pc) :
    pc = .returned ∨ pc = .start ∨ pc = .hasEntry := by
  obtain ⟨ha, hb, hc⟩ := hinv
  have hblocked := (Sys.step_none_iff key s t pc hget).1 (hterm t)
  cases pc with
  | start => exact Or.inr (Or.inl rfl)
  | hasEntry => exact Or.inr (Or.inr rfl)
  | returned => exact Or.inl rfl
  | holdsMap =>
    unfold lockEntryStep at hblocked
    cases hg : s.cache.data.get key <;> rw [hg] at hblocked <;> simp at hblocked
  | holdsBoth =>
    have hpos := countP_pos_of_get LockPc.inMap s.pcs t _ hget rfl
    have hw : s.cache.lock.writer = true := by
      by_contra hw
      rw [if_neg hw] at hb
      omega
    unfold lockEntryStep RWMutex.Unlock at hblocked
    rw [if_pos hw] at hblocked
    simp at hblocked

theorem Sys.Terminal_iff (key : String) (s : Sys) :
    s.Terminal key ↔ ∀ t, t < s.pcs.length → s.step key t = none := by
  constructor
  · intro h t _; exact h t
  · intro h t
    by_cases ht : t < s.pcs.length
    · exact h t ht
    · unfold Sys.step
      rw [List.get?_eq_none.2 (by omega)]

/-- A goroutine running alone takes the four steps of `LockEntry` one after the
other and ends with the cache the method `LockEntry` returns. -/
theorem LockEntry_as_steps (c c' : Cache) (key : String)
    (h : c.LockEntry key = .returned () c') :
    Sys.run key (Sys.init c 1) [0, 0, 0, 0] = { cache := c', pcs := [.returned] } := by
  unfold Cache.LockEntry at h
  cases hl : c.lock.Lock with
  | none => rw [hl] at h; simp at h
  | some l1 =>
    rw [hl] at h
    simp only at h
    obtain ⟨hw, hr, rfl⟩ := RWMutex.Lock_some _ _ hl
    cases hg : c.data.get key with
    | some e =>
      rw [hg] at h
      simp only at h
      cases hel : e.lock.Lock with
      | none => rw [hel] at h; simp at h
      | some el =>
        rw [hel] at h
        simp only [RWMutex.Unlock, if_true, Outcome.returned.injEq, true_and] at h
        subst h
        simp [Sys.run, Sys.step, Sys.init, lockEntryStep, hl, hg, hel, RWMutex.Unlock]
    | none =>
      rw [hg] at h
      simp only at h
      have hnew : CacheEntry.new.lock.Lock = some { writer := true, readers := 0 } := rfl
      rw [hnew] at h
      simp only [RWMutex.Unlock, if_true, Outcome.returned.injEq, true_and] at h
      subst h
      have hg2 := EntryMap.get_insertNew c.data key CacheEntry.new hg
      simp [Sys.run, Sys.step, Sys.init, lockEntryStep, hl, hg, hg2, hnew, RWMutex.Unlock]

/-- C8: `n` goroutines call `LockEntry(key)` concurrently on a cache whose map
lock is free and in which `key` is not reserved, and nothing publishes or
releases. Under every interleaving of their statements at most one goroutine
has returned from `LockEntry` (it holds the entry's exclusive lock); the run
cannot go on for ever (every step is one more of at most `4 * n` statements);
and once no goroutine can move, exactly one has returned and every other one
waits for a lock. -/
theorem LockEntry_singleflight (c : Cache) (key : String) (n : Nat) (sched : List Nat)
    (s : Sys) (hfree : c.lock = RWMutex.free) (hun : c.Unreserved key)
    (hs : s = Sys.run key (Sys.init c n) sched) :
    s.pcs.length = n ∧
    s.pcs.countP LockPc.isReturned ≤ 1 ∧
    s.progress ≤ 4 * n ∧
    (∀ t s', s.step key t = some s' → s'.progress = s.progress + 1) ∧
    (s.Terminal key → 0 < n →
      s.pcs.countP LockPc.isReturned = 1 ∧
      ∀ t pc, s.pcs.get? t = some pc → pc = .returned ∨ pc = .start ∨ pc = .hasEntry) := by
  have hinv : s.Inv key := by
    rw [hs]
    exact Sys.run_inv key sched _ (Sys.Inv_init key c n hfree hun)
  have hlen : s.pcs.length = n := by
    rw [hs, Sys.run_length]
    simp [Sys.init]
  refine ⟨hlen, Sys.Inv_returned_le_one key s hinv, ?_,
    fun t s' h => Sys.step_progress key s s' t h, ?_⟩
  · have := rank_sum_le s.pcs
    unfold Sys.progress
    omega
  · intro hterm hpos
    refine ⟨?_, fun t pc h => Sys.Terminal_others_wait key s hinv hterm t pc h⟩
    obtain ⟨t, ht⟩ := Sys.Terminal_exists_returned key s hinv hterm (by omega)
    have h1 := countP_pos_of_get LockPc.isReturned s.pcs t _ ht rfl
    have h2 := Sys.Inv_returned_le_one key s hinv
    omega

/-- C8 at a concrete input: three goroutines on the empty cache under a
round-robin schedule; at the end nobody can move and exactly one goroutine has
returned. -/
theorem LockEntry_singleflight_witness :
    (Sys.run "k" (Sys.init Cache.empty 3) roundRobin3).pcs.countP LockPc.isReturned = 1 :=
  ((LockEntry_singleflight Cache.empty "k" 3 roundRobin3 _ rfl (by decide) rfl).2.2.2.2
    ((Sys.Terminal_iff _ _).2 (by decide)) (by decide)).1

/-! ## Theorems: limiter bookkeeping of `Find` -/

theorem successfulEnters_succ (enter : Nat → Option GoError) (k : Nat) :
    successfulEnters enter (k + 1) =
      successfulEnters enter k + (if (enter k).isNone then 1 else 0) := by
  unfold successfulEnters
  rw [List.range_succ, List.filter_append, List.length_append]
  by_cases h : (enter k).isNone = true
  · simp [h]
  · simp [h]

theorem findInnerLoop_balanced (enabled : Bool) (enter : Nat → Option GoError)
    (find : Nat → Nat → Option GoError) (a : Nat) (from_ until_ : Int)
    (slots : List TargetSlot) : ∀ (i : Nat) (st : LoopState),
    st.Balanced enabled enter →
    (findInnerLoop enabled enter find a from_ until_ slots i st).Balanced enabled enter := by
  induction slots with
  | nil => intro i st h; exact h
  | cons s rest ih =>
    intro i st h
    rw [findInnerLoop]
    generalize hst1 : (if st.maxDuration < wrapInt64 (until_ - from_) then
      { st with maxDuration := wrapInt64 (until_ - from_) } else st) = st1
    have h1 : st1.Balanced enabled enter := by
      rw [← hst1]
      split_ifs
      · exact h
      · exact h
    split_ifs with hc hen
    · exact ih _ _ h1
    · cases hent : enter st1.enterCalls with
      | some e =>
        refine ⟨?_, fun hf => by rw [hf] at hen; exact absurd hen (by simp)⟩
        show st1.entered = successfulEnters enter (st1.enterCalls + 1)
        rw [successfulEnters_succ, hent, h1.1]
        simp
      | none =>
        apply ih
        refine ⟨?_, fun hf => by rw [hf] at hen; exact absurd hen (by simp)⟩
        show st1.entered + 1 = successfulEnters enter (st1.enterCalls + 1)
        rw [successfulEnters_succ, hent, h1.1]
        simp
    · apply ih
      exact h1

theorem findOuterLoop_balanced (enabled : Bool) (enter : Nat → Option GoError)
    (find : Nat → Nat → Option GoError) (reqs : List FetchRequest) :
    ∀ (a : Nat) (st : LoopState), st.Balanced enabled enter →
    (findOuterLoop enabled enter find reqs a st).Balanced enabled enter := by
  induction reqs with
  | nil => intro a st h; exact h
  | cons r rest ih =>
    intro a st h
    rw [findOuterLoop]
    exact ih _ _ (findInnerLoop_balanced _ _ _ _ _ _ _ _ _ h)

/-- C11: on every run of `Find`, whatever the targets, the limiter's answers,
the finder results and the completion order (all targets succeed, an `Enter`
fails, a finder call fails), the number of `Leave` calls the deferred function
makes equals the number of `Enter` calls that returned without error; a
disabled limiter is neither entered nor left. -/
theorem Find_leave_matches_enter (enabled : Bool) (enter : Nat → Option GoError)
    (find : Nat → Nat → Option GoError) (reqs : List FetchRequest) (sched : List Nat) :
    (Find enabled enter find reqs sched).leaveCalls =
        successfulEnters enter (Find enabled enter find reqs sched).enterCalls ∧
      (enabled = false → (Find enabled enter find reqs sched).enterCalls = 0 ∧
        (Find enabled enter find reqs sched).leaveCalls = 0) ∧
      (Find true refuseSecond bothFail twoTargets sched).enterCalls = 2 ∧
      (Find true refuseSecond bothFail twoTargets sched).leaveCalls = 1 := by
  have hb := findOuterLoop_balanced enabled enter find reqs 0
    { maxDuration := 0, enterCalls := 0, entered := 0, events := [] } ⟨rfl, fun _ => rfl⟩
  refine ⟨?_, ?_, rfl, rfl⟩
  · unfold Find
    simp only
    by_cases hen : enabled = true
    · rw [if_pos hen]
      exact hb.1
    · rw [if_neg hen, hb.2 (by simpa using hen)]
      rfl
  · intro hf
    unfold Find
    simp only
    exact ⟨hb.2 hf, by rw [hf]; rfl⟩

/-! ## Theorems: monotone routing -/

/-- What `GetQueryParam` answers on a non-empty sorted list for any duration:
the last tier that is `≤ duration`, or index 0 when every tier is greater. -/
theorem GetQueryParam_cases (a : List QueryParam) (duration : Int)
    (hs : SortedByDuration a) (hne : a ≠ []) :
    ∃ i q, GetQueryParam a duration = .ok i ∧ sliceAt a i = .ok q ∧
      ((q.Duration ≤ duration ∧
          ∀ j p, i < j → sliceAt a j = .ok p → duration < p.Duration) ∨
        (i = 0 ∧ ∀ j p, sliceAt a j = .ok p → duration < p.Duration)) := by
  have hlen : 0 < a.length := List.length_pos.2 hne
  obtain ⟨r, hr, hpost⟩ := binarySearchQueryParamLe_spec a duration hs (a.length + 1) 0
    a.length (le_refl _) (le_refl _) (by omega) (by push_cast; omega)
  obtain ⟨q0, hq0, -⟩ := sliceAt_ok_of_lt a 0 (le_refl _) (by omega)
  have inRange : ∀ j p, sliceAt a j = .ok p → 0 ≤ j ∧ j < a.length := by
    intro j p hp
    have := (sliceAt_ok_iff a j p).1 hp
    have := (List.get?_eq_some.1 this.2).1
    omega
  unfold GetQueryParam
  rw [hr]
  rcases hpost with ⟨hr1, hall⟩ | ⟨hr1, hr2, ⟨q, hq, hqd⟩, hall⟩
  · simp only [hr1, if_true]
    exact ⟨0, q0, rfl, hq0, Or.inr ⟨rfl, fun j p hp =>
      hall j p (inRange j p hp).1 (inRange j p hp).2 hp⟩⟩
  · have hne1 : r ≠ -1 := by omega
    simp only [hne1, if_false]
    exact ⟨r, q, rfl, hq, Or.inl ⟨hqd, fun j p hj hp =>
      hall j p hj (inRange j p hp).2 hp⟩⟩

/-- C14: routing is monotone. On a tier list sorted ascending by `Duration`
whose first tier has `Duration = 0`, for all durations `d1 ≤ d2` (negative ones
included) the tier `GetQueryParam` selects for `d1` has a `Duration` no greater
than the tier it selects for `d2`. -/
theorem routeTier_monotone (a : List QueryParam) (d1 d2 : Int)
    (hs : SortedByDuration a) (hfirst : a.head?.map QueryParam.Duration = some 0)
    (h : d1 ≤ d2) :
    ∃ q1 q2, routeTier a d1 = .ok q1 ∧ routeTier a d2 = .ok q2 ∧
      q1.Duration ≤ q2.Duration := by
  have hne : a ≠ [] := by
    intro hnil
    rw [hnil] at hfirst
    simp at hfirst
  obtain ⟨i1, q1, hg1, hq1, hc1⟩ := GetQueryParam_cases a d1 hs hne
  obtain ⟨i2, q2, hg2, hq2, hc2⟩ := GetQueryParam_cases a d2 hs hne
  have hi2 : 0 ≤ i2 := ((sliceAt_ok_iff a i2 q2).1 hq2).1
  refine ⟨q1, q2, by unfold routeTier; rw [hg1]; exact hq1,
    by unfold routeTier; rw [hg2]; exact hq2, ?_⟩
  rcases hc1 with ⟨hle1, -⟩ | ⟨hz1, -⟩
  · rcases hc2 with ⟨-, hall2⟩ | ⟨-, hall2⟩
    · by_cases hlt : i2 < i1
      · have := hall2 i1 q1 hlt hq1
        omega
      · exact sliceAt_sorted a hs i1 i2 q1 q2 hq1 hq2 (by omega)
    · have := hall2 i1 q1 hq1
      omega
  · exact sliceAt_sorted a hs i1 i2 q1 q2 hq1 hq2 (by omega)

/-- C14 at a concrete input: the scenario tiers, a 59-minute and a 3-hour
window. -/
theorem routeTier_monotone_witness :
    ∃ q1 q2, routeTier exampleTiers (59 * minute) = .ok q1 ∧
      routeTier exampleTiers (3 * hour) = .ok q2 ∧ q1.Duration ≤ q2.Duration :=
  routeTier_monotone exampleTiers (59 * minute) (3 * hour) (by decide) (by decide)
    (by decide)

/-! ## Theorems: `CreateCache` -/

theorem decValue_Itoa (x : Int) (h : 0 ≤ x) : (decValue (Itoa x).data : Int) = x := by
  unfold Itoa
  simp only [if_neg (not_lt.2 h)]
  rw [decValue_utoa]
  exact Int.natAbs_of_nonneg h

/-- C16: for every cache configuration with `0 ≤ DefaultTimeoutSec <
ShortTimeoutSec`, after `CreateCache` the field `DefaultTimeoutSec` holds the
short timeout as it was configured, `DefaultTimeoutStr` is its decimal text
(the digits of that number), and the short timeout itself is reset to 0. -/
theorem CreateCache_default_takes_short (cacheName : String) (c : CacheConfig)
    (h0 : 0 ≤ c.DefaultTimeoutSec) (h1 : c.DefaultTimeoutSec < c.ShortTimeoutSec) :
    (CreateCache cacheName c).1.DefaultTimeoutSec = c.ShortTimeoutSec ∧
    (CreateCache cacheName c).1.DefaultTimeoutStr = Itoa c.ShortTimeoutSec ∧
    (decValue (CreateCache cacheName c).1.DefaultTimeoutStr.data : Int) = c.ShortTimeoutSec ∧
    (CreateCache cacheName c).1.ShortTimeoutSec = 0 ∧
    (CreateCache cacheName c).1.ShortTimeoutStr = "0" := by
  have hguard : ¬ (c.DefaultTimeoutSec ≤ 0 ∧ c.ShortTimeoutSec ≤ 0 ∧ c.FindTimeoutSec ≤ 0) := by
    rintro ⟨-, h, -⟩
    omega
  have hval : (CreateCache cacheName c).1.DefaultTimeoutSec = c.ShortTimeoutSec ∧
      (CreateCache cacheName c).1.DefaultTimeoutStr = Itoa c.ShortTimeoutSec ∧
      (CreateCache cacheName c).1.ShortTimeoutSec = 0 ∧
      (CreateCache cacheName c).1.ShortTimeoutStr = Itoa 0 := by
    unfold CreateCache
    rw [if_neg hguard]
    simp only [if_pos h1, true_or, or_true, if_true, lt_self_iff_false, if_false]
    have hpos : ¬ (c.ShortTimeoutSec < 0) := by omega
    simp only [hpos, if_false]
    split_ifs <;> exact ⟨rfl, rfl, rfl, rfl⟩
  obtain ⟨e1, e2, e3, e4⟩ := hval
  refine ⟨e1, e2, ?_, e3, ?_⟩
  · rw [e2]
    exact decValue_Itoa _ (by omega)
  · rw [e4]
    rfl

/-- C16 at a concrete input: default 60 s, short 300 s. -/
theorem CreateCache_default_takes_short_witness :
    (CreateCache "index" swappedTtlConfig).1.DefaultTimeoutSec = 300 ∧
    (CreateCache "index" swappedTtlConfig).1.DefaultTimeoutStr = "300" :=
  ⟨(CreateCache_default_takes_short "index" swappedTtlConfig (by decide) (by decide)).1,
   (CreateCache_default_takes_short "index" swappedTtlConfig (by decide) (by decide)).2.1⟩

/-! ## Theorems: counters and abandoned reservations -/

theorem addUint64_ge (x : Nat) (h : x < maxUint64) : x ≤ addUint64 x := by
  unfold addUint64
  unfold maxUint64 at h
  omega

theorem LockEntry_counters (c : Cache) (key : String) :
    (c.LockEntry key).cache.hits = c.hits ∧ (c.LockEntry key).cache.miss = c.miss ∧
      (c.LockEntry key).cache.count = c.count := by
  unfold Cache.LockEntry
  cases c.lock.Lock with
  | none => exact ⟨rfl, rfl, rfl⟩
  | some l1 =>
    simp only
    cases hg : EntryMap.get c.data key with
    | none =>
      simp only
      cases CacheEntry.new.lock.Lock with
      | none => exact ⟨rfl, rfl, rfl⟩
      | some el =>
        simp only
        cases RWMutex.Unlock l1 <;> exact ⟨rfl, rfl, rfl⟩
    | some e =>
      simp only
      cases e.lock.Lock with
      | none => exact ⟨rfl, rfl, rfl⟩
      | some el =>
        simp only
        cases RWMutex.Unlock l1 <;> exact ⟨rfl, rfl, rfl⟩

theorem DeleteEntry_counters (c : Cache) (key : String) :
    (c.DeleteEntry key).cache.hits = c.hits ∧ (c.DeleteEntry key).cache.miss = c.miss ∧
      (c.DeleteEntry key).cache.count = c.count := by
  unfold Cache.DeleteEntry
  cases c.lock.Lock with
  | none => exact ⟨rfl, rfl, rfl⟩
  | some l1 =>
    simp only
    cases RWMutex.Unlock l1 <;> exact ⟨rfl, rfl, rfl⟩

theorem PutEntry_counters (c : Cache) (now : Int) (key : String) (r : Result)
    (expire : Int) :
    (c.PutEntry now key r expire).cache.hits = c.hits ∧
      (c.PutEntry now key r expire).cache.miss = c.miss ∧
      ((c.PutEntry now key r expire).cache.count = c.count ∨
        (c.PutEntry now key r expire).cache.count = addUint64 c.count) := by
  unfold Cache.PutEntry
  cases c.lock.RLock with
  | none => exact ⟨rfl, rfl, Or.inl rfl⟩
  | some l1 =>
    simp only
    cases hg : EntryMap.get c.data key with
    | none =>
      simp only
      cases RWMutex.Unlock l1 <;> exact ⟨rfl, rfl, Or.inl rfl⟩
    | some e =>
      simp only
      cases e.lock.Unlock with
      | none => exact ⟨rfl, rfl, Or.inr rfl⟩
      | some el =>
        simp only
        cases RWMutex.Unlock l1 <;> exact ⟨rfl, rfl, Or.inr rfl⟩

theorem GetEntry_counters (c : Cache) (key : String) :
    ((c.GetEntry key).cache.hits = c.hits ∨ (c.GetEntry key).cache.hits = addUint64 c.hits) ∧
      ((c.GetEntry key).cache.miss = c.miss ∨
        (c.GetEntry key).cache.miss = addUint64 c.miss) ∧
      (c.GetEntry key).cache.count = c.count := by
  unfold Cache.GetEntry
  cases c.lock.RLock with
  | none => exact ⟨Or.inl rfl, Or.inl rfl, rfl⟩
  | some l1 =>
    simp only
    cases hg : EntryMap.get c.data key with
    | none =>
      simp only
      cases RWMutex.Unlock l1 <;> exact ⟨Or.inl rfl, Or.inr rfl, rfl⟩
    | some e =>
      simp only
      cases e.Result with
      | blocked e1 => exact ⟨Or.inl rfl, Or.inl rfl, rfl⟩
      | fatal e1 => exact ⟨Or.inl rfl, Or.inl rfl, rfl⟩
      | returned result done e1 =>
        simp only
        cases done with
        | true =>
          simp only [if_true]
          cases RWMutex.Unlock l1 <;> exact ⟨Or.inr rfl, Or.inl rfl, rfl⟩
        | false =>
          simp only [Bool.false_eq_true, if_false]
          cases RWMutex.Unlock l1 <;> exact ⟨Or.inl rfl, Or.inr rfl, rfl⟩

theorem ExpireEntries_counters (c : Cache) (now : Int) :
    (c.ExpireEntries now).cache.hits = c.hits ∧ (c.ExpireEntries now).cache.miss = c.miss ∧
      ((c.ExpireEntries now).cache.count = c.count ∨
        (c.ExpireEntries now).cache.count = (c.ExpireEntries now).cache.data.length) := by
  unfold Cache.ExpireEntries
  cases c.lock.Lock with
  | none => exact ⟨rfl, rfl, Or.inl rfl⟩
  | some l1 =>
    simp only
    cases RWMutex.Unlock l1 <;> exact ⟨rfl, rfl, Or.inr rfl⟩

/-- C19 as stated fails: a sweep at second 105 over a cache with `count = 2`
removes the entry that expired at second 103 and stores `count = 1`. -/
theorem ExpireEntries_lowers_count :
    publishedCache.count = 2 ∧
    (publishedCache.ExpireEntries 105).cache.count = 1 ∧
    ¬ publishedCache.CountersLe (publishedCache.ExpireEntries 105).cache := by
  decide

/-- C19 (amended): as long as no counter is at the largest `uint64`,
`LockEntry`, `PutEntry`, `GetEntry` and `DeleteEntry` leave each of `hits`,
`miss` and `count` at least as large as before, however the call ends;
`ExpireEntries` leaves `hits` and `miss` as they are and, when it runs, sets
`count` to the number of entries left in the map, which may be lower than
before. -/
theorem cache_counters_monotone (c : Cache) (now nowUnix : Int) (key : String)
    (r : Result) (expire : Int) (hmax : c.BelowMax) :
    c.CountersLe (c.LockEntry key).cache ∧
    c.CountersLe (c.PutEntry now key r expire).cache ∧
    c.CountersLe (c.GetEntry key).cache ∧
    c.CountersLe (c.DeleteEntry key).cache ∧
    (c.ExpireEntries nowUnix).cache.hits = c.hits ∧
    (c.ExpireEntries nowUnix).cache.miss = c.miss ∧
    ((c.ExpireEntries nowUnix).cache.count = c.count ∨
      (c.ExpireEntries nowUnix).cache.count = (c.ExpireEntries nowUnix).cache.data.length) := by
  obtain ⟨hh, hm, hc⟩ := hmax
  have gh := addUint64_ge c.hits hh
  have gm := addUint64_ge c.miss hm
  have gc := addUint64_ge c.count hc
  obtain ⟨l1, l2, l3⟩ := LockEntry_counters c key
  obtain ⟨p1, p2, p3⟩ := PutEntry_counters c now key r expire
  obtain ⟨g1, g2, g3⟩ := GetEntry_counters c key
  obtain ⟨d1, d2, d3⟩ := DeleteEntry_counters c key
  obtain ⟨e1, e2, e3⟩ := ExpireEntries_counters c nowUnix
  unfold Cache.CountersLe
  refine ⟨⟨by omega, by omega, by omega⟩, ⟨by omega, by omega, ?_⟩,
    ⟨?_, ?_, by omega⟩, ⟨by omega, by omega, by omega⟩, e1, e2, e3⟩
  · rcases p3 with h | h <;> omega
  · rcases g1 with h | h <;> omega
  · rcases g2 with h | h <;> omega

/-- C19 (amended) at a concrete input: the operations on the cache with `"k"`
reserved. -/
theorem cache_counters_monotone_witness :
    reservedCache.CountersLe (reservedCache.PutEntry 100000000000 "k" exampleResult
      10000000000).cache :=
  (cache_counters_monotone reservedCache 100000000000 100 "k" exampleResult 10000000000
    (by decide)).2.1

/-- What `PutEntry` does for a key that is not in the map, on a cache whose map
lock is free: nothing is stored and no counter moves; the call ends in the
fatal error of the `Unlock` on the read-locked map lock. -/
theorem PutEntry_absent (c : Cache) (now : Int) (key : String) (r : Result)
    (expire : Int) (hfree : c.lock = RWMutex.free) (hget : c.data.get key = none) :
    c.PutEntry now key r expire = .fatal { c with lock := { writer := false, readers := 1 } } := by
  unfold Cache.PutEntry
  rw [hfree]
  simp only [RWMutex.RLock, RWMutex.free, Bool.false_eq_true, if_false]
  rw [hget]
  simp only [RWMutex.Unlock, Bool.false_eq_true, if_false]

theorem EntryMap.get_delete_self (m : EntryMap) (key : String) :
    EntryMap.get (EntryMap.delete m key) key = none := by
  induction m with
  | nil => rfl
  | cons q rest ih =>
    obtain ⟨k, e⟩ := q
    unfold EntryMap.delete at ih ⊢
    by_cases hk : k = key
    · simp only [List.filter_cons, hk, ne_eq, not_true_eq_false, decide_False,
        Bool.false_eq_true, if_false]
      exact ih
    · simp only [List.filter_cons, ne_eq, hk, not_false_eq_true, decide_True, if_true,
        EntryMap.get, if_false]
      exact ih

/-- What `DeleteEntry` does on a cache whose map lock is free: it returns with
the key removed and the lock free again. -/
theorem DeleteEntry_free (c : Cache) (key : String) (hfree : c.lock = RWMutex.free) :
    c.DeleteEntry key = .returned () { c with data := c.data.delete key } := by
  obtain ⟨lock, data, hits, miss, count⟩ := c
  simp only at hfree
  subst hfree
  rfl

/-- C18: after `DeleteEntry(k)` has removed the reservation of `k` (on any
cache whose map lock is free, so that the call returns), `k` is not in the map
and a later `PutEntry(k, r, ttl)` does not succeed and does not return
silently: it stores nothing, moves no counter, and ends in the fatal run-time
error `sync: Unlock of unlocked RWMutex`, raised by `c.Unlock()` on the map
lock it holds only for reading. -/
theorem PutEntry_after_DeleteEntry_fatal (c : Cache) (now : Int) (key : String)
    (r : Result) (expire : Int) (hfree : c.lock = RWMutex.free) :
    c.DeleteEntry key = .returned () { c with data := c.data.delete key } ∧
    EntryMap.get (c.data.delete key) key = none ∧
    Cache.PutEntry { c with data := c.data.delete key } now key r expire =
      .fatal { c with data := c.data.delete key,
                      lock := { writer := false, readers := 1 } } ∧
    (Cache.PutEntry { c with data := c.data.delete key } now key r expire).isReturned =
      false := by
  have hput := PutEntry_absent { c with data := c.data.delete key } now key r expire hfree
    (EntryMap.get_delete_self c.data key)
  refine ⟨DeleteEntry_free c key hfree, EntryMap.get_delete_self c.data key, hput, ?_⟩
  rw [hput]
  rfl

/-- C18 at a concrete input: the reservation of `"k"` made by `LockEntry` on the
empty cache is abandoned, then published. -/
theorem PutEntry_after_DeleteEntry_fatal_witness :
    reservedCache.DeleteEntry "k" = .returned () abandonedCache ∧
    abandonedCache.PutEntry 100000000000 "k" exampleResult 10000000000 =
      .fatal { abandonedCache with lock := { writer := false, readers := 1 } } :=
  ⟨(PutEntry_after_DeleteEntry_fatal reservedCache 100000000000 "k" exampleResult
      10000000000 rfl).1,
   (PutEntry_after_DeleteEntry_fatal reservedCache 100000000000 "k" exampleResult
      10000000000 rfl).2.2.1⟩

/-! ## Theorems: `Unmarshal` -/

theorem normalizeQueryParam_ok (urlValid : String → Bool) (chURL : String)
    (chDataTimeout : Int) (q q' : QueryParam)
    (h : normalizeQueryParam urlValid chURL chDataTimeout q = .ok q') :
    q'.Duration = q.Duration ∧ q.Duration ≠ 0 ∧ q'.MaxQueries = q.MaxQueries ∧
      q'.ConcurrentQueries =
        (if q.ConcurrentQueries > q.MaxQueries ∧ q.MaxQueries > 0 then 0
          else q.ConcurrentQueries) ∧
      q'.AdaptiveQueries = q.AdaptiveQueries := by
  unfold normalizeQueryParam at h
  simp only at h
  split_ifs at h <;> simp only [Except.ok.injEq, reduceCtorEq] at h <;> subst h <;>
    simp_all <;> (try (split_ifs <;> first | rfl | omega))

theorem normalizeQueryParams_ok (urlValid : String → Bool) (chURL : String)
    (chDataTimeout : Int) : ∀ (qs tiers : List QueryParam),
    normalizeQueryParams urlValid chURL chDataTimeout qs = .ok tiers →
    ∀ q' ∈ tiers, ∃ q ∈ qs, normalizeQueryParam urlValid chURL chDataTimeout q = .ok q' := by
  intro qs
  induction qs with
  | nil =>
    intro tiers h q' hq'
    simp only [normalizeQueryParams, Except.ok.injEq] at h
    rw [← h] at hq'
    simp at hq'
  | cons q rest ih =>
    intro tiers h q' hq'
    rw [normalizeQueryParams] at h
    cases hq : normalizeQueryParam urlValid chURL chDataTimeout q with
    | error e => rw [hq] at h; simp at h
    | ok q1 =>
      rw [hq] at h
      simp only at h
      cases hr : normalizeQueryParams urlValid chURL chDataTimeout rest with
      | error e => rw [hr] at h; simp at h
      | ok rest' =>
        rw [hr] at h
        simp only [Except.ok.injEq] at h
        rw [← h] at hq'
        rcases List.mem_cons.1 hq' with h1 | h1
        · exact ⟨q, List.mem_cons_self _ _, by rw [h1]; exact hq⟩
        · obtain ⟨q0, hq0, hn⟩ := ih rest' hr q' h1
          exact ⟨q0, List.mem_cons_of_mem _ hq0, hn⟩

theorem orderedInsert_least (a : QueryParam) (l : List QueryParam)
    (h : ∀ b ∈ l, durationLe a b) : List.orderedInsert durationLe a l = a :: l := by
  cases l with
  | nil => rfl
  | cons b rest =>
    rw [List.orderedInsert, if_pos (h b (List.mem_cons_self _ _))]

theorem insertionSort_sortedByDuration (l : List QueryParam) :
    SortedByDuration (List.insertionSort durationLe l) :=
  List.sorted_insertionSort durationLe l

theorem coerceRender_fields (ch : ClickHouse) :
    (coerceRender ch).URL = ch.URL ∧ (coerceRender ch).DataTimeout = ch.DataTimeout ∧
      (coerceRender ch).QueryParams = ch.QueryParams ∧
      (coerceRender ch).RenderMaxQueries = ch.RenderMaxQueries ∧
      (coerceRender ch).RenderAdaptiveQueries = ch.RenderAdaptiveQueries ∧
      (coerceRender ch).RenderConcurrentQueries =
        (if ch.RenderConcurrentQueries > ch.RenderMaxQueries ∧ ch.RenderMaxQueries > 0 then 0
          else ch.RenderConcurrentQueries) ∧
      (coerceRender ch).FindMaxQueries = ch.FindMaxQueries ∧
      (coerceRender ch).FindConcurrentQueries = ch.FindConcurrentQueries ∧
      (coerceRender ch).TagsMaxQueries = ch.TagsMaxQueries ∧
      (coerceRender ch).TagsConcurrentQueries = ch.TagsConcurrentQueries ∧
      (coerceRender ch).UserLimits = ch.UserLimits := by
  unfold coerceRender
  split_ifs <;> simp

/-- What a successful `Unmarshal` leaves in the `clickHouse` section. -/
theorem Unmarshal_ok (urlValid : String → Bool) (env : EnvChecks) (cfg cfg' : Config)
    (h : Unmarshal urlValid env cfg = .ok cfg') :
    ∃ tiers, normalizeQueryParams urlValid cfg.clickHouse.URL cfg.clickHouse.DataTimeout
        cfg.clickHouse.QueryParams = .ok tiers ∧
      cfg'.clickHouse = coerceTags (coerceFind
        { coerceRender cfg.clickHouse with
          QueryParams := List.insertionSort durationLe
            (rootTier (coerceRender cfg.clickHouse) :: tiers) }) := by
  obtain ⟨hu, hd, hq, -⟩ := coerceRender_fields cfg.clickHouse
  unfold Unmarshal at h
  simp only at h
  by_cases h1 : ¬ urlValid (coerceRender cfg.clickHouse).URL = true
  · rw [if_pos h1] at h; simp at h
  rw [if_neg h1] at h
  by_cases h2 : ¬ env.tlsOk = true
  · rw [if_pos h2] at h; simp at h
  rw [if_neg h2] at h
  cases hn : normalizeQueryParams urlValid (coerceRender cfg.clickHouse).URL
      (coerceRender cfg.clickHouse).DataTimeout (coerceRender cfg.clickHouse).QueryParams with
  | error e => rw [hn] at h; simp at h
  | ok tiers =>
    rw [hn] at h
    simp only at h
    by_cases h3 : ¬ env.midOk = true
    · rw [if_pos h3] at h; simp at h
    rw [if_neg h3] at h
    rw [hu, hd, hq] at hn
    refine ⟨tiers, hn, ?_⟩
    cases hc : CreateCache "index" cfg.common.FindCacheConfig with
    | mk cc res =>
      rw [hc] at h
      cases res with
      | error e => simp at h
      | ok created =>
        simp only at h
        by_cases h4 : ¬ env.lateOk = true
        · rw [if_pos h4] at h; simp at h
        rw [if_neg h4] at h
        simp only [Except.ok.injEq] at h
        rw [← h]

theorem normalizeQueryParams_all_ok (urlValid : String → Bool) (chURL : String)
    (chDataTimeout : Int) : ∀ (qs tiers : List QueryParam),
    normalizeQueryParams urlValid chURL chDataTimeout qs = .ok tiers →
    ∀ q ∈ qs, ∃ q' ∈ tiers, normalizeQueryParam urlValid chURL chDataTimeout q = .ok q' := by
  intro qs
  induction qs with
  | nil => intro tiers _ q hq; simp at hq
  | cons q0 rest ih =>
    intro tiers h q hq
    rw [normalizeQueryParams] at h
    cases hq0 : normalizeQueryParam urlValid chURL chDataTimeout q0 with
    | error e => rw [hq0] at h; simp at h
    | ok q1 =>
      rw [hq0] at h
      simp only at h
      cases hr : normalizeQueryParams urlValid chURL chDataTimeout rest with
      | error e => rw [hr] at h; simp at h
      | ok rest' =>
        rw [hr] at h
        simp only [Except.ok.injEq] at h
        rw [← h]
        rcases List.mem_cons.1 hq with h1 | h1
        · exact ⟨q1, List.mem_cons_self _ _, by rw [h1]; exact hq0⟩
        · obtain ⟨q', hq', hn⟩ := ih rest' hr q h1
          exact ⟨q', List.mem_cons_of_mem _ hq', hn⟩

theorem coerceFind_fields (ch : ClickHouse) :
    (coerceFind ch).QueryParams = ch.QueryParams ∧
      (coerceFind ch).RenderMaxQueries = ch.RenderMaxQueries ∧
      (coerceFind ch).RenderConcurrentQueries = ch.RenderConcurrentQueries ∧
      (coerceFind ch).FindMaxQueries = ch.FindMaxQueries ∧
      (coerceFind ch).FindConcurrentQueries =
        (if ch.FindConcurrentQueries > ch.FindMaxQueries ∧ ch.FindMaxQueries > 0 then 0
          else ch.FindConcurrentQueries) ∧
      (coerceFind ch).TagsMaxQueries = ch.TagsMaxQueries ∧
      (coerceFind ch).TagsConcurrentQueries = ch.TagsConcurrentQueries := by
  unfold coerceFind
  split_ifs <;> simp

theorem coerceTags_fields (ch : ClickHouse) :
    (coerceTags ch).QueryParams = ch.QueryParams ∧
      (coerceTags ch).RenderMaxQueries = ch.RenderMaxQueries ∧
      (coerceTags ch).RenderConcurrentQueries = ch.RenderConcurrentQueries ∧
      (coerceTags ch).FindMaxQueries = ch.FindMaxQueries ∧
      (coerceTags ch).FindConcurrentQueries = ch.FindConcurrentQueries ∧
      (coerceTags ch).TagsMaxQueries = ch.TagsMaxQueries ∧
      (coerceTags ch).TagsConcurrentQueries =
        (if ch.TagsConcurrentQueries > ch.TagsMaxQueries ∧ ch.TagsMaxQueries > 0 then 0
          else ch.TagsConcurrentQueries) := by
  unfold coerceTags
  split_ifs <;> simp

/-- The tier list a successful `Unmarshal` leaves: the sorted list of the root
tier and the rewritten configured tiers. -/
theorem Unmarshal_tiers (urlValid : String → Bool) (env : EnvChecks) (cfg cfg' : Config)
    (h : Unmarshal urlValid env cfg = .ok cfg') :
    ∃ tiers, normalizeQueryParams urlValid cfg.clickHouse.URL cfg.clickHouse.DataTimeout
        cfg.clickHouse.QueryParams = .ok tiers ∧
      cfg'.clickHouse.QueryParams =
        List.insertionSort durationLe (rootTier (coerceRender cfg.clickHouse) :: tiers) := by
  obtain ⟨tiers, hn, hch⟩ := Unmarshal_ok urlValid env cfg cfg' h
  refine ⟨tiers, hn, ?_⟩
  rw [hch, (coerceTags_fields _).1, (coerceFind_fields _).1]

/-- C13 as stated fails: a configured tier with the negative duration `-1h`
passes the validation (only `Duration = 0` is refused) and is sorted in front
of the root tier. -/
theorem Unmarshal_negative_tier_first :
    (Unmarshal exampleUrlValid envAllOk (exampleConfig 0 0 [tierOf (-hour)])).toOption.map
        (fun c => c.clickHouse.QueryParams.map QueryParam.Duration) = some [-hour, 0] ∧
    (Unmarshal exampleUrlValid envAllOk (exampleConfig 0 0 [tierOf (-hour)])).toOption.map
        (fun c => c.clickHouse.QueryParams.head?.map QueryParam.Duration) ≠ some (some 0) := by
  decide

/-- C13 (amended): whenever `Unmarshal` succeeds, `ClickHouse.QueryParams` is
sorted ascending by `Duration` and contains the implicit root tier, whose
`Duration` is 0; no configured tier has `Duration = 0`; and the root tier is
the first element whenever no configured tier has a negative `Duration`. -/
theorem Unmarshal_tiers_sorted (urlValid : String → Bool) (env : EnvChecks)
    (cfg cfg' : Config) (h : Unmarshal urlValid env cfg = .ok cfg') :
    SortedByDuration cfg'.clickHouse.QueryParams ∧
    rootTier (coerceRender cfg.clickHouse) ∈ cfg'.clickHouse.QueryParams ∧
    (rootTier (coerceRender cfg.clickHouse)).Duration = 0 ∧
    (∀ q ∈ cfg.clickHouse.QueryParams, q.Duration ≠ 0) ∧
    ((∀ q ∈ cfg.clickHouse.QueryParams, 0 ≤ q.Duration) →
      cfg'.clickHouse.QueryParams.head? = some (rootTier (coerceRender cfg.clickHouse))) := by
  obtain ⟨tiers, hn, hq⟩ := Unmarshal_tiers urlValid env cfg cfg' h
  rw [hq]
  refine ⟨insertionSort_sortedByDuration _, ?_, rfl, ?_, ?_⟩
  · exact (List.perm_insertionSort durationLe _).mem_iff.2 (List.mem_cons_self _ _)
  · intro q hqm
    obtain ⟨q', -, hq'⟩ := normalizeQueryParams_all_ok _ _ _ _ _ hn q hqm
    exact (normalizeQueryParam_ok _ _ _ _ _ hq').2.1
  · intro hpos
    have hleast : ∀ b ∈ List.insertionSort durationLe tiers,
        durationLe (rootTier (coerceRender cfg.clickHouse)) b := by
      intro b hb
      have hb' : b ∈ tiers := (List.perm_insertionSort durationLe _).mem_iff.1 hb
      obtain ⟨q, hqm, hq'⟩ := normalizeQueryParams_ok _ _ _ _ _ hn b hb'
      have hd := (normalizeQueryParam_ok _ _ _ _ _ hq').1
      have := hpos q hqm
      show (0 : Int) ≤ b.Duration
      omega
    show (List.orderedInsert durationLe _ (List.insertionSort durationLe tiers)).head? = _
    rw [orderedInsert_least _ _ hleast]
    rfl

/-- C13 (amended) at a concrete input: the tiers `24h` and `1h` are configured
in this order; `Unmarshal` succeeds and the result is sorted with the root
tier first. -/
theorem Unmarshal_tiers_sorted_witness :
    Unmarshal exampleUrlValid envAllOk (exampleConfig 0 0 [tierOf (24 * hour), tierOf hour]) =
      .ok (exampleConfig 0 0
        [rootTier (exampleConfig 0 0 []).clickHouse,
         { tierOf hour with URL := "http://localhost:8123", DataTimeout := 60 * timeSecond },
         { tierOf (24 * hour) with URL := "http://localhost:8123",
                                   DataTimeout := 60 * timeSecond }]) ∧
    (exampleConfig 0 0
        [rootTier (exampleConfig 0 0 []).clickHouse,
         { tierOf hour with URL := "http://localhost:8123", DataTimeout := 60 * timeSecond },
         { tierOf (24 * hour) with URL := "http://localhost:8123",
                                   DataTimeout := 60 * timeSecond }]).clickHouse.QueryParams.head? =
      some (rootTier (coerceRender
        (exampleConfig 0 0 [tierOf (24 * hour), tierOf hour]).clickHouse)) :=
  ⟨rfl, (Unmarshal_tiers_sorted exampleUrlValid envAllOk
    (exampleConfig 0 0 [tierOf (24 * hour), tierOf hour])
    (exampleConfig 0 0
        [rootTier (exampleConfig 0 0 []).clickHouse,
         { tierOf hour with URL := "http://localhost:8123", DataTimeout := 60 * timeSecond },
         { tierOf (24 * hour) with URL := "http://localhost:8123",
                                   DataTimeout := 60 * timeSecond }]) rfl).2.2.2.2 (by decide)⟩

/-- C15 as stated fails: with `render-max-queries = 0` and
`render-concurrent-queries = 5` the normalised configuration keeps
`RenderConcurrentQueries = 5`, and so does the root tier. -/
theorem Unmarshal_keeps_concurrent_without_max :
    (Unmarshal exampleUrlValid envAllOk (exampleConfig 0 5 [])).toOption.map
        (fun c => c.clickHouse.RenderConcurrentQueries) = some 5 ∧
    (Unmarshal exampleUrlValid envAllOk (exampleConfig 0 5 [])).toOption.map
        (fun c => c.clickHouse.QueryParams.map QueryParam.ConcurrentQueries) = some [5] := by
  decide

/-- C15 (amended): after a successful `Unmarshal`, for the render root, for
find, for tags and for every configured query-params tier the normalised
`concurrent-queries` is 0 when `max-queries > 0` and `concurrent-queries >
max-queries`, and is the configured value otherwise, in particular whenever
`max-queries = 0`; `max-queries` is never changed, and the root tier carries
the normalised render values. -/
theorem Unmarshal_coerces_concurrent (urlValid : String → Bool) (env : EnvChecks)
    (cfg cfg' : Config) (h : Unmarshal urlValid env cfg = .ok cfg') :
    (cfg'.clickHouse.RenderMaxQueries = cfg.clickHouse.RenderMaxQueries ∧
      cfg'.clickHouse.RenderConcurrentQueries =
        (if cfg.clickHouse.RenderConcurrentQueries > cfg.clickHouse.RenderMaxQueries ∧
            cfg.clickHouse.RenderMaxQueries > 0 then 0
          else cfg.clickHouse.RenderConcurrentQueries)) ∧
    (cfg'.clickHouse.FindMaxQueries = cfg.clickHouse.FindMaxQueries ∧
      cfg'.clickHouse.FindConcurrentQueries =
        (if cfg.clickHouse.FindConcurrentQueries > cfg.clickHouse.FindMaxQueries ∧
            cfg.clickHouse.FindMaxQueries > 0 then 0
          else cfg.clickHouse.FindConcurrentQueries)) ∧
    (cfg'.clickHouse.TagsMaxQueries = cfg.clickHouse.TagsMaxQueries ∧
      cfg'.clickHouse.TagsConcurrentQueries =
        (if cfg.clickHouse.TagsConcurrentQueries > cfg.clickHouse.TagsMaxQueries ∧
            cfg.clickHouse.TagsMaxQueries > 0 then 0
          else cfg.clickHouse.TagsConcurrentQueries)) ∧
    (∃ root ∈ cfg'.clickHouse.QueryParams, root.Duration = 0 ∧
      root.MaxQueries = cfg'.clickHouse.RenderMaxQueries ∧
      root.ConcurrentQueries = cfg'.clickHouse.RenderConcurrentQueries) ∧
    (∀ q ∈ cfg.clickHouse.QueryParams, ∃ q' ∈ cfg'.clickHouse.QueryParams,
      q'.Duration = q.Duration ∧ q'.MaxQueries = q.MaxQueries ∧
      q'.ConcurrentQueries =
        (if q.ConcurrentQueries > q.MaxQueries ∧ q.MaxQueries > 0 then 0
          else q.ConcurrentQueries)) := by
  obtain ⟨tiers, hn, hq⟩ := Unmarshal_tiers urlValid env cfg cfg' h
  obtain ⟨tiers2, -, hch⟩ := Unmarshal_ok urlValid env cfg cfg' h
  obtain ⟨-, -, -, r4, -, r6, r7, r8, r9, r10, -⟩ := coerceRender_fields cfg.clickHouse
  have hrm : cfg'.clickHouse.RenderMaxQueries = cfg.clickHouse.RenderMaxQueries := by
    rw [hch, (coerceTags_fields _).2.1, (coerceFind_fields _).2.1]
    exact r4
  have hrc : cfg'.clickHouse.RenderConcurrentQueries =
      (coerceRender cfg.clickHouse).RenderConcurrentQueries := by
    rw [hch, (coerceTags_fields _).2.2.1, (coerceFind_fields _).2.2.1]
  refine ⟨⟨hrm, by rw [hrc, r6]⟩, ⟨?_, ?_⟩, ⟨?_, ?_⟩, ?_, ?_⟩
  · rw [hch, (coerceTags_fields _).2.2.2.1, (coerceFind_fields _).2.2.2.1]
    exact r7
  · rw [hch, (coerceTags_fields _).2.2.2.2.1, (coerceFind_fields _).2.2.2.2.1]
    simp only [r7, r8]
  · rw [hch, (coerceTags_fields _).2.2.2.2.2.1, (coerceFind_fields _).2.2.2.2.2.1]
    exact r9
  · rw [hch, (coerceTags_fields _).2.2.2.2.2.2, (coerceFind_fields _).2.2.2.2.2.1,
      (coerceFind_fields _).2.2.2.2.2.2]
    simp only [r9, r10]
  · refine ⟨rootTier (coerceRender cfg.clickHouse), ?_, rfl, ?_, ?_⟩
    · rw [hq]
      exact (List.perm_insertionSort durationLe _).mem_iff.2 (List.mem_cons_self _ _)
    · rw [hrm]; exact r4
    · rw [hrc]; rfl
  · intro q hqm
    obtain ⟨q', hq', hnq⟩ := normalizeQueryParams_all_ok _ _ _ _ _ hn q hqm
    obtain ⟨e1, -, e3, e4, -⟩ := normalizeQueryParam_ok _ _ _ _ _ hnq
    refine ⟨q', ?_, e1, e3, e4⟩
    rw [hq]
    exact (List.perm_insertionSort durationLe _).mem_iff.2 (List.mem_cons_of_mem _ hq')

/-- C15 (amended) at a concrete input: `render-max-queries = 2`,
`render-concurrent-queries = 5` is normalised to 0. -/
theorem Unmarshal_coerces_concurrent_witness :
    Unmarshal exampleUrlValid envAllOk (exampleConfig 2 5 []) =
      .ok (exampleConfig 2 0 [rootTier (exampleConfig 2 0 []).clickHouse]) ∧
    (exampleConfig 2 0 [rootTier (exampleConfig 2 0 []).clickHouse]).clickHouse.RenderConcurrentQueries
      = (if (exampleConfig 2 5 []).clickHouse.RenderConcurrentQueries >
            (exampleConfig 2 5 []).clickHouse.RenderMaxQueries ∧
          (exampleConfig 2 5 []).clickHouse.RenderMaxQueries > 0 then 0
        else (exampleConfig 2 5 []).clickHouse.RenderConcurrentQueries) :=
  ⟨rfl, (Unmarshal_coerces_concurrent exampleUrlValid envAllOk (exampleConfig 2 5 [])
    (exampleConfig 2 0 [rootTier (exampleConfig 2 0 []).clickHouse]) rfl).1.2⟩

/-! ## HandleError -/

/-- C20 fails on the code: the `*url.Error` that `http.Client.Do` returns for a
cancelled request wraps `context.Canceled` and implements `net.Error`, so
`HandleError` answers it in the `net.Error` branch with 503 "Storage network
error"; the `context.Canceled` test that gives 504 comes later and is reached
only by errors that are not `net.Error` values. Among all errors that are or
wrap `context.Canceled`, the status is 504 exactly when the error is not a
`net.Error` whose `Timeout()` is false. -/
theorem HandleError_canceled_behind_net_error :
    canceledRequest.IsCanceled = true ∧
    HandleError canceledRequest =
      { status := 503, queueFail := false, body := "Storage network error" } ∧
    HandleError .Canceled =
      { status := 504, queueFail := false, body := "Storage read context canceled" } ∧
    (∀ err : Err, err.IsCanceled = true →
      ((HandleError err).status = 504 ↔ err.asNetError ≠ some false)) := by
  refine ⟨by decide, by decide, by decide, ?_⟩
  intro err h
  cases err with
  | Canceled => decide
  | wrapped text cause =>
    simp only [Err.IsCanceled] at h
    simp [HandleError, Err.asNetError, Err.IsCanceled, h]
  | netErrorWrapping text timeout cause =>
    cases timeout with
    | true => simp [HandleError, Err.asNetError]
    | false =>
      simp only [HandleError, Err.asNetError]
      split_ifs <;> simp_all
  | _ => simp [Err.IsCanceled] at h

/-! ## FinderCached and the cache writes of Find -/

theorem finderCachedGoroutine_item (cacheConfig : CacheConfig) (loc : Location) (ts : Int)
    (cacheGet : String → Option String) (amLen : Nat → Nat → Int)
    (a : Nat) (from_ until_ : Int) (target : String) (n : Nat)
    (item : CachedItem) (st : CachedState) :
    (finderCachedGoroutine cacheConfig loc ts cacheGet amLen a from_ until_ target n
        item st).1.Timeout = (GetCacheTimeout ts from_ until_ cacheConfig).1 ∧
      ((GetCacheTimeout ts from_ until_ cacheConfig).1 ≤ 0 →
        (finderCachedGoroutine cacheConfig loc ts cacheGet amLen a from_ until_ target n
          item st).1.Cached = item.Cached) := by
  simp only [finderCachedGoroutine]
  by_cases h : (GetCacheTimeout ts from_ until_ cacheConfig).1 > 0
  · rw [if_pos h]
    refine ⟨?_, fun h0 => absurd h (by omega)⟩
    generalize cacheGet _ = g
    cases g with
    | none => rfl
    | some body => simp only; split_ifs <;> rfl
  · rw [if_neg h]
    exact ⟨rfl, fun _ => rfl⟩

theorem finderCachedGoroutine_gets (cacheConfig : CacheConfig) (loc : Location) (ts : Int)
    (cacheGet : String → Option String) (amLen : Nat → Nat → Int)
    (a : Nat) (from_ until_ : Int) (target : String) (n : Nat)
    (item : CachedItem) (st : CachedState) (c : CacheCall)
    (hc : c ∈ (finderCachedGoroutine cacheConfig loc ts cacheGet amLen a from_ until_ target n
        item st).2.gets) :
    c ∈ st.gets ∨ (c.a = a ∧ 0 < (GetCacheTimeout ts from_ until_ cacheConfig).1) := by
  simp only [finderCachedGoroutine] at hc
  by_cases h : (GetCacheTimeout ts from_ until_ cacheConfig).1 > 0
  · rw [if_pos h] at hc
    have key : ∀ (g : List CacheCall) (k : String), g = st.gets →
        c ∈ g ++ [(⟨a, n, k⟩ : CacheCall)] →
        c ∈ st.gets ∨ (c.a = a ∧ 0 < (GetCacheTimeout ts from_ until_ cacheConfig).1) := by
      intro g k hst hg
      rcases List.mem_append.1 hg with h1 | h1
      · exact Or.inl (hst ▸ h1)
      · rw [List.mem_singleton] at h1
        exact Or.inr ⟨by rw [h1], h⟩
    have hst1 : (if st.maxCacheTimeout < (GetCacheTimeout ts from_ until_ cacheConfig).1 then
        ({ st with maxCacheTimeout := (GetCacheTimeout ts from_ until_ cacheConfig).1,
                   maxCacheTimeoutStr := (GetCacheTimeout ts from_ until_ cacheConfig).2.1 } :
          CachedState)
        else st).gets = st.gets := by
      split_ifs <;> rfl
    generalize cacheGet _ = g at hc
    cases g with
    | none => exact key _ _ hst1 hc
    | some body =>
      simp only at hc
      by_cases hb : body.length > 0
      · rw [if_pos hb] at hc
        exact key _ _ hst1 hc
      · rw [if_neg hb] at hc
        exact key _ _ hst1 hc
  · rw [if_neg h] at hc
    exact Or.inl hc

theorem finderCachedInner_gets (cacheConfig : CacheConfig) (loc : Location) (ts : Int)
    (cacheGet : String → Option String) (amLen : Nat → Nat → Int)
    (a : Nat) (from_ until_ : Int) (c : CacheCall) :
    ∀ (slots : List CachedSlot) (i : Nat) (st : CachedState),
      c ∈ (finderCachedInner cacheConfig loc ts cacheGet amLen a from_ until_ slots i st).2.gets →
      c ∈ st.gets ∨ (c.a = a ∧ 0 < (GetCacheTimeout ts from_ until_ cacheConfig).1) := by
  intro slots
  induction slots with
  | nil => intro i st hc; exact Or.inl hc
  | cons s rest ih =>
    intro i st hc
    rw [finderCachedInner] at hc
    rcases ih _ _ hc with h1 | h1
    · exact finderCachedGoroutine_gets _ _ _ _ _ _ _ _ _ _ _ _ _ h1
    · exact Or.inr h1

theorem finderCachedInner_slots (cacheConfig : CacheConfig) (loc : Location) (ts : Int)
    (cacheGet : String → Option String) (amLen : Nat → Nat → Int)
    (a : Nat) (from_ until_ : Int) :
    ∀ (slots : List CachedSlot) (i : Nat) (st : CachedState) (j : Nat) (s : CachedSlot),
      slots[j]? = some s →
      ∃ s', (finderCachedInner cacheConfig loc ts cacheGet amLen a from_ until_
          slots i st).1[j]? = some s' ∧
        s'.target = s.target ∧
        s'.item.Timeout = (GetCacheTimeout ts from_ until_ cacheConfig).1 ∧
        ((GetCacheTimeout ts from_ until_ cacheConfig).1 ≤ 0 →
          s'.item.Cached = s.item.Cached) := by
  intro slots
  induction slots with
  | nil => intro i st j s h; simp at h
  | cons s0 rest ih =>
    intro i st j s h
    rw [finderCachedInner]
    cases j with
    | zero =>
      simp only [List.getElem?_cons_zero, Option.some.injEq] at h
      subst h
      exact ⟨_, List.getElem?_cons_zero, rfl,
        finderCachedGoroutine_item _ _ _ _ _ _ _ _ _ _ _ _⟩
    | succ j =>
      simp only [List.getElem?_cons_succ] at h
      obtain ⟨s', h1, h2⟩ := ih (i + 1) _ j s h
      exact ⟨s', by simp only [List.getElem?_cons_succ]; exact h1, h2⟩

theorem finderCachedOuter_gets (cacheConfig : CacheConfig) (loc : Location) (ts : Int)
    (cacheGet : String → Option String) (amLen : Nat → Nat → Int) (c : CacheCall) :
    ∀ (reqs : List CachedTargets) (a0 : Nat) (st : CachedState),
      c ∈ (finderCachedOuter cacheConfig loc ts cacheGet amLen reqs a0 st).2.gets →
      c ∈ st.gets ∨ ∃ t, a0 ≤ c.a ∧ reqs[c.a - a0]? = some t ∧
        0 < (GetCacheTimeout ts t.From t.Until cacheConfig).1 := by
  intro reqs
  induction reqs with
  | nil => intro a0 st hc; exact Or.inl hc
  | cons t rest ih =>
    intro a0 st hc
    rw [finderCachedOuter] at hc
    rcases ih _ _ hc with h1 | ⟨t', h1, h2, h3⟩
    · rcases finderCachedInner_gets _ _ _ _ _ _ _ _ _ _ _ _ h1 with h4 | ⟨h4, h5⟩
      · exact Or.inl h4
      · refine Or.inr ⟨t, by omega, ?_, h5⟩
        rw [h4, Nat.sub_self]
        exact List.getElem?_cons_zero
    · refine Or.inr ⟨t', by omega, ?_, h3⟩
      have : c.a - a0 = (c.a - (a0 + 1)) + 1 := by omega
      rw [this, List.getElem?_cons_succ]
      exact h2

theorem finderCachedOuter_slots (cacheConfig : CacheConfig) (loc : Location) (ts : Int)
    (cacheGet : String → Option String) (amLen : Nat → Nat → Int) :
    ∀ (reqs : List CachedTargets) (a0 : Nat) (st : CachedState) (k : Nat) (t : CachedTargets),
      reqs[k]? = some t →
      ∃ t', (finderCachedOuter cacheConfig loc ts cacheGet amLen reqs a0 st).1[k]? = some t' ∧
        ∀ (j : Nat) (s : CachedSlot), t.slots[j]? = some s →
          ∃ s', t'.slots[j]? = some s' ∧ s'.target = s.target ∧
            s'.item.Timeout = (GetCacheTimeout ts t.From t.Until cacheConfig).1 ∧
            ((GetCacheTimeout ts t.From t.Until cacheConfig).1 ≤ 0 →
              s'.item.Cached = s.item.Cached) := by
  intro reqs
  induction reqs with
  | nil => intro a0 st k t h; simp at h
  | cons t0 rest ih =>
    intro a0 st k t h
    rw [finderCachedOuter]
    cases k with
    | zero =>
      simp only [List.getElem?_cons_zero, Option.some.injEq] at h
      subst h
      exact ⟨_, List.getElem?_cons_zero,
        fun j s hs => finderCachedInner_slots _ _ _ _ _ _ _ _ _ _ _ j s hs⟩
    | succ k =>
      simp only [List.getElem?_cons_succ] at h
      obtain ⟨t', h1, h2⟩ := ih (a0 + 1) _ k t h
      exact ⟨t', by simp only [List.getElem?_cons_succ]; exact h1, h2⟩

theorem finderCachedCount_slots :
    ∀ (reqs : List CachedTargets) (n k : Nat) (t : CachedTargets),
      reqs[k]? = some t →
      ∃ t', (finderCachedCount reqs n).1[k]? = some t' ∧ t'.slots = t.slots ∧
        t'.From = t.From ∧ t'.Until = t.Until := by
  intro reqs
  induction reqs with
  | nil => intro n k t h; simp at h
  | cons t0 rest ih =>
    intro n k t h
    rw [finderCachedCount]
    cases k with
    | zero =>
      simp only [List.getElem?_cons_zero, Option.some.injEq] at h
      subst h
      refine ⟨_, List.getElem?_cons_zero, ?_⟩
      split_ifs <;> exact ⟨rfl, rfl, rfl⟩
    | succ k =>
      simp only [List.getElem?_cons_succ] at h
      obtain ⟨t', h1, h2⟩ := ih _ k t h
      exact ⟨t', by simp only [List.getElem?_cons_succ]; exact h1, h2⟩

theorem findSets_timeout (useCache : Bool) (fetchRequests : List CachedTargets)
    (events : List FindEvent) (c : CacheCall) (hc : c ∈ findSets useCache fetchRequests events) :
    useCache = true ∧ ∃ item, cacheItemAt fetchRequests c.a c.i = some item ∧ 0 < item.Timeout ∧
      c.key = item.Key ∧ FindEvent.launched c.a c.i none ∈ events := by
  unfold findSets at hc
  obtain ⟨ev, hev, h⟩ := List.mem_filterMap.1 hc
  cases ev with
  | enterFailed a i e => simp [findSetCall] at h
  | launched a i o =>
    cases o with
    | some e => simp [findSetCall] at h
    | none =>
      simp only [findSetCall] at h
      cases hi : cacheItemAt fetchRequests a i with
      | none => rw [hi] at h; simp at h
      | some item =>
        rw [hi] at h
        simp only at h
        split_ifs at h with hg
        simp only [Option.some.injEq] at h
        subst h
        exact ⟨hg.1, item, hi, hg.2, rfl, hev⟩

/-- C17: for a target whose time frame selects the TTL zero, `FinderCached`
makes no `FindCache.Get` call for it, leaves its `Cached` flag as it was (false
in a parsed request) with `Timeout = 0`, and no run of `Find` over the request
`FinderCached` leaves behind makes a `FindCache.Set` call for it. -/
theorem FinderCached_skips_zero_ttl (cacheConfig : CacheConfig) (loc : Location) (ts : Int)
    (cacheGet : String → Option String) (amLen : Nat → Nat → Int)
    (fetchRequests : List CachedTargets) (metricsLen : Int)
    (a i : Nat) (t : CachedTargets) (s : CachedSlot)
    (ht : fetchRequests[a]? = some t) (hs : t.slots[i]? = some s)
    (hz : (GetCacheTimeout ts t.From t.Until cacheConfig).1 = 0) :
    (∀ c ∈ (FinderCached cacheConfig loc ts cacheGet amLen fetchRequests metricsLen).gets,
      ¬ (c.a = a ∧ c.i = i)) ∧
    (∃ item, cacheItemAt (FinderCached cacheConfig loc ts cacheGet amLen fetchRequests
        metricsLen).fetchRequests a i = some item ∧
      item.Timeout = 0 ∧ item.Cached = s.item.Cached) ∧
    (∀ (useCache enabled : Bool) (enter : Nat → Option GoError)
        (find : Nat → Nat → Option GoError) (sched : List Nat),
      ∀ c ∈ findSets useCache
          (FinderCached cacheConfig loc ts cacheGet amLen fetchRequests metricsLen).fetchRequests
          (Find enabled enter find
            ((FinderCached cacheConfig loc ts cacheGet amLen fetchRequests
              metricsLen).fetchRequests.map CachedTargets.toFetchRequest) sched).events,
        ¬ (c.a = a ∧ c.i = i)) := by
  have hitem : ∃ item, cacheItemAt (FinderCached cacheConfig loc ts cacheGet amLen fetchRequests
        metricsLen).fetchRequests a i = some item ∧
      item.Timeout = 0 ∧ item.Cached = s.item.Cached := by
    obtain ⟨t1, h1, h2⟩ := finderCachedOuter_slots cacheConfig loc ts cacheGet amLen
      fetchRequests 0 { maxCacheTimeout := 0, maxCacheTimeoutStr := "",
                        metricsLen := metricsLen, gets := [] } a t ht
    obtain ⟨s1, h3, -, h4, h5⟩ := h2 i s hs
    obtain ⟨t2, h6, h7, -⟩ := finderCachedCount_slots _ 0 a t1 h1
    refine ⟨s1.item, ?_, by rw [h4, hz], h5 (by omega)⟩
    simp only [FinderCached, cacheItemAt]
    rw [h6]
    simp only [h7, h3, Option.map_some']
  refine ⟨?_, hitem, ?_⟩
  · intro c hc hci
    simp only [FinderCached] at hc
    rcases finderCachedOuter_gets _ _ _ _ _ _ _ _ _ hc with h1 | ⟨t', -, h2, h3⟩
    · simp at h1
    · rw [hci.1, Nat.sub_zero, ht] at h2
      simp only [Option.some.injEq] at h2
      subst h2
      omega
  · intro useCache enabled enter find sched c hc hci
    obtain ⟨-, item, h1, h2, -⟩ := findSets_timeout _ _ _ _ hc
    obtain ⟨item', h3, h4, -⟩ := hitem
    rw [hci.1, hci.2, h3] at h1
    simp only [Option.some.injEq] at h1
    subst h1
    omega

/-- C17 at a concrete input: with no short TTL configured, the one-hour target
of `hourAndDay` selects the TTL zero; it is not looked up and stays uncached. -/
theorem FinderCached_skips_zero_ttl_witness :
    (∀ c ∈ (FinderCached noShortTtlConfig UTC 1704153650 (fun _ => some "x") (fun _ _ => 3)
        hourAndDay 0).gets, ¬ (c.a = 0 ∧ c.i = 0)) ∧
    (∃ item, cacheItemAt (FinderCached noShortTtlConfig UTC 1704153650 (fun _ => some "x")
        (fun _ _ => 3) hourAndDay 0).fetchRequests 0 0 = some item ∧
      item.Timeout = 0 ∧ item.Cached = false) :=
  ⟨(FinderCached_skips_zero_ttl noShortTtlConfig UTC 1704153650 (fun _ => some "x")
      (fun _ _ => 3) hourAndDay 0 0 0 _ _ rfl rfl (by decide)).1,
   (FinderCached_skips_zero_ttl noShortTtlConfig UTC 1704153650 (fun _ => some "x")
      (fun _ _ => 3) hourAndDay 0 0 0 _ _ rfl rfl (by decide)).2.1⟩

/-! ## The render handler -/

theorem checkTimeFrames_nil_err :
    ∀ (fetchRequests : List CachedTargets) (targetsLen : Nat),
      ∃ n, checkTimeFrames none fetchRequests targetsLen = .ok n := by
  intro fetchRequests
  induction fetchRequests with
  | nil => intro targetsLen; exact ⟨targetsLen, rfl⟩
  | cons t rest ih =>
    intro targetsLen
    rw [checkTimeFrames]
    split_ifs with h1 h2
    · simp at h2
    · exact ih _
    · exact ih _

/-- C12 fails on the code: for the request `emptyRangeRequest`, whose only time
frame has `From = Until`, `ServeHTTP` writes no error and ends with status 200
after a `FindCache.Get`, a finder call, a `FindCache.Set` and the fetch. The
test `From >= Until` is followed by `if err != nil`, and `err` is nil after a
successful parse, so the loop over the time frames rejects no request. -/
theorem ServeHTTP_accepts_empty_time_range :
    (ServeHTTP emptyRangeRequest).status = 200 ∧
    (ServeHTTP emptyRangeRequest).httpError = none ∧
    (ServeHTTP emptyRangeRequest).gets =
      [{ a := 0, i := 0, key := "2024-01-02;2024-01-02;a.*;ttl=10" }] ∧
    (ServeHTTP emptyRangeRequest).finderEvents = [.launched 0 0 none] ∧
    (ServeHTTP emptyRangeRequest).fetched = true ∧
    (∀ (fetchRequests : List CachedTargets) (targetsLen : Nat) (h : Handled),
      checkTimeFrames none fetchRequests targetsLen ≠ .error h) := by
  refine ⟨by decide, by decide, by decide, by decide, by decide, ?_⟩
  intro fetchRequests targetsLen h heq
  obtain ⟨n, hn⟩ := checkTimeFrames_nil_err fetchRequests targetsLen
  rw [hn] at heq
  cases heq

/-! ## extractClickhouseError -/

theorem infix_iff_prefix_drop (pat s : List Char) :
    pat <:+: s ↔ ∃ j, pat <+: s.drop j := by
  constructor
  · rintro ⟨a, b, h⟩
    refine ⟨a.length, b, ?_⟩
    rw [← h, List.append_assoc, List.drop_left]
  · rintro ⟨j, b, h⟩
    refine ⟨s.take j, b, ?_⟩
    rw [List.append_assoc, h, List.take_append_drop]

theorem indexFrom_spec (pat : List Char) :
    ∀ s : List Char,
      (indexFrom pat s = -1 ∧ ∀ j, ¬ pat <+: s.drop j) ∨
      (∃ k : Nat, indexFrom pat s = (k : Int) ∧ pat <+: s.drop k ∧
        ∀ j < k, ¬ pat <+: s.drop j) := by
  intro s
  induction s with
  | nil =>
    rw [indexFrom]
    cases pat with
    | nil => exact Or.inr ⟨0, by simp, by simp, by simp⟩
    | cons c cs =>
      left
      refine ⟨by simp, ?_⟩
      intro j h
      simp at h
  | cons c cs ih =>
    rw [indexFrom]
    by_cases hp : pat.isPrefixOf (c :: cs) = true
    · rw [if_pos hp]
      exact Or.inr ⟨0, rfl, by simpa using List.isPrefixOf_iff_prefix.1 hp, by simp⟩
    · rw [if_neg hp]
      have hp' : ¬ pat <+: c :: cs := fun h => hp (List.isPrefixOf_iff_prefix.2 h)
      rcases ih with ⟨h1, h2⟩ | ⟨k, h1, h2, h3⟩
      · left
        refine ⟨by simp [h1], ?_⟩
        intro j
        cases j with
        | zero => simpa using hp'
        | succ j => simpa using h2 j
      · right
        refine ⟨k + 1, ?_, by simpa using h2, ?_⟩
        · simp only [h1]
          have : (k : Int) ≠ -1 := by omega
          rw [if_neg this]
          push_cast
          rfl
        · intro j hj
          cases j with
          | zero => simpa using hp'
          | succ j => simpa using h3 j (by omega)

theorem extractClickhouseError_limit_eq (e : String) (k : Nat)
    (hp : HasPrefix e "clickhouse response status 500: Code:" = true)
    (hI : Index e ": Limit for " = (k : Int)) :
    extractClickhouseError e =
      (403, "Storage read limit " ++
        (if Index (sliceFrom e ((k : Int) + 8)) " (version " ≠ -1 then
          sliceTo (sliceFrom e ((k : Int) + 8)) (Index (sliceFrom e ((k : Int) + 8)) " (version ")
        else sliceFrom e ((k : Int) + 8))) := by
  have hk : (k : Int) ≠ -1 := by omega
  unfold extractClickhouseError
  simp only [hp, hI, true_or, if_true, hk, ne_eq, not_false_eq_true]

/-- C21 as stated fails: a 500 response whose body contains `Limit for ` not
preceded by `: ` is answered with 503 "Storage unavailable". -/
theorem extractClickhouseError_limit_without_colon :
    extractClickhouseError
        "clickhouse response status 500: Code: 158, Limit for rows to read exceeded" =
      (503, "Storage unavailable") := by
  set_option maxRecDepth 100000 in decide

/-- C21 (amended): for every error text that starts with `clickhouse response
status 500: Code:` and contains `: Limit for `, `extractClickhouseError`
returns status 403 and the message `Storage read limit ` followed by the limit
description: the text after the `: Limit ` of the first `: Limit for `, which
begins with `for `, cut before its first ` (version ` when it has one. -/
theorem extractClickhouseError_limit (e : String)
    (hp : HasPrefix e "clickhouse response status 500: Code:" = true)
    (hl : ": Limit for ".data <:+: e.data) :
    (extractClickhouseError e).1 = 403 ∧
    ∃ pre rest : List Char, e.data = pre ++ ": Limit ".data ++ rest ∧
      "for ".data <+: rest ∧
      (∀ j < pre.length, ¬ ": Limit for ".data <+: e.data.drop j) ∧
      ((¬ " (version ".data <:+: rest ∧
          (extractClickhouseError e).2.data = "Storage read limit ".data ++ rest) ∨
       (∃ d tail : List Char, rest = d ++ " (version ".data ++ tail ∧
          (∀ j < d.length, ¬ " (version ".data <+: rest.drop j) ∧
          (extractClickhouseError e).2.data = "Storage read limit ".data ++ d)) := by
  rcases indexFrom_spec ": Limit for ".data e.data with ⟨-, h2⟩ | ⟨k, h1, h2, h3⟩
  · exact absurd ((infix_iff_prefix_drop _ _).1 hl) (by simpa using h2)
  have hI : Index e ": Limit for " = (k : Int) := h1
  rw [extractClickhouseError_limit_eq e k hp hI]
  obtain ⟨t, ht⟩ := h2
  have hsplit : ": Limit for ".data = ": Limit ".data ++ "for ".data := by decide
  have hk8 : e.data.drop (k + 8) = "for ".data ++ t := by
    have h8 : e.data.drop (k + 8) = (e.data.drop k).drop 8 := by
      rw [List.drop_drop, Nat.add_comm]
    rw [h8, ← ht, hsplit, List.append_assoc]
    exact List.drop_left' (by decide)
  have hs : (sliceFrom e ((k : Int) + 8)).data = e.data.drop (k + 8) := by
    have : ((k : Int) + 8).toNat = k + 8 := by omega
    simp only [sliceFrom, this]
  refine ⟨rfl, e.data.take k, e.data.drop (k + 8), ?_, ?_, ?_, ?_⟩
  · rw [hk8, List.append_assoc, ← List.append_assoc ": Limit ".data, ← hsplit, ht,
      List.take_append_drop]
  · exact ⟨t, hk8.symm⟩
  · intro j hj
    exact h3 j (lt_of_lt_of_le hj (List.length_take_le _ _))
  · simp only [String.data_append]
    rcases indexFrom_spec " (version ".data (e.data.drop (k + 8)) with ⟨m1, m2⟩ | ⟨m, m1, m2, m3⟩
    · left
      have hJ : Index (sliceFrom e ((k : Int) + 8)) " (version " = -1 := by
        simp only [Index, hs]
        exact m1
      refine ⟨fun h => ?_, ?_⟩
      · obtain ⟨j, hj⟩ := (infix_iff_prefix_drop _ _).1 h
        exact m2 j hj
      · rw [hJ]
        simp only [ne_eq, not_true_eq_false, if_false, hs]
    · right
      have hJ : Index (sliceFrom e ((k : Int) + 8)) " (version " = (m : Int) := by
        simp only [Index, hs]
        exact m1
      obtain ⟨tail, htail⟩ := m2
      refine ⟨(e.data.drop (k + 8)).take m, tail, ?_, ?_, ?_⟩
      · rw [List.append_assoc, htail, List.take_append_drop]
      · intro j hj
        exact m3 j (lt_of_lt_of_le hj (List.length_take_le _ _))
      · rw [hJ]
        have hm : (m : Int) ≠ -1 := by omega
        simp only [ne_eq, hm, not_false_eq_true, if_true, sliceTo, hs, Int.toNat_ofNat]

/-- C21 (amended) at a concrete input: a row-limit error of the back-end. -/
theorem extractClickhouseError_limit_witness :
    (extractClickhouseError
      "clickhouse response status 500: Code: 158, e.displayText() = DB::Exception: Limit for rows to read exceeded (version 20.1)").1 = 403 :=
  (extractClickhouseError_limit _ (by decide)
    ⟨"clickhouse response status 500: Code: 158, e.displayText() = DB::Exception".data,
     "rows to read exceeded (version 20.1)".data, by decide⟩).1
/-! ## TimestampTruncate -/

/-- C24 as stated fails: for `ts = 10` and 7 seconds the result is 10, not
`10 - 10 mod 7 = 7`; the multiples of 7 seconds are counted from the zero time
of `time.Time`, and 62135596800 is not a multiple of 7. -/
theorem TimestampTruncate_not_from_epoch :
    TimestampTruncate 10 (7 * timeSecond) = 10 ∧ (10 : Int) - 10 % 7 = 7 ∧
    TimestampTruncate 1704153650 (7 * timeSecond) = 1704153650 ∧
    (1704153650 : Int) - 1704153650 % 7 = 1704153647 := by
  decide

/-- C24 (amended): for every timestamp `ts >= 0` that `time.Unix` represents
without overflow and every duration of `k > 0` whole seconds that fits a
`time.Duration`, `TimestampTruncate(ts, k seconds)` is
`ts - ((ts + 62135596800) mod k)`: the latest instant not after `ts` that lies
a multiple of `k` seconds after the zero time (0001-01-01 00:00:00 UTC). It is
`ts - (ts mod k)` whenever `k` divides 62135596800, which every divisor of a
day (86400 seconds) does. -/
theorem TimestampTruncate_from_zero_time (ts k : Int) (h0 : 0 ≤ ts)
    (h1 : ts + unixToInternal ≤ 9223372036854775807) (hk : 0 < k)
    (hk2 : k * timeSecond ≤ 9223372036854775807) :
    TimestampTruncate ts (k * timeSecond) = ts - (ts + unixToInternal) % k ∧
    k ∣ TimestampTruncate ts (k * timeSecond) + unixToInternal ∧
    TimestampTruncate ts (k * timeSecond) ≤ ts ∧
    ts < TimestampTruncate ts (k * timeSecond) + k ∧
    (k ∣ unixToInternal → TimestampTruncate ts (k * timeSecond) = ts - ts % k) ∧
    (k ∣ 86400 → TimestampTruncate ts (k * timeSecond) = ts - ts % k) := by
  have hu : unixToInternal = 62135596800 := rfl
  have hts : timeSecond = 1000000000 := rfl
  have hmod0 : 0 ≤ (ts + unixToInternal) % k := Int.emod_nonneg _ (by omega)
  have hmodk : (ts + unixToInternal) % k < k := Int.emod_lt_of_pos _ hk
  have hval : TimestampTruncate ts (k * timeSecond) = ts - (ts + unixToInternal) % k := by
    unfold TimestampTruncate
    have hd : ¬ k * timeSecond ≤ 0 := by rw [hts]; omega
    rw [if_neg hd]
    have hw : wrapInt64 (ts + unixToInternal) = ts + unixToInternal :=
      wrapInt64_of_isInt64 _ ⟨by rw [hu]; omega, h1⟩
    simp only [hw]
    have hr : (ts + unixToInternal) * 1000000000 % (k * timeSecond) =
        (ts + unixToInternal) % k * 1000000000 := by
      rw [hts, Int.mul_comm (ts + unixToInternal), Int.mul_comm k,
        Int.mul_emod_mul_of_pos _ _ (by norm_num : (0 : Int) < 1000000000), Int.mul_comm]
    rw [hr]
    have hq : ((ts + unixToInternal) * 1000000000 -
        (ts + unixToInternal) % k * 1000000000) / 1000000000 =
        ts + unixToInternal - (ts + unixToInternal) % k := by
      rw [← Int.sub_mul]
      exact Int.mul_ediv_cancel _ (by norm_num)
    rw [hq]
    have he : ts + unixToInternal - (ts + unixToInternal) % k - unixToInternal =
        ts - (ts + unixToInternal) % k := by omega
    rw [he]
    apply wrapInt64_of_isInt64
    unfold IsInt64
    rw [hts] at hk2
    rw [hu] at h1 hmod0 hmodk ⊢
    constructor <;> omega
  have hdiv : k ∣ ts - (ts + unixToInternal) % k + unixToInternal := by
    have : ts - (ts + unixToInternal) % k + unixToInternal =
        k * ((ts + unixToInternal) / k) := by
      have := Int.emod_add_ediv (ts + unixToInternal) k
      omega
    rw [this]
    exact Dvd.intro _ rfl
  have hdvd : k ∣ unixToInternal → ts - (ts + unixToInternal) % k = ts - ts % k := by
    intro hd
    obtain ⟨c, hc⟩ := hd
    rw [hc, Int.add_mul_emod_self_left]
  refine ⟨hval, ?_, ?_, ?_, ?_, ?_⟩
  · rw [hval]; exact hdiv
  · rw [hval]; omega
  · rw [hval]; omega
  · intro hd; rw [hval]; exact hdvd hd
  · intro hd
    rw [hval]
    apply hdvd
    have : (86400 : Int) ∣ unixToInternal := ⟨719162, by decide⟩
    exact dvd_trans hd this

/-- C24 (amended) at a concrete input: a TTL of 600 seconds. -/
theorem TimestampTruncate_from_zero_time_witness :
    TimestampTruncate 1704153650 (600 * timeSecond) = 1704153650 - 1704153650 % 600 :=
  (TimestampTruncate_from_zero_time 1704153650 600 (by decide) (by decide) (by decide)
    (by decide)).2.2.2.2.2 (by decide)

/-! ## CreateCache: the repeated coercion and equal TTLs -/

/-- C26 as stated fails: with both TTLs at -1 and a find TTL of 10 seconds the
repeated coercion runs with `DefaultTimeoutSec = -1 < 0 = ShortTimeoutSec` and
raises the default TTL to 0; without it the default TTL stays -1. -/
theorem CreateCache_reapply_not_dead :
    (CreateCache "index" negativeTtlConfig).1.DefaultTimeoutSec = 0 ∧
    (CreateCacheWithoutReapply "index" negativeTtlConfig).1.DefaultTimeoutSec = -1 ∧
    (CreateCache "index" negativeTtlConfig).1 ≠
      (CreateCacheWithoutReapply "index" negativeTtlConfig).1 := by
  decide

/-- C26 (amended): for every cache configuration in which `DefaultTimeoutSec`
or `ShortTimeoutSec` is not negative, the second `DefaultTimeoutSec <
ShortTimeoutSec` coercion of `CreateCache` changes nothing: `CreateCache` with
and without that step return the same configuration and the same cache. -/
theorem CreateCache_reapply_dead (cacheName : String) (c : CacheConfig)
    (h : 0 ≤ c.DefaultTimeoutSec ∨ 0 ≤ c.ShortTimeoutSec) :
    CreateCache cacheName c = CreateCacheWithoutReapply cacheName c := by
  simp only [CreateCache, CreateCacheWithoutReapply]
  split_ifs <;> first | rfl | (exfalso; simp_all; omega)

/-- C26 (amended) at a concrete input: default 60 s below short 300 s. -/
theorem CreateCache_reapply_dead_witness :
    CreateCache "index" swappedTtlConfig = CreateCacheWithoutReapply "index" swappedTtlConfig :=
  CreateCache_reapply_dead "index" swappedTtlConfig (by decide)

/-- When both TTLs are negative and the find TTL is positive, the repeated
coercion is taken: it raises `DefaultTimeoutSec` to 0, and without it the
larger of the two negative values stays. -/
theorem CreateCache_reapply_negative (cacheName : String) (c : CacheConfig)
    (hd : c.DefaultTimeoutSec < 0) (hs : c.ShortTimeoutSec < 0) (hf : 0 < c.FindTimeoutSec) :
    (CreateCache cacheName c).1.DefaultTimeoutSec = 0 ∧
      (CreateCacheWithoutReapply cacheName c).1.DefaultTimeoutSec =
        max c.DefaultTimeoutSec c.ShortTimeoutSec := by
  simp only [CreateCache, CreateCacheWithoutReapply]
  split_ifs <;> first | (exfalso; simp_all; omega) | (simp_all; omega) | simp_all

/-- What `CreateCache` makes of equal positive TTLs: the default TTL stays, the
short TTL is set to 0 and the short window stays in force. -/
theorem CreateCache_equal_ttls (cacheName : String) (c : CacheConfig) (t : Int)
    (ht : 0 < t) (hd : c.DefaultTimeoutSec = t) (hs : c.ShortTimeoutSec = t) :
    (CreateCache cacheName c).1.DefaultTimeoutSec = t ∧
      (CreateCache cacheName c).1.ShortTimeoutSec = 0 ∧
      (CreateCache cacheName c).1.ShortDuration ≠ 0 := by
  have hh : hour ≠ 0 := by decide
  simp only [CreateCache]
  split_ifs <;> first | (exfalso; simp_all; omega) | simp_all

/-- C27 fails on the code: with short and default TTL both 60 seconds,
`CreateCache` keeps the default TTL 60 and sets the short TTL to 0 (equal TTLs
take the branch commented `short timeout not need due to equal`) while the
short window of 3 hours stays in force; `GetCacheTimeout` then returns the TTL
0 for the one-hour window that ended 50 seconds ago, so that request is not
cached, and 60 for the one-day window. The same holds for all equal positive
TTLs. -/
theorem CreateCache_equal_ttls_zero_short :
    (CreateCache "index" equalTtlConfig).1.DefaultTimeoutSec = 60 ∧
    (CreateCache "index" equalTtlConfig).1.ShortTimeoutSec = 0 ∧
    (CreateCache "index" equalTtlConfig).1.ShortDuration = 3 * hour ∧
    GetCacheTimeout 1704153650 1704150000 1704153600 (CreateCache "index" equalTtlConfig).1 =
      (0, "0", .ShortCacheMetrics) ∧
    GetCacheTimeout 1704153650 1704067200 1704153600 (CreateCache "index" equalTtlConfig).1 =
      (60, "60", .DefaultCacheMetrics) ∧
    (∀ (cacheName : String) (c : CacheConfig) (t : Int), 0 < t →
      c.DefaultTimeoutSec = t → c.ShortTimeoutSec = t →
      (CreateCache cacheName c).1.DefaultTimeoutSec = t ∧
        (CreateCache cacheName c).1.ShortTimeoutSec = 0 ∧
        (CreateCache cacheName c).1.ShortDuration ≠ 0) :=
  ⟨by decide, by decide, by decide, by decide, by decide, CreateCache_equal_ttls⟩

/-! ## NeedLoadAvgColect -/

theorem NeedLoadAvgColect_iff (c : Config) :
    NeedLoadAvgColect c = true ↔
      c.common.SD ≠ "" ∨ c.clickHouse.RenderAdaptiveQueries > 0 ∨
      c.clickHouse.FindAdaptiveQueries > 0 ∨ c.clickHouse.TagsAdaptiveQueries > 0 ∨
      ∃ u ∈ c.clickHouse.UserLimits, u.2.AdaptiveQueries > 0 := by
  unfold NeedLoadAvgColect
  split_ifs with h1 h2 h3 h4
  · simp [h1]
  · simp [h2]
  · simp [h3]
  · simp [h4]
  · simp only [List.any_eq_true, decide_eq_true_eq]
    constructor
    · rintro ⟨u, hu, hpos⟩
      exact Or.inr (Or.inr (Or.inr (Or.inr ⟨u, hu, hpos⟩)))
    · rintro (h | h | h | h | h)
      · exact absurd h h1
      · exact absurd h h2
      · exact absurd h h3
      · exact absurd h h4
      · exact h

/-- C23 fails on the code: in `adaptiveTierConfig` the query-params tier for one
hour and more has `adaptive-queries = 4`, `Unmarshal` accepts it and keeps the
value for the limiter of that tier, and `NeedLoadAvgColect` returns false both
before and after `Unmarshal`. The method looks at service discovery, at the
render, find and tags settings and at the user limits, and never at
`QueryParams`. -/
theorem NeedLoadAvgColect_ignores_tiers :
    NeedLoadAvgColect adaptiveTierConfig = false ∧
    adaptiveTierConfig.clickHouse.QueryParams.map QueryParam.AdaptiveQueries = [4] ∧
    (Unmarshal exampleUrlValid envAllOk adaptiveTierConfig).toOption.map
        (fun c => (NeedLoadAvgColect c,
          c.clickHouse.QueryParams.map QueryParam.AdaptiveQueries)) = some (false, [0, 4]) ∧
    (∀ c : Config, NeedLoadAvgColect c = true ↔
      c.common.SD ≠ "" ∨ c.clickHouse.RenderAdaptiveQueries > 0 ∨
      c.clickHouse.FindAdaptiveQueries > 0 ∨ c.clickHouse.TagsAdaptiveQueries > 0 ∨
      ∃ u ∈ c.clickHouse.UserLimits, u.2.AdaptiveQueries > 0) :=
  ⟨by decide, by decide, by decide, NeedLoadAvgColect_iff⟩

/-! ## The cache: lock order, sweeps of reserved entries, lock modes -/

/-- What `LockEntry` does for a key whose entry lock is taken, on a cache whose
map lock is free: it waits for the entry lock with the map lock held for
writing. -/
theorem LockEntry_blocked_holding (c : Cache) (key : String) (e : CacheEntry)
    (hfree : c.lock = RWMutex.free) (hget : c.data.get key = some e)
    (hlocked : e.lock.Lock = none) :
    c.LockEntry key = .blocked { c with lock := { writer := true, readers := 0 } } := by
  unfold Cache.LockEntry
  rw [hfree, RWMutex.Lock_free]
  simp only
  rw [hget]
  simp only [hlocked]

/-- While the map lock is held for writing every cache operation waits. -/
theorem operations_wait_for_map_lock (c : Cache) (hw : c.lock.writer = true) :
    (∀ key, c.LockEntry key = .blocked c) ∧
    (∀ key, c.GetEntry key = .blocked c) ∧
    (∀ now key r expire, c.PutEntry now key r expire = .blocked c) ∧
    (∀ key, c.DeleteEntry key = .blocked c) ∧
    (∀ now, c.ExpireEntries now = .blocked c) := by
  have hL : c.lock.Lock = none := by simp [RWMutex.Lock, hw]
  have hR : c.lock.RLock = none := by simp [RWMutex.RLock, hw]
  refine ⟨?_, ?_, ?_, ?_, ?_⟩
  · intro key; unfold Cache.LockEntry; rw [hL]
  · intro key; unfold Cache.GetEntry; rw [hR]
  · intro now key r expire; unfold Cache.PutEntry; rw [hR]
  · intro key; unfold Cache.DeleteEntry; rw [hL]
  · intro now; unfold Cache.ExpireEntries; rw [hL]

/-- C25 fails on the code: `LockEntry("k")` on a cache where `"k"` is reserved
takes the map lock, finds the entry and waits in `e.Lock()` with the map lock
still held for writing (`c.Unlock()` comes after `e.Lock()`). In that state a
lookup of the other key `"j"`, a reservation of `"j"` and the `PutEntry("k")`
of the producer that holds the reservation all wait for the map lock. This is
so for every cache and every key whose entry lock is taken. -/
theorem LockEntry_waits_with_map_lock :
    reservedCache.LockEntry "k" = .blocked waitingCache ∧
    waitingCache.lock = { writer := true, readers := 0 } ∧
    waitingCache.GetEntry "j" = .blocked waitingCache ∧
    waitingCache.LockEntry "j" = .blocked waitingCache ∧
    waitingCache.PutEntry 100000000000 "k" exampleResult 10000000000 = .blocked waitingCache ∧
    (∀ (c : Cache) (key : String) (e : CacheEntry), c.lock = RWMutex.free →
      c.data.get key = some e → e.lock.Lock = none →
      c.LockEntry key = .blocked { c with lock := { writer := true, readers := 0 } } ∧
      ∀ other : String,
        Cache.GetEntry { c with lock := { writer := true, readers := 0 } } other =
          .blocked { c with lock := { writer := true, readers := 0 } }) := by
  refine ⟨by decide, by decide, by decide, by decide, by decide, ?_⟩
  intro c key e hfree hget hlocked
  exact ⟨LockEntry_blocked_holding c key e hfree hget hlocked,
    (operations_wait_for_map_lock _ rfl).2.1⟩

/-- C28 fails on the code: `LockEntry("k")` on the empty cache leaves the entry
with `expire = 0` and `done = false`; the sweep at second 100 deletes it
(`0 < 100`), so the key is gone and the later `PutEntry("k")` of the producer
finds no entry and stores nothing. Every reserved entry that was never
published has `expire = 0` and is removed by every sweep at a positive time. -/
theorem ExpireEntries_removes_reservation :
    Cache.empty.LockEntry "k" = .returned () reservedCache ∧
    reservedCache.data.get "k" =
      some { expire := 0, lock := { writer := true, readers := 0 }, result := none,
             done := false } ∧
    reservedCache.ExpireEntries 100 = .returned () sweptCache ∧
    sweptCache.data.get "k" = none ∧
    (sweptCache.PutEntry 100000000000 "k" exampleResult 10000000000).cache.data = [] ∧
    (∀ (c : Cache) (now : Int) (key : String) (e : CacheEntry), c.data.WF →
      c.lock = RWMutex.free → c.data.get key = some e → e.done = false → e.expire = 0 →
      0 < now → ∃ c', c.ExpireEntries now = .returned () c' ∧ c'.data.get key = none) := by
  refine ⟨by decide, by decide, by decide, by decide, by decide, ?_⟩
  intro c now key e hwf hfree hget _ hexp hnow
  obtain ⟨c', h1, h2, -⟩ := ExpireEntries_effect c now hwf hfree
  refine ⟨c', h1, ?_⟩
  rw [h2 key e hget, if_pos (by omega)]

/-- C29 fails on the code: `CacheEntry.Result`, `GetEntry` and `PutEntry` take
a lock with `RLock` and give it back with `Unlock`. On an unlocked published
entry `Result` ends in the fatal error with the entry lock still read-locked;
`GetEntry("k")` on the cache that holds it ends the same way with the map lock
and the entry lock read-locked; `PutEntry("k")` on the reserved key frees the
entry lock it holds for writing and ends in the fatal error with the map lock
read-locked. None of the three operations ever returns. -/
theorem read_locks_released_with_Unlock :
    publishedEntry.Result =
      .fatal { publishedEntry with lock := { writer := false, readers := 1 } } ∧
    publishedOne.GetEntry "k" = .fatal
      { publishedOne with
        lock := { writer := false, readers := 1 },
        data := [("k", { publishedEntry with lock := { writer := false, readers := 1 } })] } ∧
    (reservedCache.PutEntry 100000000000 "k" exampleResult 10000000000).cache.lock =
      { writer := false, readers := 1 } ∧
    reservedCache.PutEntry 100000000000 "k" exampleResult 10000000000 =
      .fatal (reservedCache.PutEntry 100000000000 "k" exampleResult 10000000000).cache ∧
    (∀ e : CacheEntry, e.Result = .blocked e ∨ ∃ e1, e.Result = .fatal e1) ∧
    (∀ (c : Cache) (key : String), (c.GetEntry key).isReturned = false) ∧
    (∀ (c : Cache) (now : Int) (key : String) (r : Result) (expire : Int),
      (c.PutEntry now key r expire).isReturned = false) :=
  ⟨by decide, by decide, by decide, by decide, Result_never_returns,
    GetEntry_never_returns, PutEntry_never_returns⟩

/-! ## ReadUvarint -/

theorem encUvarint_small (y : Nat) (h : y < 128) : encUvarint y = [y] := by
  rw [encUvarint, dif_pos h]

theorem encUvarint_large (y : Nat) (h : ¬ y < 128) :
    encUvarint y = (y % 128 + 128) :: encUvarint (y / 128) := by
  rw [encUvarint, dif_neg h]

theorem encUvarint_bytes (y : Nat) : ∀ b ∈ encUvarint y, b < 256 := by
  induction y using Nat.strong_induction_on with
  | _ y ih =>
    intro b hb
    by_cases h : y < 128
    · rw [encUvarint_small y h, List.mem_singleton] at hb
      omega
    · rw [encUvarint_large y h, List.mem_cons] at hb
      rcases hb with hb | hb
      · omega
      · exact ih (y / 128) (by omega) b hb

theorem lor_shlUint64 (x v s : Nat) (hx : x < 2 ^ s)
    (hv : v * 2 ^ s < 18446744073709551616) :
    x ||| shlUint64 v s = x + v * 2 ^ s := by
  unfold shlUint64
  rw [Nat.shiftLeft_eq, Nat.mod_eq_of_lt hv, Nat.lor_comm, Nat.mul_comm v,
    ← Nat.mul_add_lt_is_or hx, Nat.add_comm]

theorem readUvarintLoop_enc (y : Nat) :
    ∀ (rest : List Nat) (i x s : Nat), s = 7 * i → x < 2 ^ s →
      x + y * 2 ^ s < 18446744073709551616 → (i = 0 ∨ 1 ≤ y) →
      readUvarintLoop (encUvarint y ++ rest) i x s =
        (x + y * 2 ^ s, i + (encUvarint y).length, none) := by
  induction y using Nat.strong_induction_on with
  | _ y ih =>
    intro rest i x s hs hx hlt hpos
    have hP : 0 < 2 ^ s := Nat.two_pow_pos s
    by_cases h : y < 128
    · rw [encUvarint_small y h]
      simp only [List.singleton_append, readUvarintLoop, List.length_singleton]
      rw [if_pos (by omega)]
      have hov : ¬ (i > 9 ∨ (i = 9 ∧ y > 1)) := by
        rintro (h9 | ⟨h9, hy⟩)
        · have hy1 : 1 ≤ y := by omega
          have h70 : 2 ^ 70 ≤ 2 ^ s := Nat.pow_le_pow_right (by norm_num) (by omega)
          have : 2 ^ 70 ≤ y * 2 ^ s := le_trans h70 (Nat.le_mul_of_pos_left _ hy1)
          norm_num at this
          omega
        · have h63 : s = 63 := by omega
          subst h63
          norm_num at hlt
          omega
      rw [if_neg hov, lor_shlUint64 x y s hx (by omega)]
    · rw [encUvarint_large y h]
      simp only [List.cons_append, readUvarintLoop, List.length_cons, List.append_eq]
      rw [if_neg (by omega)]
      have hand : (y % 128 + 128) &&& 0x7f = y % 128 := by
        have := Nat.and_pow_two_sub_one_eq_mod (y % 128 + 128) 7
        norm_num at this
        rw [this]
      have hsplit : y * 2 ^ s = y % 128 * 2 ^ s + y / 128 * 2 ^ (s + 7) := by
        rw [Nat.pow_add]
        have := Nat.div_add_mod y 128
        calc y * 2 ^ s = (128 * (y / 128) + y % 128) * 2 ^ s := by rw [this]
          _ = y % 128 * 2 ^ s + y / 128 * (2 ^ s * 2 ^ 7) := by ring
      have hr : y % 128 * 2 ^ s ≤ 127 * 2 ^ s := Nat.mul_le_mul_right _ (by omega)
      rw [hand, lor_shlUint64 x (y % 128) s hx (by omega)]
      rw [ih (y / 128) (by omega) rest (i + 1) (x + y % 128 * 2 ^ s) (s + 7) (by omega)
        (by rw [Nat.pow_add]; omega) (by omega) (Or.inr (by omega))]
      refine Prod.ext (by simp only; omega) (Prod.ext (by simp only; omega) rfl)

/-- C30: `ReadUvarint` decodes the standard unsigned base-128 varint. For every
`x` below `2^64` and every byte sequence `rest`, `ReadUvarint(enc(x) ++ rest)`
is `x`, the length of `enc(x)` and no error; `enc(x)` consists of bytes. -/
theorem ReadUvarint_enc (x : Nat) (rest : List Nat) (hx : x < 18446744073709551616) :
    ReadUvarint (encUvarint x ++ rest) = (x, (encUvarint x).length, none) ∧
    (∀ b ∈ encUvarint x, b < 256) := by
  refine ⟨?_, encUvarint_bytes x⟩
  unfold ReadUvarint
  rw [readUvarintLoop_enc x rest 0 0 0 rfl (by norm_num) (by simpa using hx) (Or.inl rfl)]
  simp

/-- C30 at a concrete input: the two-byte encoding `[172, 2]` of 300, followed by
another byte. -/
theorem ReadUvarint_enc_witness :
    ReadUvarint (encUvarint 300 ++ [5]) = (300, (encUvarint 300).length, none) ∧
    (∀ b ∈ encUvarint 300, b < 256) :=
  ReadUvarint_enc 300 [5] (by decide)

/-! ## The header X-Cached-Find -/

theorem extractClickhouseError_status (e : String) :
    (extractClickhouseError e).1 = 403 ∨ (extractClickhouseError e).1 = 503 ∨
      (extractClickhouseError e).1 = 400 := by
  unfold extractClickhouseError
  simp only
  split_ifs <;> simp

theorem HandleError_status_ne_ok (err : Err) : (HandleError err).status ≠ 200 := by
  cases err with
  | ErrWithDescr e d =>
    simp only [HandleError]
    rcases extractClickhouseError_status (Err.ErrWithDescr e d).Error with h | h | h <;>
      rw [h] <;> decide
  | ErrorWithCode e code =>
    simp only [HandleError, Err.asNetError]
    split_ifs with h
    · rcases h with h | h | h <;> simp only <;> omega
    · simp
  | netError text t =>
    simp only [HandleError, Err.asNetError]
    split_ifs <;> decide
  | netErrorWrapping text t cause =>
    simp only [HandleError, Err.asNetError]
    split_ifs <;> decide
  | wrapped text cause =>
    simp only [HandleError, Err.asNetError]
    split_ifs <;> simp
  | _ => simp [HandleError, Err.asNetError, Err.IsCanceled]

theorem renderFind_header (env : RenderEnv) (useCache : Bool)
    (fetchRequests : List CachedTargets) (metricsLen : Int) (maxCacheTimeoutStr : String)
    (out : Rendered)
    (hs : (renderFind env useCache fetchRequests metricsLen maxCacheTimeoutStr true out).status
      = 200) :
    (renderFind env useCache fetchRequests metricsLen maxCacheTimeoutStr true out).xCachedFind =
      some maxCacheTimeoutStr := by
  unfold renderFind at hs ⊢
  simp only at hs ⊢
  cases hr : (Find env.enabled env.enter env.find
      (fetchRequests.map CachedTargets.toFetchRequest) env.sched).err with
  | some e =>
    rw [hr] at hs
    exact absurd hs (HandleError_status_ne_ok _)
  | none =>
    rw [hr] at hs
    simp only [if_true] at hs ⊢
    split_ifs at hs ⊢ with h1
    · simp at hs
    · cases hfetch : env.fetch with
      | error e => rfl
      | ok n =>
        simp only
        split_ifs <;> rfl

/-- The header of a successful response for which `FinderCached` served a
target from the cache is the string `FinderCached` leaves in
`maxCacheTimeoutStr`. -/
theorem ServeHTTP_cached_header (env : RenderEnv) (reqs : List CachedTargets)
    (hf : env.formatterErr = none) (hp : env.parsed = .ok reqs)
    (hc : env.findCache = true) (hn : env.noCache = false)
    (hcached : 0 < (FinderCached env.cacheConfig env.loc env.start env.cacheGet env.amLen
      reqs 0).cachedFind)
    (hs : (ServeHTTP env).status = 200) :
    (ServeHTTP env).xCachedFind =
      some (FinderCached env.cacheConfig env.loc env.start env.cacheGet env.amLen
        reqs 0).maxCacheTimeoutStr := by
  obtain ⟨n, hck⟩ := checkTimeFrames_nil_err reqs 0
  have herr : (FinderCached env.cacheConfig env.loc env.start env.cacheGet env.amLen
      reqs 0).err = none := rfl
  unfold ServeHTTP at hs ⊢
  simp only [hf, hp, hck, hc, hn, Bool.not_false, Bool.and_self, if_true, herr, hcached]
    at hs ⊢
  split_ifs at hs ⊢ with h1
  · simp at hs
  · exact renderFind_header _ _ _ _ _ _ hs

theorem finderCachedGoroutine_maxvars (cacheConfig : CacheConfig) (loc : Location) (ts : Int)
    (cacheGet : String → Option String) (amLen : Nat → Nat → Int)
    (a : Nat) (from_ until_ : Int) (target : String) (n : Nat)
    (item : CachedItem) (st : CachedState) :
    (finderCachedGoroutine cacheConfig loc ts cacheGet amLen a from_ until_ target n
        item st).2.maxCacheTimeout =
      (if 0 < (GetCacheTimeout ts from_ until_ cacheConfig).1 ∧
          st.maxCacheTimeout < (GetCacheTimeout ts from_ until_ cacheConfig).1 then
        (GetCacheTimeout ts from_ until_ cacheConfig).1 else st.maxCacheTimeout) ∧
    (finderCachedGoroutine cacheConfig loc ts cacheGet amLen a from_ until_ target n
        item st).2.maxCacheTimeoutStr =
      (if 0 < (GetCacheTimeout ts from_ until_ cacheConfig).1 ∧
          st.maxCacheTimeout < (GetCacheTimeout ts from_ until_ cacheConfig).1 then
        (GetCacheTimeout ts from_ until_ cacheConfig).2.1 else st.maxCacheTimeoutStr) := by
  simp only [finderCachedGoroutine]
  by_cases h : (GetCacheTimeout ts from_ until_ cacheConfig).1 > 0
  · rw [if_pos h]
    have h' : 0 < (GetCacheTimeout ts from_ until_ cacheConfig).1 := h
    simp only [h', true_and]
    generalize cacheGet _ = g
    cases g with
    | none => simp only; split_ifs <;> exact ⟨rfl, rfl⟩
    | some body => simp only; split_ifs <;> exact ⟨rfl, rfl⟩
  · rw [if_neg h]
    have h' : ¬ 0 < (GetCacheTimeout ts from_ until_ cacheConfig).1 := h
    simp only [h', false_and, if_false, and_self]

theorem MaxInv_step (seen : List (Int × String)) (m : Int) (str : String)
    (ttl : Int × String) (h : MaxInv seen m str) :
    MaxInv (seen ++ [ttl]) (if 0 < ttl.1 ∧ m < ttl.1 then ttl.1 else m)
      (if 0 < ttl.1 ∧ m < ttl.1 then ttl.2 else str) := by
  obtain ⟨h1, h2⟩ := h
  have hm : 0 ≤ m := by rcases h2 with ⟨h, -⟩ | ⟨h, -⟩ <;> omega
  by_cases hc : 0 < ttl.1 ∧ m < ttl.1
  · rw [if_pos hc, if_pos hc]
    refine ⟨?_, Or.inr ⟨hc.1, by simp⟩⟩
    intro p hp
    rcases List.mem_append.1 hp with hp | hp
    · have := h1 p hp; omega
    · rw [List.mem_singleton] at hp; rw [hp]
  · rw [if_neg hc, if_neg hc]
    refine ⟨?_, ?_⟩
    · intro p hp
      rcases List.mem_append.1 hp with hp | hp
      · exact h1 p hp
      · rw [List.mem_singleton] at hp
        rw [hp]
        by_contra hlt
        exact hc ⟨by omega, by omega⟩
    · rcases h2 with h | ⟨h3, h4⟩
      · exact Or.inl h
      · exact Or.inr ⟨h3, List.mem_append_left _ h4⟩

theorem finderCachedInner_max (cacheConfig : CacheConfig) (loc : Location) (ts : Int)
    (cacheGet : String → Option String) (amLen : Nat → Nat → Int)
    (a : Nat) (from_ until_ : Int) :
    ∀ (slots : List CachedSlot) (i : Nat) (st : CachedState) (seen : List (Int × String)),
      MaxInv seen st.maxCacheTimeout st.maxCacheTimeoutStr →
      MaxInv (seen ++ slots.map (fun _ => ((GetCacheTimeout ts from_ until_ cacheConfig).1,
          (GetCacheTimeout ts from_ until_ cacheConfig).2.1)))
        (finderCachedInner cacheConfig loc ts cacheGet amLen a from_ until_
          slots i st).2.maxCacheTimeout
        (finderCachedInner cacheConfig loc ts cacheGet amLen a from_ until_
          slots i st).2.maxCacheTimeoutStr := by
  intro slots
  induction slots with
  | nil => intro i st seen h; simpa [finderCachedInner] using h
  | cons s rest ih =>
    intro i st seen h
    rw [finderCachedInner]
    simp only [List.map_cons]
    have hstep := MaxInv_step seen _ _ ((GetCacheTimeout ts from_ until_ cacheConfig).1,
      (GetCacheTimeout ts from_ until_ cacheConfig).2.1) h
    obtain ⟨e1, e2⟩ := finderCachedGoroutine_maxvars cacheConfig loc ts cacheGet amLen a
      from_ until_ s.target i s.item st
    rw [← e1, ← e2] at hstep
    have := ih (i + 1) _ _ hstep
    rw [List.append_assoc] at this
    exact this

theorem finderCachedOuter_max (cacheConfig : CacheConfig) (loc : Location) (ts : Int)
    (cacheGet : String → Option String) (amLen : Nat → Nat → Int) :
    ∀ (reqs : List CachedTargets) (a : Nat) (st : CachedState) (seen : List (Int × String)),
      MaxInv seen st.maxCacheTimeout st.maxCacheTimeoutStr →
      MaxInv (seen ++ selectedTtls cacheConfig ts reqs)
        (finderCachedOuter cacheConfig loc ts cacheGet amLen reqs a st).2.maxCacheTimeout
        (finderCachedOuter cacheConfig loc ts cacheGet amLen reqs a st).2.maxCacheTimeoutStr := by
  intro reqs
  induction reqs with
  | nil => intro a st seen h; simpa [finderCachedOuter, selectedTtls] using h
  | cons t rest ih =>
    intro a st seen h
    rw [finderCachedOuter, selectedTtls]
    have h1 := finderCachedInner_max cacheConfig loc ts cacheGet amLen a t.From t.Until
      t.slots 0 st seen h
    have := ih (a + 1) _ _ h1
    rw [List.append_assoc] at this
    exact this

/-- When the goroutines of `FinderCached` run one after the other, the string
it returns belongs to the largest TTL selected for a target of the request, and
is empty when no target selected a positive TTL. -/
theorem FinderCached_max_one_by_one (cacheConfig : CacheConfig) (loc : Location) (ts : Int)
    (cacheGet : String → Option String) (amLen : Nat → Nat → Int)
    (fetchRequests : List CachedTargets) (metricsLen : Int) :
    ∃ m, MaxInv (selectedTtls cacheConfig ts fetchRequests) m
      (FinderCached cacheConfig loc ts cacheGet amLen fetchRequests
        metricsLen).maxCacheTimeoutStr := by
  have h := finderCachedOuter_max cacheConfig loc ts cacheGet amLen fetchRequests 0
    { maxCacheTimeout := 0, maxCacheTimeoutStr := "", metricsLen := metricsLen, gets := [] } []
    ⟨by simp, Or.inl ⟨rfl, rfl⟩⟩
  rw [List.nil_append] at h
  exact ⟨_, h⟩

/-- C22 fails on the code: the goroutines of `FinderCached` test and assign
`maxCacheTimeout` and `maxCacheTimeoutStr` without a lock. For the request
`hourAndDay` the selected TTLs are 10 and 600 seconds. When the goroutine of
the first target passes its test `maxCacheTimeout < 10` before the goroutine of
the second target assigns 600, and makes its own assignments after it, all
goroutines are finished and the shared string is "10", not the string of the
largest TTL. When the goroutines run one after the other the string is "600"
and the handler answers with status 200 and `X-Cached-Find: 600`. In every
successful response with a target served from the cache the header is the
string `FinderCached` leaves, and that string belongs to the largest selected
TTL whenever the goroutines do not interleave. -/
theorem cached_find_header_not_always_max :
    selectedTtls exampleCacheConfig 1704153650 hourAndDay = [(10, "10"), (600, "600")] ∧
    maxRace (selectedTtls exampleCacheConfig 1704153650 hourAndDay) [0, 1, 1, 1, 0, 0] =
      { pcs := [.done, .done],
        vars := { maxCacheTimeout := 10, maxCacheTimeoutStr := "10" } } ∧
    maxRace (selectedTtls exampleCacheConfig 1704153650 hourAndDay) (oneByOne 2) =
      { pcs := [.done, .done],
        vars := { maxCacheTimeout := 600, maxCacheTimeoutStr := "600" } } ∧
    (ServeHTTP cachedHourAndDay).status = 200 ∧
    (ServeHTTP cachedHourAndDay).cachedFind = true ∧
    (ServeHTTP cachedHourAndDay).xCachedFind = some "600" ∧
    (∀ (env : RenderEnv) (reqs : List CachedTargets),
      env.formatterErr = none → env.parsed = .ok reqs →
      env.findCache = true → env.noCache = false →
      0 < (FinderCached env.cacheConfig env.loc env.start env.cacheGet env.amLen
        reqs 0).cachedFind →
      (ServeHTTP env).status = 200 →
      (ServeHTTP env).xCachedFind =
        some (FinderCached env.cacheConfig env.loc env.start env.cacheGet env.amLen
          reqs 0).maxCacheTimeoutStr) ∧
    (∀ (cacheConfig : CacheConfig) (loc : Location) (ts : Int)
        (cacheGet : String → Option String) (amLen : Nat → Nat → Int)
        (fetchRequests : List CachedTargets) (metricsLen : Int),
      ∃ m, MaxInv (selectedTtls cacheConfig ts fetchRequests) m
        (FinderCached cacheConfig loc ts cacheGet amLen fetchRequests
          metricsLen).maxCacheTimeoutStr) :=
  ⟨by decide, by decide, by decide, by decide, by decide, by decide,
    ServeHTTP_cached_header, FinderCached_max_one_by_one⟩

end GraphiteClickhouse
